import Mathlib

/-!
# Hash-aggregate code generation kernel

A shallow embedding of `HashAggregateKernel::Impl` from
`cpp/src/codegen/arrow_compute/ext/hash_aggregate_kernel.cc`: the kernel
constructor, the action scan, the expression-pool evaluation loop, the key
encoding, the per-action dispatch and the paginated finish block of `DoCodeGen`,
followed by theorems about them.

Conventions of the embedding.

* A `std::stringstream` is a list of fragments (`Frag`): one fragment per
  `<<` chain of the source, `Frag.line` when the chain ends in `std::endl`.
  `render` gives back the text of the stream.
* `std::vector<int>` indices are natural numbers; `level` is an `Int`.
* The helpers that live in other files of the repository (`GetTypeString`,
  `GetCTypeString`, `GetArrowTypeDefString`, `GetParameterList`) and the
  expression evaluator `MakeExpressionCodegenVisitor` are parameters.
-/

namespace HashAggregate

/-! ## Data model -/

/-- The `arrow::Type::type` ids a node's return type can carry. -/
inductive TypeId
  | NA | BOOL | UINT8 | INT8 | UINT16 | INT16 | UINT32 | INT32 | UINT64 | INT64
  | HALF_FLOAT | FLOAT | DOUBLE | STRING | BINARY | DATE32 | DATE64 | TIMESTAMP
  | DECIMAL
  deriving DecidableEq, Repr

/-- An `arrow::DataType`, observed through `id()`. -/
structure DataType where
  id : TypeId
  deriving DecidableEq, Repr

/-- A `gandiva::Node` as the kernel observes an argument expression or a result
node: its textual rendering `ToString()` and its `return_type()`. -/
structure Node where
  ToString : String
  return_type : DataType
  deriving DecidableEq, Repr

/-- A `gandiva::FunctionNode` of the action list: `descriptor()->name()`,
`children()` and `return_type()`. -/
structure FunctionNode where
  name : String
  children : List Node
  return_type : DataType
  deriving DecidableEq, Repr

/-- An `arrow::Status` that is not OK. -/
inductive Status
  | Invalid (msg : String)
  | NotImplemented (msg : String)
  | Other (msg : String)
  deriving DecidableEq, Repr

/-- How `DoCodeGen` can fail: `RETURN_NOT_OK` returns the status of the callee,
`THROW_NOT_OK` leaves the function with the status as an exception. -/
inductive Failure
  | returned (s : Status)
  | thrown (s : Status)
  deriving DecidableEq, Repr

/-- One `<<` chain written to a string stream. `snippet slot s` is the chain
`<< project_output_list[slot].first.second << std::endl`, where `s` is the
value the entry holds when it is written. -/
inductive Frag
  | text (s : String)
  | line (s : String)
  | snippet (slot : Nat) (s : String)
  deriving DecidableEq, Repr

/-- The characters a fragment puts on the stream. -/
def Frag.str : Frag → String
  | .text s => s
  | .line s => s ++ "\n"
  | .snippet _ s => s ++ "\n"

/-- The `str()` of a stream. -/
def render (fs : List Frag) : String :=
  fs.foldl (fun acc f => acc ++ f.str) ""

/-- The result of `MakeExpressionCodegenVisitor` for one expression. -/
structure Visitor where
  GetResult : String
  GetPreCheck : String
  GetPrepare : String
  GetHeaders : List String
  deriving DecidableEq, Repr

/-- Helpers of `codegen_common.h`, whose definitions are in other files. The
second argument of `GetParameterList` is `none` at the call that leaves it to
the declared default. -/
structure Helpers where
  GetTypeString : DataType → String → String
  GetCTypeString : DataType → String
  GetArrowTypeDefString : DataType → String
  GetParameterList : List String → Option Bool → String

/-- The call `MakeExpressionCodegenVisitor(node, &input, {input_field_list_},
level, var_id, is_local, &input_list, &project_node_visitor, false)` with
`is_local = false`: the status it returns, the visitor it builds, and what it
leaves in the state it can write (`input` and `*var_id`), of type `σ`. -/
abbrev Evaluator (σ : Type) := Node → Int → σ → Except Status (Visitor × σ)

/-- A `GandivaProjector` built over a schema and the result expressions. -/
structure GandivaProjector where
  schema : List Node
  exprs : List Node
  deriving DecidableEq, Repr

/-- The `CodeGenContext` a kernel hands to the stage assembly. -/
structure CodeGenContext where
  header_codes : List String
  function_list : List String
  prepare_codes : List Frag
  process_codes : List Frag
  definition_codes : List Frag
  aggregate_prepare_codes : List Frag
  aggregate_finish_codes : List Frag
  aggregate_finish_condition_codes : List Frag
  unsafe_row_prepare_codes : List Frag
  gandiva_projector : Option GandivaProjector
  deriving DecidableEq, Repr

/-- The private members of `HashAggregateKernel::Impl` that `DoCodeGen` reads. -/
structure Impl where
  input_field_list_ : List Node
  action_list_ : List FunctionNode
  result_field_list_ : List Node
  result_expr_list_ : List Node
  deriving DecidableEq, Repr

/-! ## The constructor -/

/-- The loop of the constructor over `i < tmp_size`: `no_result_project` stays
true unless some position has different renderings. -/
def no_result_project : List Node → List Node → Bool
  | f :: fs, e :: es => if f.ToString ≠ e.ToString then false else no_result_project fs es
  | _, _ => true

/-- The constructor `Impl::Impl`. -/
def Impl.new (input_field_list : List Node) (action_list : List FunctionNode)
    (result_field_node_list result_expr_node_list : List Node) : Impl :=
  if result_field_node_list.length = result_expr_node_list.length ∧
      no_result_project result_field_node_list result_expr_node_list = true then
    { input_field_list_ := input_field_list, action_list_ := action_list,
      result_field_list_ := [], result_expr_list_ := [] }
  else
    { input_field_list_ := input_field_list, action_list_ := action_list,
      result_field_list_ := result_field_node_list,
      result_expr_list_ := result_expr_node_list }

/-! ## Step 1: the action scan -/

/-- The value of `s.compare(0, n, lit) == 0`. -/
def compareStart (s : String) (n : Nat) (lit : String) : Bool :=
  decide (s.toList.take n = lit.toList)

/-- The inner `for (int i = 0; i < prepare_function_list.size(); i++)` loop: the
first index whose entry renders like `child`, at which the loop breaks. -/
def findSlot (child : Node) : List Node → Option Nat
  | [] => none
  | tmp_node :: rest =>
    if tmp_node.ToString = child.ToString then some 0
    else (findSlot child rest).map (· + 1)

/-- The vectors the action scan fills. -/
structure ScanState where
  action_name_list : List (String × DataType)
  action_prepare_index_list : List (List Nat)
  key_index_list : List Nat
  prepare_function_list : List Node
  key_node_list : List Node
  deriving DecidableEq, Repr

/-- The vectors before the first action. -/
def ScanState.init : ScanState :=
  { action_name_list := [], action_prepare_index_list := [], key_index_list := [],
    prepare_function_list := [], key_node_list := [] }

/-- The body of `for (auto child_node : func_node->children())`, on the scan
vectors and the `child_prepare_idxs` of the current action. -/
def scanChild (func_name : String) (acc : ScanState × List Nat) (child_node : Node) :
    ScanState × List Nat :=
  let st := acc.1
  let child_prepare_idxs := acc.2
  match findSlot child_node st.prepare_function_list with
  | some i =>
    (if func_name = "action_groupby" then
        { st with key_index_list := st.key_index_list ++ [i],
                  key_node_list := st.key_node_list ++ [child_node] }
      else st,
      child_prepare_idxs ++ [i])
  | none =>
    let st1 :=
      if func_name = "action_groupby" then
        { st with key_index_list := st.key_index_list ++ [st.prepare_function_list.length],
                  key_node_list := st.key_node_list ++ [child_node] }
      else st
    ({ st1 with prepare_function_list := st1.prepare_function_list ++ [child_node] },
      child_prepare_idxs ++ [st.prepare_function_list.length])

/-- The body of `for (auto node : action_list_)`. -/
def scanAction (st : ScanState) (func_node : FunctionNode) : Except Failure ScanState :=
  let func_name := func_node.name
  let type :=
    match func_node.children with
    | c :: _ => c.return_type
    | [] => func_node.return_type
  if compareStart func_name 7 "action_" then
    let st1 := { st with action_name_list := st.action_name_list ++ [(func_name, type)] }
    if compareStart func_name 20 "action_countLiteral_" then
      .ok { st1 with action_prepare_index_list := st1.action_prepare_index_list ++ [[]] }
    else
      let r := func_node.children.foldl (scanChild func_name) (st1, [])
      .ok { r.1 with action_prepare_index_list := r.1.action_prepare_index_list ++ [r.2] }
  else
    .error (.thrown (.Invalid "Expected some with action_ prefix."))

/-- The action scan from a given state of the vectors. -/
def scanFrom : ScanState → List FunctionNode → Except Failure ScanState
  | st, [] => .ok st
  | st, node :: rest =>
    match scanAction st node with
    | .ok st1 => scanFrom st1 rest
    | .error e => .error e

/-- Step 1 of `DoCodeGen`: the scan of the whole action list. -/
def scanActions (action_list : List FunctionNode) : Except Failure ScanState :=
  scanFrom ScanState.init action_list

/-! ## Hash-index selection (lines 166-184) -/

/-- The condition of the first branch: two or more keys, or one key of string
type. -/
def useStringHashMap (key_node_list : List Node) : Bool :=
  decide (key_node_list.length > 1) ||
    (decide (key_node_list.length > 0) &&
      decide ((key_node_list.head?.map (·.return_type.id)) = some TypeId.STRING))

/-- What the selection adds to `header_codes`, `aggr_prepare_ss` and
`define_ss`, in this order. -/
def selectHashTable (H : Helpers) (level : Int) (key_node_list : List Node) :
    List String × List Frag × List Frag :=
  if useStringHashMap key_node_list then
    (["#include \"precompile/hash_map.h\""],
     [.line ("aggr_hash_table_" ++ toString level ++ " = std::make_shared<"
        ++ H.GetTypeString ⟨.STRING⟩ "" ++ "HashMap>(ctx_->memory_pool());")],
     [.line ("std::shared_ptr<" ++ H.GetTypeString ⟨.STRING⟩ ""
        ++ "HashMap> aggr_hash_table_" ++ toString level ++ ";")])
  else
    match key_node_list with
    | key0 :: _ =>
      let type := key0.return_type
      (["#include \"precompile/sparse_hash_map.h\""],
       [.line ("aggr_hash_table_" ++ toString level ++ " = std::make_shared<"
          ++ "SparseHashMap<" ++ H.GetCTypeString type ++ ">>(ctx_->memory_pool());")],
       [.line ("std::shared_ptr<SparseHashMap<" ++ H.GetCTypeString type
          ++ ">> aggr_hash_table_" ++ toString level ++ ";")])
    | [] => ([], [], [])

/-! ## Step 3: evaluation of the pool expressions (lines 188-208) -/

/-- The loop over `project_node_visitor->GetHeaders()`: a header is pushed
unless `std::find` already finds it. -/
def addHeaders (header_codes : List String) (headers : List String) : List String :=
  headers.foldl (fun acc header => if header ∈ acc then acc else acc ++ [header]) header_codes

/-- The loop `for (auto node : prepare_function_list)`. The state is
`header_codes`, `project_output_list` (the name and the prepare snippet of each
entry; the third component is always `nullptr` and never read) and what the
evaluator can write. `RETURN_NOT_OK` ends the loop at the first failure. -/
def evalPool {σ : Type} (visit : Evaluator σ) (level : Int) :
    List Node → List String × List (String × String) × σ →
    Except Failure (List String × List (String × String) × σ)
  | [], acc => .ok acc
  | node :: rest, (header_codes, project_output_list, s) =>
    match visit node level s with
    | .error e => .error (.returned e)
    | .ok (project_node_visitor, s1) =>
      let key_name := project_node_visitor.GetResult
      evalPool visit level rest
        (addHeaders header_codes project_node_visitor.GetHeaders,
         project_output_list ++ [(key_name, project_node_visitor.GetPrepare)],
         s1)

/-! ## Step 4: the group key (lines 211-252) -/

/-- The entry `project_output_list[i].first`: `.1` is `.first.first`, `.2` is
`.first.second`. An index outside the vector reads as two empty strings. -/
def entry (project_output_list : List (String × String)) (i : Nat) : String × String :=
  project_output_list.getD i ("", "")

/-- The assignment `project_output_list[i].first.second = ""`. -/
def blank (project_output_list : List (String × String)) (i : Nat) :
    List (String × String) :=
  project_output_list.set i ((entry project_output_list i).1, "")

/-- The loop `for (auto i : key_index_list)` of the branch with two or more
keys, from the counter `idx`: the fragments it writes to `prepare_ss` and the
`project_output_list` it leaves. -/
def encodeKeys (unsafe_row_name : String) :
    List Nat → Nat → List (String × String) → List Frag × List (String × String)
  | [], _, project_output_list => ([], project_output_list)
  | i :: rest, idx, project_output_list =>
    let snip := Frag.snippet i (entry project_output_list i).2
    let project_output_list1 := blank project_output_list i
    let key_name := (entry project_output_list1 i).1
    let validity_name := key_name ++ "_validity"
    let r := encodeKeys unsafe_row_name rest (idx + 1) project_output_list1
    ([snip,
      .line ("if (" ++ validity_name ++ ") \x7b"),
      .line ("appendToUnsafeRow(" ++ unsafe_row_name ++ "_unsafe_row.get(), "
        ++ toString idx ++ ", " ++ key_name ++ ");"),
      .line "\x7d else \x7b",
      .line ("setNullAt(" ++ unsafe_row_name ++ "_unsafe_row.get(), " ++ toString idx
        ++ ");"),
      .line "\x7d"] ++ r.1,
     r.2)

/-- What step 4 produces: the header it pushes, `unsafe_row_prepare_codes`,
`prepare_ss` and the `project_output_list` it leaves. -/
structure KeyCodes where
  headers : List String
  unsafe_row_prepare_codes : List Frag
  prepare_ss : List Frag
  project_output_list : List (String × String)
  deriving DecidableEq, Repr

/-- The definition of the row buffer written to `unsafe_row_define_ss` (lines
226-228) for `arity` keys. -/
def rowBufferDecl (level : Int) (arity : Nat) : Frag :=
  .line ("std::shared_ptr<UnsafeRow> " ++ ("aggr_key_" ++ toString level)
    ++ "_unsafe_row = std::make_shared<UnsafeRow>(" ++ toString arity ++ ");")

/-- What the branch for two or more keys writes to `prepare_ss` (lines 230-250)
for the key slots `key_index_list`, and the `project_output_list` it leaves. -/
def rowEncoderCodes (level : Int) (key_index_list : List Nat)
    (project_output_list : List (String × String)) : List Frag × List (String × String) :=
  let unsafe_row_name := "aggr_key_" ++ toString level
  let unsafe_row_name_validity := unsafe_row_name ++ "_validity"
  let r := encodeKeys unsafe_row_name key_index_list 0 project_output_list
  ([.line ("auto " ++ unsafe_row_name_validity ++ " = " ++ "true;"),
    .line (unsafe_row_name ++ "_unsafe_row->reset();")]
    ++ r.1 ++
    [.line ("auto " ++ unsafe_row_name ++ " = std::string(" ++ unsafe_row_name
       ++ "_unsafe_row->data, " ++ unsafe_row_name ++ "_unsafe_row->cursor);")],
   r.2)

/-- The header pushed by the branch for two or more keys (lines 223-224). -/
def unsafeRowHeader : String := "#include \"third_party/row_wise_memory/unsafe_row.h\""

/-- Step 4 of `DoCodeGen`. -/
def keyCodes (level : Int) (key_index_list : List Nat)
    (project_output_list : List (String × String)) : KeyCodes :=
  let unsafe_row_name := "aggr_key_" ++ toString level
  let unsafe_row_name_validity := unsafe_row_name ++ "_validity"
  match key_index_list with
  | [] =>
    { headers := [], unsafe_row_prepare_codes := [], prepare_ss := [],
      project_output_list := project_output_list }
  | [i] =>
    let snip := Frag.snippet i (entry project_output_list i).2
    let project_output_list1 := blank project_output_list i
    { headers := [], unsafe_row_prepare_codes := [],
      prepare_ss :=
        [snip,
         .line ("auto " ++ unsafe_row_name ++ " = " ++ (entry project_output_list1 i).1
           ++ ";"),
         .line ("auto " ++ unsafe_row_name_validity ++ " = "
           ++ (entry project_output_list1 i).1 ++ "_validity;")],
      project_output_list := project_output_list1 }
  | i :: j :: rest =>
    let r := rowEncoderCodes level (i :: j :: rest) project_output_list
    { headers := [unsafeRowHeader],
      unsafe_row_prepare_codes := [rowBufferDecl level (i :: j :: rest).length],
      prepare_ss := r.1,
      project_output_list := r.2 }

/-! ## Step 5: action list and action dispatch (lines 255-318) -/

/-- The loop `for (auto i : idx_v)` that writes the pending snippets of an
action to `action_codes_ss`. -/
def writeSnippets : List Nat → List (String × String) → List Frag × List (String × String)
  | [], project_output_list => ([], project_output_list)
  | i :: rest, project_output_list =>
    let snip := Frag.snippet i (entry project_output_list i).2
    let r := writeSnippets rest (blank project_output_list i)
    (snip :: r.1, r.2)

/-- The body of `for (auto idx_v : action_prepare_index_list)` for the action
with counter `action_idx`. -/
def actionCode (H : Helpers) (level : Int) (action_idx : Nat) (idx_v : List Nat)
    (project_output_list : List (String × String)) : List Frag × List (String × String) :=
  let w := writeSnippets idx_v project_output_list
  let project_output_list1 := w.2
  let guard : List Frag :=
    if idx_v.length > 0 then
      [.line ("if (" ++ (entry project_output_list1 (idx_v.headD 0)).1 ++ "_validity) \x7b")]
    else []
  let parameter_list := idx_v.map (fun i => "(void*)&" ++ (entry project_output_list1 i).1)
  let call : List Frag :=
    [.line ("RETURN_NOT_OK(aggr_action_list_" ++ toString level ++ "[" ++ toString action_idx
       ++ "]->Evaluate(memo_index" ++ H.GetParameterList parameter_list none ++ "));")]
  let orElse : List Frag :=
    if idx_v.length > 0 then
      [.line "\x7d else \x7b",
       .line ("RETURN_NOT_OK(aggr_action_list_" ++ toString level ++ "["
         ++ toString action_idx ++ "]->EvaluateNull(memo_index));"),
       .line "\x7d"]
    else []
  (w.1 ++ guard ++ call ++ orElse, project_output_list1)

/-- The loop `for (auto idx_v : action_prepare_index_list)` from the counter
`action_idx`: `action_codes_ss`, the `project_output_list` it leaves and the
final `action_idx`. -/
def actionCodes (H : Helpers) (level : Int) :
    List (List Nat) → Nat → List (String × String) →
    List Frag × List (String × String) × Nat
  | [], action_idx, project_output_list => ([], project_output_list, action_idx)
  | idx_v :: rest, action_idx, project_output_list =>
    let a := actionCode H level action_idx idx_v project_output_list
    let r := actionCodes H level rest (action_idx + 1) a.2
    (a.1 ++ r.1, r.2)

/-- The null-key lookup written to `process_ss` (lines 304-305). -/
def getOrInsertNullCall (level : Int) : Frag :=
  .line ("  memo_index = aggr_hash_table_" ++ toString level
    ++ "->GetOrInsertNull([](int)\x7b\x7d, [](int)\x7b\x7d);")

/-- The key lookup written to `process_ss` (lines 307-308). -/
def getOrInsertCall (level : Int) : Frag :=
  .line ("   aggr_hash_table_" ++ toString level ++ "->GetOrInsert(aggr_key_"
    ++ toString level ++ ",[](int)\x7b\x7d, [](int)\x7b\x7d, &memo_index);")

/-- The update of the group count written to `process_ss` (lines 311-315). -/
def numGroupsUpdate (level : Int) : List Frag :=
  [.line ("if (memo_index > do_hash_aggr_finish_" ++ toString level ++ "_num_groups) \x7b"),
   .line ("do_hash_aggr_finish_" ++ toString level ++ "_num_groups = memo_index;"),
   .line "\x7d"]

/-- The lookup of the group id written to `process_ss` (lines 303-309). -/
def hashLookup (level : Int) : List Frag :=
  [.line ("if (!aggr_key_" ++ toString level ++ "_validity) \x7b"),
   getOrInsertNullCall level,
   .line " \x7d else \x7b",
   getOrInsertCall level,
   .line " \x7d"]

/-- The stream `process_ss` (lines 300-318). -/
def processCodes (level : Int) (key_index_list : List Nat) (action_codes_ss : List Frag) :
    List Frag :=
  [Frag.line "int memo_index = 0;"] ++
  (if key_index_list.length > 0 then
    hashLookup level ++ action_codes_ss ++ [.line ""] ++ numGroupsUpdate level
  else
    action_codes_ss ++ [.line ""])

/-! ## The `PrepareActionList` function (lines 320-365) -/

/-- The raw string literal written to `action_list_define_function_ss`. -/
def prepareActionListBody : String :=
  "\n    int type_id = 0;\n" ++
  "    for (int action_id = 0; action_id < action_name_list.size(); action_id++) \x7b\n" ++
  "      std::shared_ptr<ActionBase> action;\n" ++
  "      if (action_name_list[action_id].compare(\"action_groupby\") == 0) \x7b\n" ++
  "        RETURN_NOT_OK(MakeUniqueAction(ctx_, type_list[type_id], &action));\n" ++
  "      \x7d else if (action_name_list[action_id].compare(\"action_count\") == 0) \x7b\n" ++
  "        RETURN_NOT_OK(MakeCountAction(ctx_, &action));\n" ++
  "      \x7d else if (action_name_list[action_id].compare(\"action_sum\") == 0) \x7b\n" ++
  "        RETURN_NOT_OK(MakeSumAction(ctx_, type_list[type_id], &action));\n" ++
  "      \x7d else if (action_name_list[action_id].compare(\"action_avg\") == 0) \x7b\n" ++
  "        RETURN_NOT_OK(MakeAvgAction(ctx_, type_list[type_id], &action));\n" ++
  "      \x7d else if (action_name_list[action_id].compare(\"action_min\") == 0) \x7b\n" ++
  "        RETURN_NOT_OK(MakeMinAction(ctx_, type_list[type_id], &action));\n" ++
  "      \x7d else if (action_name_list[action_id].compare(\"action_max\") == 0) \x7b\n" ++
  "        RETURN_NOT_OK(MakeMaxAction(ctx_, type_list[type_id], &action));\n" ++
  "      \x7d else if (action_name_list[action_id].compare(\"action_sum_count\") == 0) \x7b\n" ++
  "        RETURN_NOT_OK(MakeSumCountAction(ctx_, type_list[type_id], &action));\n" ++
  "      \x7d else if (action_name_list[action_id].compare(\"action_sum_count_merge\") == 0) \x7b\n" ++
  "        RETURN_NOT_OK(MakeSumCountMergeAction(ctx_, type_list[type_id], &action));\n" ++
  "      \x7d else if (action_name_list[action_id].compare(\"action_avgByCount\") == 0) \x7b\n" ++
  "        RETURN_NOT_OK(MakeAvgByCountAction(ctx_, type_list[type_id], &action));\n" ++
  "      \x7d else if (action_name_list[action_id].compare(0, 20, \"action_countLiteral_\") ==\n" ++
  "                 0) \x7b\n" ++
  "        int arg = std::stoi(action_name_list[action_id].substr(20));\n" ++
  "        RETURN_NOT_OK(MakeCountLiteralAction(ctx_, arg, &action));\n" ++
  "      \x7d else if (action_name_list[action_id].compare(\"action_stddev_samp_partial\") ==\n" ++
  "                 0) \x7b\n" ++
  "        RETURN_NOT_OK(MakeStddevSampPartialAction(ctx_, type_list[type_id], &action));\n" ++
  "      \x7d else if (action_name_list[action_id].compare(\"action_stddev_samp_final\") == 0) \x7b\n" ++
  "        RETURN_NOT_OK(MakeStddevSampFinalAction(ctx_, type_list[type_id], &action));\n" ++
  "      \x7d else \x7b\n" ++
  "        return arrow::Status::NotImplemented(action_name_list[action_id],\n" ++
  "                                             \" is not implementetd.\");\n" ++
  "      \x7d\n" ++
  "      type_id += 1;\n" ++
  "      (*action_list).push_back(action);\n" ++
  "    \x7d\n" ++
  "    return arrow::Status::OK();\n" ++
  "    "

/-- The stream `action_list_define_function_ss`. -/
def action_list_define_function_ss : List Frag :=
  [.line ("arrow::Status PrepareActionList(std::vector<std::string> action_name_list, "
     ++ "std::vector<std::shared_ptr<arrow::DataType>> type_list,"
     ++ "std::vector<std::shared_ptr<ActionBase>> *action_list) \x7b"),
   .line prepareActionListBody,
   .line "\x7d"]

/-! ## Step 6 and 7: the finish block (lines 367-401) -/

/-- The loop `for (int i = 0; i < action_idx; i++)` of the finish block. -/
def finishCalls (level : Int) (action_idx : Nat) : List Frag :=
  (List.range action_idx).map fun i =>
    Frag.line ("aggr_action_list_" ++ toString level ++ "[" ++ toString i
      ++ "]->Finish(do_hash_aggr_finish_" ++ toString level
      ++ "_offset, 10000, &do_hash_aggr_finish_" ++ toString level ++ "_out);")

/-- The stream `finish_ss` after step 6. -/
def finishCodes (level : Int) (action_idx : Nat) : List Frag :=
  [.line ("do_hash_aggr_finish_" ++ toString level ++ " = true;"),
   .line "should_stop_ = false;",
   .line ("std::vector<std::shared_ptr<arrow::Array>> do_hash_aggr_finish_"
     ++ toString level ++ "_out;"),
   .text ("if(do_hash_aggr_finish_" ++ toString level ++ ") \x7b")]
  ++ finishCalls level action_idx ++
  [.line ("if (do_hash_aggr_finish_" ++ toString level ++ "_out.size() > 0) \x7b"),
   .line ("auto tmp_arr = std::make_shared<Array>(do_hash_aggr_finish_" ++ toString level
     ++ "_out[0]);"),
   .line "out_length += tmp_arr->length();",
   .line ("do_hash_aggr_finish_" ++ toString level ++ "_offset += tmp_arr->length();"),
   .line "\x7d",
   .line ("if (out_length == 0 || do_hash_aggr_finish_" ++ toString level
     ++ "_num_groups < do_hash_aggr_finish_" ++ toString level ++ "_offset) \x7b"),
   .line "should_stop_ = true;",
   .line "\x7d",
   .line "\x7d"]

/-- The header step 7 pushes. -/
def projectorHeader : String := "#include \"precompile/gandiva_projector.h\""

/-- The call step 7 writes to `finish_ss`. -/
def projectorCall (level : Int) : Frag :=
  .line ("RETURN_NOT_OK(gandiva_projector_list_[gp_idx++]->Evaluate(&do_hash_"
    ++ "aggr_finish_" ++ toString level ++ "_out));")

/-- What step 7 produces: `gandiva_projector`, the header pushed and the
fragment written to `finish_ss`; nothing when `result_expr_list_` is empty. -/
def projectorCodes (impl : Impl) (level : Int) :
    Option GandivaProjector × List String × List Frag :=
  if ¬ impl.result_expr_list_.isEmpty then
    (some { schema := impl.result_field_list_, exprs := impl.result_expr_list_ },
     [projectorHeader], [projectorCall level])
  else (none, [], [])

/-! ## `DoCodeGen` -/

/-- The streams `define_ss` and `aggr_prepare_ss` of lines 255-274, after what
the hash-index selection wrote to them. -/
def actionListCodes (H : Helpers) (level : Int) (action_name_list : List (String × DataType)) :
    List Frag × List Frag :=
  let action_name_str_list := action_name_list.map fun action_pair => "\"" ++ action_pair.1 ++ "\""
  let action_type_str_list := action_name_list.map fun action_pair =>
    "arrow::" ++ H.GetArrowTypeDefString action_pair.2
  ([.line ("std::vector<std::shared_ptr<ActionBase>> aggr_action_list_" ++ toString level
      ++ ";"),
    .line ("bool do_hash_aggr_finish_" ++ toString level ++ " = false;"),
    .line ("uint64_t do_hash_aggr_finish_" ++ toString level ++ "_offset = 0;"),
    .line ("int do_hash_aggr_finish_" ++ toString level ++ "_num_groups = -1;")],
   [.line ("std::vector<std::string> action_name_list_" ++ toString level ++ " = \x7b"
      ++ H.GetParameterList action_name_str_list (some false) ++ "\x7d;"),
    .line ("auto action_type_list_" ++ toString level ++ " = \x7b"
      ++ H.GetParameterList action_type_str_list (some false) ++ "\x7d;"),
    .line ("PrepareActionList(action_name_list_" ++ toString level
      ++ ", action_type_list_" ++ toString level ++ ", &aggr_action_list_" ++ toString level
      ++ ");")])

/-- The two headers every bundle starts with (lines 96-99). -/
def baseHeaders : List String :=
  ["#include \"codegen/arrow_compute/ext/array_item_index.h\"",
   "#include \"codegen/arrow_compute/ext/actions_impl.h\""]

/-- The bundle `DoCodeGen` assembles from the vectors of the action scan, the
`header_codes` and the `project_output_list` the evaluation loop left: steps 4
to 7 and the assignments to the fields of `codegen_ctx`. -/
def assemble (H : Helpers) (impl : Impl) (level : Int) (sc : ScanState)
    (header_codes : List String) (project_output_list : List (String × String)) :
    CodeGenContext :=
  let ht := selectHashTable H level sc.key_node_list
  let kc := keyCodes level sc.key_index_list project_output_list
  let al := actionListCodes H level sc.action_name_list
  let ac := actionCodes H level sc.action_prepare_index_list 0 kc.project_output_list
  let action_idx := ac.2.2
  let pj := projectorCodes impl level
  { header_codes := header_codes ++ kc.headers ++ pj.2.1,
    function_list := [render action_list_define_function_ss],
    prepare_codes := kc.prepare_ss,
    process_codes := processCodes level sc.key_index_list ac.1,
    definition_codes := ht.2.2 ++ al.1,
    aggregate_prepare_codes := ht.2.1 ++ al.2,
    aggregate_finish_codes := finishCodes level action_idx ++ pj.2.2,
    aggregate_finish_condition_codes := [.text ("do_hash_aggr_finish_" ++ toString level)],
    unsafe_row_prepare_codes := kc.unsafe_row_prepare_codes,
    gandiva_projector := pj.1 }

/-- Steps 2 to 7 of `DoCodeGen`, from the vectors of the action scan: the
hash-index selection, the evaluation loop, which can fail, and the assembly. -/
def generate {σ : Type} (H : Helpers) (visit : Evaluator σ) (impl : Impl) (level : Int)
    (sc : ScanState) (s : σ) : Except Failure (CodeGenContext × σ) :=
  let ht := selectHashTable H level sc.key_node_list
  match evalPool visit level sc.prepare_function_list (baseHeaders ++ ht.1, [], s) with
  | .error e => .error e
  | .ok (header_codes, project_output_list, s1) =>
    .ok (assemble H impl level sc header_codes project_output_list, s1)

/-- The method `HashAggregateKernel::Impl::DoCodeGen`: the bundle assigned to
`*codegen_ctx_out` when it returns OK, with what the evaluator left in `input`
and `*var_id`. -/
def DoCodeGen {σ : Type} (H : Helpers) (visit : Evaluator σ) (impl : Impl) (level : Int)
    (s : σ) : Except Failure (CodeGenContext × σ) :=
  match scanActions impl.action_list_ with
  | .error e => .error e
  | .ok sc => generate H visit impl level sc s

/-- The call of `DoCodeGen` as its caller sees it: the status it returns (or
throws), and the value of the slot `*codegen_ctx_out` after the call, given the
value `codegen_ctx_out` it had before. The assignment
`*codegen_ctx_out = codegen_ctx` (line 414) is the last statement before
`return arrow::Status::OK()`. -/
def DoCodeGenCall {σ : Type} (H : Helpers) (visit : Evaluator σ) (impl : Impl) (level : Int)
    (s : σ) (codegen_ctx_out : Option CodeGenContext) :
    Except Failure Unit × Option CodeGenContext :=
  match DoCodeGen H visit impl level s with
  | .ok (codegen_ctx, _) => (.ok (), some codegen_ctx)
  | .error e => (.error e, codegen_ctx_out)

/-! ## The emitted `PrepareActionList` function as a program -/

/-- The variables the emitted blocks work on: the members `define_ss` declares
(`bool do_hash_aggr_finish_<level> = false`, `uint64_t ..._offset = 0`,
`int ..._num_groups = -1`, lines 265-267) and the flag `should_stop_` of the
surrounding stage. -/
structure FinishState where
  do_hash_aggr_finish : Bool
  offset : Nat
  num_groups : Int
  should_stop : Bool
  deriving DecidableEq, Repr

/-- The members as declared. -/
def FinishState.init : FinishState :=
  { do_hash_aggr_finish := false, offset := 0, num_groups := -1, should_stop := false }

/-- The conversion of an `int` to `uint64_t` that the comparison
`..._num_groups < ..._offset` applies to its left operand. -/
def toUInt64 (z : Int) : Nat := (z % 2 ^ 64).toNat

/-- One run of the emitted process block (lines 300-318) on a row to which the
hash index gives the group id `memo_index`; `keyed` is
`key_index_list.size() > 0`. Only the keyed block has the update
`if (memo_index > num_groups) num_groups = memo_index;`. -/
def processRow (keyed : Bool) (st : FinishState) (memo_index : Int) : FinishState :=
  if keyed then
    if memo_index > st.num_groups then { st with num_groups := memo_index } else st
  else st

/-- The process block run on the rows of the input, given their group ids. -/
def processRows (keyed : Bool) (st : FinishState) (memo_indices : List Int) : FinishState :=
  memo_indices.foldl (processRow keyed) st

/-- Whether a process block has the statement that raises the group count
(lines 311-315): the lines `if (memo_index > ..._num_groups) {`,
`..._num_groups = memo_index;` and `}` in a row. -/
def updatesNumGroups (level : Int) (process_codes : List Frag) : Bool :=
  decide
    ([Frag.line ("if (memo_index > do_hash_aggr_finish_" ++ toString level
        ++ "_num_groups) \x7b"),
      Frag.line ("do_hash_aggr_finish_" ++ toString level ++ "_num_groups = memo_index;"),
      Frag.line "\x7d"] <:+: process_codes)

/-- One invocation of the emitted finish block (lines 368-391). `out` is the
length of `do_hash_aggr_finish_<level>_out[0]` after the `Finish` calls, `none`
when that vector is empty; `out_length` is its value on entry. The result is
the state and `out_length` on exit. -/
def finishBlock (out : Option Nat) (out_length : Nat) (st : FinishState) : FinishState × Nat :=
  let st1 := { st with do_hash_aggr_finish := true, should_stop := false }
  if st1.do_hash_aggr_finish then
    let r : Nat × Nat :=
      match out with
      | some len => (out_length + len, (st1.offset + len) % 2 ^ 64)
      | none => (out_length, st1.offset)
    let st2 := { st1 with offset := r.2 }
    if r.1 = 0 ∨ toUInt64 st2.num_groups < st2.offset then
      ({ st2 with should_stop := true }, r.1)
    else (st2, r.1)
  else (st1, out_length)

/-- Modelled from the spec: the rows `Finish(offset, 10000, &out)` of an
accumulator yields when it holds `G` groups, `min(P, G - offset)` with the page
size `P = 10000`; the accumulators are defined in `actions_impl.h`, which is
not among the sources. -/
def pageRows (G offset : Nat) : Nat := min 10000 (G - offset)

/-- The state after `n` invocations of the finish block, each entered with
`out_length = 0`, over accumulators that hold `G` groups. -/
def finishPages (G : Nat) : Nat → FinishState → FinishState
  | 0, st => st
  | n + 1, st =>
    (finishBlock (some (pageRows G (finishPages G n st).offset)) 0 (finishPages G n st)).1

/-! ## Vocabulary of the statements -/

/-- The elements of a list in the order of their first occurrence. -/
def firstOccurrences {α : Type} [DecidableEq α] (l : List α) : List α :=
  l.reverse.dedup.reverse

/-- The slot the child loop records for `child`: the index `findSlot` stops at,
or the size of the pool when it finds none. -/
def slotOf (child : Node) (pool : List Node) : Nat :=
  (findSlot child pool).getD pool.length

/-- The children the scan looks at, in scan order: those of the actions that
are not `action_countLiteral_` actions. -/
def scannedChildren (actions : List FunctionNode) : List Node :=
  actions.flatMap fun a =>
    if compareStart a.name 20 "action_countLiteral_" then [] else a.children

/-- The children of the `action_groupby` actions, in plan order. -/
def groupByChildren (actions : List FunctionNode) : List Node :=
  (actions.filter fun a => decide (a.name = "action_groupby")).flatMap (·.children)

/-- The scan vectors and `child_prepare_idxs` at the moment the scan of action
`a` has gone through the children `cs1`, from the vectors `st0` the actions
before `a` left. -/
def scanUpTo (st0 : ScanState) (a : FunctionNode) (cs1 : List Node) : ScanState × List Nat :=
  let type :=
    match a.children with
    | c :: _ => c.return_type
    | [] => a.return_type
  cs1.foldl (scanChild a.name)
    ({ st0 with action_name_list := st0.action_name_list ++ [(a.name, type)] }, [])

/-- What holds of the scan vectors and of `child_prepare_idxs` (`cur`) once the
scan has looked at the children `seen`, of which `keys` were children of
`action_groupby` actions. -/
structure ScanInv (seen keys : List Node) (st : ScanState) (cur : List Nat) : Prop where
  pool_eq : st.prepare_function_list.map Node.ToString =
    firstOccurrences (seen.map Node.ToString)
  key_nodes : st.key_node_list = keys
  key_slots : st.key_index_list.map
      (fun i => (st.prepare_function_list[i]?).map Node.ToString) =
    st.key_node_list.map (fun n => some n.ToString)
  slots : firstOccurrences (st.action_prepare_index_list.flatten ++ cur) =
    List.range st.prepare_function_list.length

/-- The first character of the text of a fragment written from literals. -/
def headChar : Frag → Option Char
  | .text s => s.data.head?
  | .line s => s.data.head?
  | .snippet _ _ => none

/-- The output field list and the output expression list are identical
field for field: same length and the same rendering at every position. -/
def identicalLists (fields exprs : List Node) : Prop :=
  fields.map Node.ToString = exprs.map Node.ToString

instance (fields exprs : List Node) : Decidable (identicalLists fields exprs) := by
  unfold identicalLists; infer_instance

/-- The writes of pool snippets in a stream, in order: the slot and the value
of `project_output_list[slot].first.second` that was written. -/
def snippetWrites (fs : List Frag) : List (Nat × String) :=
  fs.filterMap fun f =>
    match f with
    | .snippet i t => some (i, t)
    | _ => none

/-- The values written for slot `i` in a stream, in order. -/
def writesOf (i : Nat) (fs : List Frag) : List String :=
  ((snippetWrites fs).filter fun w => decide (w.1 = i)).map (·.2)

/-- The fragments of a stream that are not writes of pool snippets. -/
def withoutSnippets (fs : List Frag) : List Frag :=
  fs.filter fun f =>
    match f with
    | .snippet _ _ => false
    | _ => true

/-- The dispatch of one action as the claim words it, for the accumulator index
`k` and the names `args` of the values of its argument slots, in argument
order: without arguments a bare `Evaluate(memo_index)`; otherwise a branch on
the validity flag of the first argument, `Evaluate` on all the arguments when
it holds and `EvaluateNull` when it does not. -/
def dispatch (H : Helpers) (level : Int) (k : Nat) (args : List String) : List Frag :=
  match args with
  | [] =>
    [.line ("RETURN_NOT_OK(aggr_action_list_" ++ toString level ++ "[" ++ toString k
       ++ "]->Evaluate(memo_index" ++ H.GetParameterList [] none ++ "));")]
  | first :: _ =>
    [.line ("if (" ++ first ++ "_validity) \x7b"),
     .line ("RETURN_NOT_OK(aggr_action_list_" ++ toString level ++ "[" ++ toString k
       ++ "]->Evaluate(memo_index"
       ++ H.GetParameterList (args.map fun a => "(void*)&" ++ a) none ++ "));"),
     .line "\x7d else \x7b",
     .line ("RETURN_NOT_OK(aggr_action_list_" ++ toString level ++ "[" ++ toString k
       ++ "]->EvaluateNull(memo_index));"),
     .line "\x7d"]

/-- The name begins with the tag `action_`. -/
def hasActionTag (name : String) : Prop := "action_".toList <+: name.toList

/-- The name begins with `action_countLiteral_`. -/
def isCountLiteral (name : String) : Prop := "action_countLiteral_".toList <+: name.toList

/-- The result type of an action as the claim words it: the return type of the
first child when there is one, of the action node itself otherwise. -/
def resultType (a : FunctionNode) : DataType :=
  match a.children.head? with
  | some c => c.return_type
  | none => a.return_type

/-- The branch the row encoder writes for the key at field index `j` whose
value is named `key_name`: append when valid, mark null when not. -/
def fieldBranch (level : Int) (j : Nat) (key_name : String) : List Frag :=
  [.line ("if (" ++ (key_name ++ "_validity") ++ ") \x7b"),
   .line ("appendToUnsafeRow(" ++ ("aggr_key_" ++ toString level) ++ "_unsafe_row.get(), "
     ++ toString j ++ ", " ++ key_name ++ ");"),
   .line "\x7d else \x7b",
   .line ("setNullAt(" ++ ("aggr_key_" ++ toString level) ++ "_unsafe_row.get(), "
     ++ toString j ++ ");"),
   .line "\x7d"]

/-! ## Sample plans -/

/-- An integer field `a`. -/
def fieldA : Node := { ToString := "(int32) a", return_type := ⟨.INT32⟩ }

/-- An integer field `b`. -/
def fieldB : Node := { ToString := "(int32) b", return_type := ⟨.INT32⟩ }

/-- A string field `s`. -/
def fieldS : Node := { ToString := "(string) s", return_type := ⟨.STRING⟩ }

/-- The action `action_sum(b)`. -/
def sumB : FunctionNode := { name := "action_sum", children := [fieldB], return_type := ⟨.INT64⟩ }

/-- The action `action_groupby(a)`. -/
def groupByA : FunctionNode :=
  { name := "action_groupby", children := [fieldA], return_type := ⟨.INT32⟩ }

/-- The action `action_groupby(a, b)`. -/
def groupByAB : FunctionNode :=
  { name := "action_groupby", children := [fieldA, fieldB], return_type := ⟨.INT32⟩ }

/-- The action `action_groupby(s)`. -/
def groupByS : FunctionNode :=
  { name := "action_groupby", children := [fieldS], return_type := ⟨.STRING⟩ }

/-- The action `action_count(a)`. -/
def countA : FunctionNode :=
  { name := "action_count", children := [fieldA], return_type := ⟨.INT64⟩ }

/-- Sample helpers: a parameter list is joined with `", "`, with a leading comma
unless the second argument says otherwise. -/
def sampleHelpers : Helpers :=
  { GetTypeString := fun _ _ => "std::string"
    GetCTypeString := fun _ => "int32_t"
    GetArrowTypeDefString := fun _ => "int32()"
    GetParameterList := fun l b =>
      (if b = some false ∨ l = [] then "" else ", ") ++ ", ".intercalate l }

/-- A sample evaluator that always succeeds: the value of `e` is named `v<e>`
and computed by the snippet `prepare<e>`. -/
def sampleEvaluator : Evaluator Unit := fun node _ s =>
  .ok ({ GetResult := "v" ++ node.ToString, GetPreCheck := "v" ++ node.ToString ++ "_validity",
         GetPrepare := "prepare" ++ node.ToString, GetHeaders := [] }, s)

/-- A sample kernel: `action_sum(b)` and `action_groupby(a)`, with output field
`a` and output expression `b`. -/
def sampleImpl : Impl := Impl.new [fieldA, fieldB] [sumB, groupByA] [fieldA] [fieldB]

/-- The vectors the action scan leaves for `sampleImpl`. -/
def sampleScan : ScanState :=
  { action_name_list := [("action_sum", ⟨.INT32⟩), ("action_groupby", ⟨.INT32⟩)],
    action_prepare_index_list := [[0], [1]],
    key_index_list := [1],
    prepare_function_list := [fieldB, fieldA],
    key_node_list := [fieldA] }

/-- The `project_output_list` the sample evaluator leaves for `sampleImpl`. -/
def sampleOutputs : List (String × String) :=
  [("v(int32) b", "prepare(int32) b"), ("v(int32) a", "prepare(int32) a")]

/-- The bundle of `sampleImpl` at level 0. -/
def sampleBundle : CodeGenContext :=
  assemble sampleHelpers sampleImpl 0 sampleScan
    (baseHeaders ++ ["#include \"precompile/sparse_hash_map.h\""]) sampleOutputs

/-- A kernel with the single string key `s`: `action_groupby(s)`. -/
def stringKeyImpl : Impl := Impl.new [fieldS] [groupByS] [] []

/-- A kernel without group-by key: `action_count(a)`. -/
def ungroupedImpl : Impl := Impl.new [fieldA] [countA] [] []

/-- A kernel with the two keys `a` and `b`: `action_groupby(a, b)`. -/
def twoKeyImpl : Impl := Impl.new [fieldA, fieldB] [groupByAB] [] []

/-- The vectors the action scan leaves for `twoKeyImpl`. -/
def twoKeyScan : ScanState :=
  { action_name_list := [("action_groupby", ⟨.INT32⟩)],
    action_prepare_index_list := [[0, 1]],
    key_index_list := [0, 1],
    prepare_function_list := [fieldA, fieldB],
    key_node_list := [fieldA, fieldB] }

/-- The `project_output_list` the sample evaluator leaves for `twoKeyImpl`. -/
def twoKeyOutputs : List (String × String) :=
  [("v(int32) a", "prepare(int32) a"), ("v(int32) b", "prepare(int32) b")]

/-- The bundle of `twoKeyImpl` at level 0. -/
def twoKeyBundle : CodeGenContext :=
  assemble sampleHelpers twoKeyImpl 0 twoKeyScan
    (baseHeaders ++ ["#include \"precompile/hash_map.h\""]) twoKeyOutputs

/-- An evaluator like `sampleEvaluator` whose visitor asks for the header of
the row encoder. -/
def rowHeaderEvaluator : Evaluator Unit := fun node _ s =>
  .ok ({ GetResult := "v" ++ node.ToString, GetPreCheck := "v" ++ node.ToString ++ "_validity",
         GetPrepare := "prepare" ++ node.ToString, GetHeaders := [unsafeRowHeader] }, s)

/-- The action `action_countLiteral_1` carrying the child `a`. -/
def countLiteral1 : FunctionNode :=
  { name := "action_countLiteral_1", children := [fieldA], return_type := ⟨.INT64⟩ }

/-- The vectors the action scan leaves for the plan `action_groupby(a)`,
`action_groupby(a)`, which groups by the same expression twice. -/
def repeatedKeyScan : ScanState :=
  { action_name_list := [("action_groupby", ⟨.INT32⟩), ("action_groupby", ⟨.INT32⟩)],
    action_prepare_index_list := [[0], [0]],
    key_index_list := [0, 0],
    prepare_function_list := [fieldA],
    key_node_list := [fieldA, fieldA] }

/-- A kernel that groups by `a` twice: `action_groupby(a)`, `action_groupby(a)`. -/
def repeatedKeyImpl : Impl := Impl.new [fieldA] [groupByA, groupByA] [] []

/-- The bundle of `repeatedKeyImpl` at level 0. -/
def repeatedKeyBundle : CodeGenContext :=
  assemble sampleHelpers repeatedKeyImpl 0 repeatedKeyScan
    (baseHeaders ++ ["#include \"precompile/hash_map.h\""])
    [("v(int32) a", "prepare(int32) a")]

/-! # Theorems -/

/-! ## The action scan -/

theorem findSlot_eq_none_iff (c : Node) (pool : List Node) :
    findSlot c pool = none ↔ ∀ n ∈ pool, n.ToString ≠ c.ToString := by
  induction pool with
  | nil => simp [findSlot]
  | cons n rest ih =>
    by_cases h : n.ToString = c.ToString
    · simp [findSlot, h]
    · simp [findSlot, h, ih]

theorem findSlot_some_spec (c : Node) (pool : List Node) (i : Nat)
    (h : findSlot c pool = some i) :
    ∃ m, pool[i]? = some m ∧ m.ToString = c.ToString := by
  induction pool generalizing i with
  | nil => simp [findSlot] at h
  | cons n rest ih =>
    by_cases hn : n.ToString = c.ToString
    · simp [findSlot, hn] at h
      subst h
      exact ⟨n, by simp, hn⟩
    · simp [findSlot, hn] at h
      obtain ⟨j, hj, rfl⟩ := h
      obtain ⟨m, hm, hmc⟩ := ih j hj
      exact ⟨m, by simpa using hm, hmc⟩

theorem findSlot_some_lt (c : Node) (pool : List Node) (i : Nat)
    (h : findSlot c pool = some i) : i < pool.length := by
  obtain ⟨m, hm, _⟩ := findSlot_some_spec c pool i h
  by_contra hlt
  rw [List.getElem?_eq_none (by omega)] at hm
  cases hm

theorem findSlot_of_nodup (c : Node) (pool : List Node) (j : Nat) (m : Node)
    (hnd : (pool.map Node.ToString).Nodup) (hj : pool[j]? = some m)
    (hm : m.ToString = c.ToString) : findSlot c pool = some j := by
  induction pool generalizing j with
  | nil => simp at hj
  | cons n rest ih =>
    simp only [List.map_cons, List.nodup_cons, List.mem_map, not_exists, not_and] at hnd
    cases j with
    | zero =>
      simp at hj
      subst hj
      simp [findSlot, hm]
    | succ k =>
      simp at hj
      have hne : n.ToString ≠ c.ToString := by
        intro hEq
        have hmem : m ∈ rest := List.getElem?_mem hj
        exact hnd.1 m hmem (by rw [hm, hEq])
      simp [findSlot, hne, ih k hnd.2 hj]

theorem slotOf_lt_or_eq (c : Node) (pool : List Node) :
    slotOf c pool < pool.length ∨
      (slotOf c pool = pool.length ∧ findSlot c pool = none) := by
  unfold slotOf
  cases h : findSlot c pool with
  | none => right; simp
  | some i => left; simpa using findSlot_some_lt c pool i h

theorem scanChild_pool (f : String) (acc : ScanState × List Nat) (c : Node) :
    (scanChild f acc c).1.prepare_function_list =
      match findSlot c acc.1.prepare_function_list with
      | some _ => acc.1.prepare_function_list
      | none => acc.1.prepare_function_list ++ [c] := by
  cases h : findSlot c acc.1.prepare_function_list <;> by_cases hf : f = "action_groupby" <;>
    simp [scanChild, h, hf]

theorem scanChild_idxs (f : String) (acc : ScanState × List Nat) (c : Node) :
    (scanChild f acc c).2 = acc.2 ++ [slotOf c acc.1.prepare_function_list] := by
  cases h : findSlot c acc.1.prepare_function_list <;> simp [scanChild, slotOf, h]

theorem scanChild_key_index (f : String) (acc : ScanState × List Nat) (c : Node) :
    (scanChild f acc c).1.key_index_list =
      if f = "action_groupby" then
        acc.1.key_index_list ++ [slotOf c acc.1.prepare_function_list]
      else acc.1.key_index_list := by
  cases h : findSlot c acc.1.prepare_function_list <;> by_cases hf : f = "action_groupby" <;>
    simp [scanChild, slotOf, h, hf]

theorem scanChild_key_node (f : String) (acc : ScanState × List Nat) (c : Node) :
    (scanChild f acc c).1.key_node_list =
      if f = "action_groupby" then acc.1.key_node_list ++ [c] else acc.1.key_node_list := by
  cases h : findSlot c acc.1.prepare_function_list <;> by_cases hf : f = "action_groupby" <;>
    simp [scanChild, h, hf]

theorem scanChild_names (f : String) (acc : ScanState × List Nat) (c : Node) :
    (scanChild f acc c).1.action_name_list = acc.1.action_name_list ∧
      (scanChild f acc c).1.action_prepare_index_list = acc.1.action_prepare_index_list := by
  cases h : findSlot c acc.1.prepare_function_list <;> by_cases hf : f = "action_groupby" <;>
    simp [scanChild, h, hf]

/-! ### First occurrences -/

theorem firstOccurrences_nil {α : Type} [DecidableEq α] :
    firstOccurrences ([] : List α) = [] := by
  simp [firstOccurrences]

theorem mem_firstOccurrences {α : Type} [DecidableEq α] (x : α) (l : List α) :
    x ∈ firstOccurrences l ↔ x ∈ l := by
  simp [firstOccurrences]

theorem nodup_firstOccurrences {α : Type} [DecidableEq α] (l : List α) :
    (firstOccurrences l).Nodup := by
  simp [firstOccurrences, List.nodup_reverse, List.nodup_dedup]

theorem firstOccurrences_snoc {α : Type} [DecidableEq α] (l : List α) (x : α) :
    firstOccurrences (l ++ [x]) =
      if x ∈ l then firstOccurrences l else firstOccurrences l ++ [x] := by
  unfold firstOccurrences
  rw [List.reverse_append, List.reverse_singleton, List.singleton_append]
  by_cases h : x ∈ l
  · rw [List.dedup_cons_of_mem (by simpa using h)]
    simp [h]
  · rw [List.dedup_cons_of_not_mem (by simpa using h)]
    simp [h]

theorem firstOccurrences_append {α : Type} [DecidableEq α] (k l : List α) :
    firstOccurrences (k ++ l) =
      firstOccurrences k ++ (firstOccurrences l).filter (fun x => decide (x ∉ k)) := by
  induction l using List.reverseRecOn with
  | nil => simp [firstOccurrences_nil]
  | append_singleton l x ih =>
    rw [← List.append_assoc, firstOccurrences_snoc, firstOccurrences_snoc, ih]
    by_cases hk : x ∈ k
    · by_cases hl : x ∈ l
      · simp [hk, hl]
      · simp [hk, hl, List.filter_append]
    · by_cases hl : x ∈ l
      · simp [hk, hl]
      · simp [hk, hl, List.filter_append]

theorem firstOccurrences_of_nodup {α : Type} [DecidableEq α] (l : List α) (h : l.Nodup) :
    firstOccurrences l = l := by
  unfold firstOccurrences
  rw [List.Nodup.dedup (List.nodup_reverse.mpr h), List.reverse_reverse]

/-! ### The invariant of the action scan -/

theorem ScanInv.init : ScanInv [] [] ScanState.init [] := by
  constructor <;> simp [ScanState.init, firstOccurrences_nil]

theorem ScanInv.pool_nodup {seen keys : List Node} {st : ScanState} {cur : List Nat}
    (h : ScanInv seen keys st cur) : (st.prepare_function_list.map Node.ToString).Nodup := by
  rw [h.pool_eq]
  exact nodup_firstOccurrences _

theorem findSlot_isSome_iff_mem (c : Node) (pool : List Node) :
    (findSlot c pool).isSome ↔ c.ToString ∈ pool.map Node.ToString := by
  cases h : findSlot c pool with
  | none =>
    have := (findSlot_eq_none_iff c pool).mp h
    simp only [Option.isSome_none, Bool.false_eq_true, List.mem_map, false_iff, not_exists,
      not_and]
    intro n hn
    exact this n hn
  | some i =>
    obtain ⟨m, hm, hmc⟩ := findSlot_some_spec c pool i h
    simp only [Option.isSome_some, List.mem_map, true_iff]
    exact ⟨m, List.getElem?_mem hm, hmc⟩

theorem key_slots_mono (pool ext : List Node) (kil : List Nat) (knl : List Node)
    (h : kil.map (fun i => (pool[i]?).map Node.ToString) =
      knl.map (fun n => some n.ToString)) :
    kil.map (fun i => ((pool ++ ext)[i]?).map Node.ToString) =
      knl.map (fun n => some n.ToString) := by
  rw [← h]
  apply List.map_congr_left
  intro i hi
  have hlt : i < pool.length := by
    by_contra hge
    have hmem : (pool[i]?).map Node.ToString ∈
        kil.map (fun i => (pool[i]?).map Node.ToString) := List.mem_map_of_mem _ hi
    rw [h, List.getElem?_eq_none (by omega)] at hmem
    simp at hmem
  rw [List.getElem?_append_left hlt]

theorem ScanInv.child {seen keys : List Node} {st : ScanState} {cur : List Nat}
    (h : ScanInv seen keys st cur) (f : String) (c : Node) :
    ScanInv (seen ++ [c]) (if f = "action_groupby" then keys ++ [c] else keys)
      (scanChild f (st, cur) c).1 (scanChild f (st, cur) c).2 := by
  have hmem := findSlot_isSome_iff_mem c st.prepare_function_list
  rw [h.pool_eq, mem_firstOccurrences] at hmem
  have hslots := h.slots
  have hallLt : ∀ i ∈ st.action_prepare_index_list.flatten ++ cur,
      i < st.prepare_function_list.length := by
    intro i hi
    have : i ∈ List.range st.prepare_function_list.length := by
      rw [← hslots, mem_firstOccurrences]; exact hi
    simpa using this
  constructor
  · -- the pool
    rw [scanChild_pool, List.map_append, List.map_singleton, firstOccurrences_snoc]
    cases hf : findSlot c st.prepare_function_list with
    | none =>
      have : c.ToString ∉ seen.map Node.ToString := by
        intro hc; rw [← hmem, hf] at hc; simp at hc
      simp [this, h.pool_eq]
    | some i =>
      have : c.ToString ∈ seen.map Node.ToString := by
        rw [← hmem, hf]; simp
      simp [this, h.pool_eq]
  · -- the key nodes
    rw [scanChild_key_node]
    by_cases hg : f = "action_groupby" <;> simp [hg, h.key_nodes]
  · -- the key slots
    rw [scanChild_pool, scanChild_key_index, scanChild_key_node]
    have hks := h.key_slots
    cases hf : findSlot c st.prepare_function_list with
    | none =>
      have hmono := key_slots_mono st.prepare_function_list [c] _ _ hks
      by_cases hg : f = "action_groupby"
      · simp only [hg, if_true, List.map_append, hmono, List.map_singleton]
        simp [slotOf, hf]
      · simpa [hg] using hmono
    | some i =>
      by_cases hg : f = "action_groupby"
      · obtain ⟨m, hm, hmc⟩ := findSlot_some_spec c _ i hf
        simp only [hg, if_true, List.map_append, hks, List.map_singleton]
        simp [slotOf, hf, hm, hmc]
      · simpa [hg] using hks
  · -- the slots
    rw [scanChild_pool, scanChild_idxs, (scanChild_names f (st, cur) c).2,
      ← List.append_assoc, firstOccurrences_snoc, hslots]
    cases hf : findSlot c st.prepare_function_list with
    | none =>
      have hnot : slotOf c st.prepare_function_list ∉
          st.action_prepare_index_list.flatten ++ cur := by
        intro hin
        have := hallLt _ hin
        simp [slotOf, hf] at this
      rw [if_neg hnot]
      simp [slotOf, hf, List.range_succ]
    | some i =>
      have hlt := findSlot_some_lt c _ i hf
      have hin : slotOf c st.prepare_function_list ∈
          st.action_prepare_index_list.flatten ++ cur := by
        have : i ∈ List.range st.prepare_function_list.length := by simpa using hlt
        rw [← hslots, mem_firstOccurrences] at this
        simpa [slotOf, hf] using this
      rw [if_pos hin]

theorem ScanInv.children {seen keys : List Node} (f : String) (cs : List Node)
    (acc : ScanState × List Nat) (h : ScanInv seen keys acc.1 acc.2) :
    ScanInv (seen ++ cs) (if f = "action_groupby" then keys ++ cs else keys)
      (cs.foldl (scanChild f) acc).1 (cs.foldl (scanChild f) acc).2 := by
  induction cs generalizing seen keys acc with
  | nil => simpa using h
  | cons c cs ih =>
    have h1 := ih (scanChild f acc c) (h.child f c)
    rw [List.foldl_cons]
    by_cases hg : f = "action_groupby"
    · simpa [hg, List.append_assoc] using h1
    · simpa [hg, List.append_assoc] using h1

/-- The vectors an accepted action leaves. -/
theorem scanAction_ok (st st1 : ScanState) (a : FunctionNode) (h : scanAction st a = .ok st1) :
    compareStart a.name 7 "action_" = true ∧
      st1 = (if compareStart a.name 20 "action_countLiteral_" = true then
        { st with
          action_name_list := (scanUpTo st a []).1.action_name_list,
          action_prepare_index_list := st.action_prepare_index_list ++ [[]] }
      else
        { (scanUpTo st a a.children).1 with
          action_prepare_index_list :=
            (scanUpTo st a a.children).1.action_prepare_index_list ++
              [(scanUpTo st a a.children).2] }) := by
  unfold scanAction at h
  by_cases h7 : compareStart a.name 7 "action_" = true
  · refine ⟨h7, ?_⟩
    by_cases h20 : compareStart a.name 20 "action_countLiteral_" = true
    · simp only [h7, h20, if_true] at h
      injection h with h
      rw [← h]
      simp [scanUpTo, h20]
    · simp only [h7, h20, if_true] at h
      injection h with h
      rw [← h]
      simp [scanUpTo, h20]
  · simp [h7] at h

theorem scanAction_eq_ok (st : ScanState) (a : FunctionNode)
    (h7 : compareStart a.name 7 "action_" = true)
    (h20 : compareStart a.name 20 "action_countLiteral_" = false) :
    scanAction st a = .ok
      { (scanUpTo st a a.children).1 with
        action_prepare_index_list :=
          (scanUpTo st a a.children).1.action_prepare_index_list ++
            [(scanUpTo st a a.children).2] } := by
  simp [scanAction, scanUpTo, h7, h20]

theorem groupby_not_countLiteral (a : FunctionNode) (h : a.name = "action_groupby") :
    compareStart a.name 20 "action_countLiteral_" = false := by
  rw [h]; decide

theorem scanUpTo_names (st : ScanState) (a : FunctionNode) (cs : List Node) :
    (scanUpTo st a cs).1.action_prepare_index_list = st.action_prepare_index_list ∧
      (scanUpTo st a cs).1.action_name_list.map (·.1) =
        st.action_name_list.map (·.1) ++ [a.name] := by
  induction cs using List.reverseRecOn with
  | nil => simp [scanUpTo]
  | append_singleton cs c ih =>
    have hstep : scanUpTo st a (cs ++ [c]) = scanChild a.name (scanUpTo st a cs) c := by
      simp [scanUpTo, List.foldl_append]
    rw [hstep, (scanChild_names _ _ _).1, (scanChild_names _ _ _).2]
    exact ih

theorem ScanInv.upTo {seen keys : List Node} {st : ScanState} (h : ScanInv seen keys st [])
    (a : FunctionNode) (cs : List Node) :
    ScanInv (seen ++ cs) (if a.name = "action_groupby" then keys ++ cs else keys)
      (scanUpTo st a cs).1 (scanUpTo st a cs).2 := by
  unfold scanUpTo
  apply ScanInv.children
  exact ⟨h.pool_eq, h.key_nodes, h.key_slots, h.slots⟩

theorem ScanInv.action {seen keys : List Node} {st st1 : ScanState}
    (h : ScanInv seen keys st []) (a : FunctionNode) (hok : scanAction st a = .ok st1) :
    ScanInv (seen ++ scannedChildren [a]) (keys ++ groupByChildren [a]) st1 [] := by
  obtain ⟨_, hst1⟩ := scanAction_ok st st1 a hok
  by_cases h20 : compareStart a.name 20 "action_countLiteral_" = true
  · have hng : a.name ≠ "action_groupby" := by
      intro hg
      rw [groupby_not_countLiteral a hg] at h20
      cases h20
    rw [if_pos h20] at hst1
    subst hst1
    have hs := h.slots
    constructor
    · simpa [scannedChildren, h20] using h.pool_eq
    · simpa [groupByChildren, hng] using h.key_nodes
    · simpa using h.key_slots
    · simpa using hs
  · rw [if_neg h20] at hst1
    subst hst1
    have hu := h.upTo a a.children
    have hs := hu.slots
    constructor
    · simpa [scannedChildren, h20] using hu.pool_eq
    · by_cases hg : a.name = "action_groupby"
      · simpa [groupByChildren, hg] using hu.key_nodes
      · simpa [groupByChildren, hg] using hu.key_nodes
    · simpa using hu.key_slots
    · simpa using hs

theorem scannedChildren_cons (a : FunctionNode) (l : List FunctionNode) :
    scannedChildren (a :: l) = scannedChildren [a] ++ scannedChildren l := by
  simp [scannedChildren]

theorem groupByChildren_cons (a : FunctionNode) (l : List FunctionNode) :
    groupByChildren (a :: l) = groupByChildren [a] ++ groupByChildren l := by
  by_cases hg : a.name = "action_groupby" <;> simp [groupByChildren, List.filter_cons, hg]

theorem ScanInv.scanFrom {seen keys : List Node} {st fin : ScanState}
    (h : ScanInv seen keys st []) (l : List FunctionNode) (hok : scanFrom st l = .ok fin) :
    ScanInv (seen ++ scannedChildren l) (keys ++ groupByChildren l) fin [] := by
  induction l generalizing seen keys st with
  | nil =>
    simp only [HashAggregate.scanFrom, Except.ok.injEq] at hok
    subst hok
    simpa [scannedChildren, groupByChildren] using h
  | cons a l ih =>
    unfold HashAggregate.scanFrom at hok
    cases ha : scanAction st a with
    | error e => simp [ha] at hok
    | ok st1 =>
      simp only [ha] at hok
      have := ih (h.action a ha) hok
      rw [scannedChildren_cons, groupByChildren_cons]
      simpa [List.append_assoc] using this

theorem scanFrom_append (st : ScanState) (l1 l2 : List FunctionNode) :
    scanFrom st (l1 ++ l2) =
      match scanFrom st l1 with
      | .ok st1 => scanFrom st1 l2
      | .error e => .error e := by
  induction l1 generalizing st with
  | nil => simp [scanFrom]
  | cons a l1 ih =>
    simp only [List.cons_append, scanFrom]
    cases scanAction st a with
    | error e => simp
    | ok st1 => simpa using ih st1

/-! ### The pool only grows -/

theorem scanChild_pool_grows (f : String) (acc : ScanState × List Nat) (c : Node) :
    acc.1.prepare_function_list <+: (scanChild f acc c).1.prepare_function_list := by
  rw [scanChild_pool]
  cases findSlot c acc.1.prepare_function_list with
  | none => exact List.prefix_append _ _
  | some i => exact List.prefix_refl _

theorem foldl_scanChild_pool_grows (f : String) (cs : List Node) (acc : ScanState × List Nat) :
    acc.1.prepare_function_list <+: (cs.foldl (scanChild f) acc).1.prepare_function_list := by
  induction cs generalizing acc with
  | nil => exact List.prefix_refl _
  | cons c cs ih => exact (scanChild_pool_grows f acc c).trans (ih _)

theorem scanAction_pool_grows (st st1 : ScanState) (a : FunctionNode)
    (h : scanAction st a = .ok st1) :
    st.prepare_function_list <+: st1.prepare_function_list := by
  obtain ⟨_, hst1⟩ := scanAction_ok st st1 a h
  by_cases h20 : compareStart a.name 20 "action_countLiteral_" = true
  · rw [if_pos h20] at hst1
    subst hst1
    exact List.prefix_refl _
  · rw [if_neg h20] at hst1
    subst hst1
    have := foldl_scanChild_pool_grows a.name a.children
      ({ st with action_name_list := (scanUpTo st a []).1.action_name_list }, [])
    simpa [scanUpTo] using this

theorem scanFrom_pool_grows (st fin : ScanState) (l : List FunctionNode)
    (h : scanFrom st l = .ok fin) :
    st.prepare_function_list <+: fin.prepare_function_list := by
  induction l generalizing st with
  | nil =>
    simp only [scanFrom, Except.ok.injEq] at h
    subst h
    exact List.prefix_refl _
  | cons a l ih =>
    unfold scanFrom at h
    cases ha : scanAction st a with
    | error e => simp [ha] at h
    | ok st1 =>
      simp only [ha] at h
      exact (scanAction_pool_grows st st1 a ha).trans (ih st1 h)

/-! ### One entry per action -/

theorem scanAction_lists (st st1 : ScanState) (a : FunctionNode)
    (h : scanAction st a = .ok st1) :
    (∃ idxs, st1.action_prepare_index_list = st.action_prepare_index_list ++ [idxs]) ∧
      st1.action_name_list.map (·.1) = st.action_name_list.map (·.1) ++ [a.name] := by
  obtain ⟨_, hst1⟩ := scanAction_ok st st1 a h
  by_cases h20 : compareStart a.name 20 "action_countLiteral_" = true
  · rw [if_pos h20] at hst1
    subst hst1
    exact ⟨⟨[], rfl⟩, (scanUpTo_names st a []).2⟩
  · rw [if_neg h20] at hst1
    subst hst1
    refine ⟨⟨(scanUpTo st a a.children).2, ?_⟩, (scanUpTo_names st a a.children).2⟩
    simp [(scanUpTo_names st a a.children).1]

theorem scanFrom_lists (st fin : ScanState) (l : List FunctionNode)
    (h : scanFrom st l = .ok fin) :
    st.action_prepare_index_list <+: fin.action_prepare_index_list ∧
      fin.action_prepare_index_list.length = st.action_prepare_index_list.length + l.length ∧
      fin.action_name_list.map (·.1) = st.action_name_list.map (·.1) ++ l.map (·.name) := by
  induction l generalizing st with
  | nil =>
    simp only [scanFrom, Except.ok.injEq] at h
    subst h
    simp
  | cons a l ih =>
    unfold scanFrom at h
    cases ha : scanAction st a with
    | error e => simp [ha] at h
    | ok st1 =>
      simp only [ha] at h
      obtain ⟨⟨idxs, hidx⟩, hnames⟩ := scanAction_lists st st1 a ha
      obtain ⟨hp, hl, hn⟩ := ih st1 h
      refine ⟨?_, ?_, ?_⟩
      · exact (hidx ▸ List.prefix_append _ _ : _ <+: st1.action_prepare_index_list).trans hp
      · rw [hl, hidx]; simp; omega
      · rw [hn, hnames]; simp

theorem scanUpTo_snoc (st : ScanState) (a : FunctionNode) (cs : List Node) (c : Node) :
    scanUpTo st a (cs ++ [c]) = scanChild a.name (scanUpTo st a cs) c := by
  simp [scanUpTo, List.foldl_append]

theorem scanUpTo_append (st : ScanState) (a : FunctionNode) (cs1 cs2 : List Node) :
    scanUpTo st a (cs1 ++ cs2) = cs2.foldl (scanChild a.name) (scanUpTo st a cs1) := by
  simp [scanUpTo, List.foldl_append]

theorem foldl_scanChild_idxs (f : String) (cs : List Node) (acc : ScanState × List Nat) :
    acc.2 <+: (cs.foldl (scanChild f) acc).2 ∧
      (cs.foldl (scanChild f) acc).2.length = acc.2.length + cs.length := by
  induction cs generalizing acc with
  | nil => simp
  | cons c cs ih =>
    obtain ⟨hp, hl⟩ := ih (scanChild f acc c)
    rw [List.foldl_cons]
    refine ⟨?_, ?_⟩
    · refine List.IsPrefix.trans ?_ hp
      rw [scanChild_idxs]
      exact List.prefix_append _ _
    · rw [hl, scanChild_idxs]; simp; omega

theorem getElem?_of_initial {α : Type} {l1 l2 : List α} (h : l1 <+: l2) {j : Nat} {m : α}
    (hj : l1[j]? = some m) : l2[j]? = some m := by
  obtain ⟨t, rfl⟩ := h
  have hlt : j < l1.length := by
    by_contra hge
    rw [List.getElem?_eq_none (by omega)] at hj
    cases hj
  rw [List.getElem?_append_left hlt]
  exact hj

/-! ## Expression pool interning -/

/-- C1. Expression Pool interning in the action scan. Take any action list
`pre ++ a :: post` that the scan accepts, with `a` not a count-literal action,
and any child `c` of `a`, after the children `cs1`. The slot recorded for `c`
(appended to `child_prepare_idxs`, and found at position `cs1.length` of entry
`pre.length` of `action_prepare_index_list`) is the index of the pool entry
that renders like `c` when there is one, and then the pool is unchanged;
otherwise it is the size of the pool and `c` is appended. The pool before `c`
is a prefix of the pool after `c`, which is a prefix of the final pool, and the
renderings of the final pool are those of the scanned children in first-seen
order. -/
theorem intern_slot (pre post : List FunctionNode) (a : FunctionNode)
    (cs1 cs2 : List Node) (c : Node) (st0 fin : ScanState)
    (hpre : scanActions pre = .ok st0)
    (h7 : compareStart a.name 7 "action_" = true)
    (h20 : compareStart a.name 20 "action_countLiteral_" = false)
    (hch : a.children = cs1 ++ c :: cs2)
    (hfin : scanActions (pre ++ a :: post) = .ok fin) :
    let before := scanUpTo st0 a cs1
    let after := scanChild a.name before c
    let pool := before.1.prepare_function_list
    let slot := slotOf c pool
    (after.2 = before.2 ++ [slot] ∧
      ∃ idxs, fin.action_prepare_index_list[pre.length]? = some idxs ∧
        idxs[cs1.length]? = some slot) ∧
    (∀ j m, pool[j]? = some m → m.ToString = c.ToString →
      slot = j ∧ after.1.prepare_function_list = pool) ∧
    ((∀ m ∈ pool, m.ToString ≠ c.ToString) →
      slot = pool.length ∧ after.1.prepare_function_list = pool ++ [c]) ∧
    pool <+: after.1.prepare_function_list ∧
    after.1.prepare_function_list <+: fin.prepare_function_list ∧
    fin.prepare_function_list.map Node.ToString =
      firstOccurrences ((scannedChildren (pre ++ a :: post)).map Node.ToString) := by
  intro before after pool slot
  have hinv0 : ScanInv ([] ++ scannedChildren pre) ([] ++ groupByChildren pre) st0 [] :=
    ScanInv.init.scanFrom pre hpre
  have hinvB := hinv0.upTo a cs1
  have hnd := hinvB.pool_nodup
  -- the scan of `a` and of `post`
  have hsplit : scanFrom st0 (a :: post) = .ok fin := by
    have := scanFrom_append ScanState.init pre (a :: post)
    unfold scanActions at hpre hfin
    rw [hfin, hpre] at this
    exact this.symm
  unfold scanFrom at hsplit
  rw [scanAction_eq_ok st0 a h7 h20] at hsplit
  simp only at hsplit
  have hall : scanUpTo st0 a a.children = cs2.foldl (scanChild a.name) after := by
    rw [hch, show cs1 ++ c :: cs2 = (cs1 ++ [c]) ++ cs2 by simp, scanUpTo_append,
      scanUpTo_snoc]
  have hidxAfter : after.2 = before.2 ++ [slot] := scanChild_idxs a.name before c
  have hlenBefore : before.2.length = cs1.length := by
    have := (foldl_scanChild_idxs a.name cs1
      ({ st0 with action_name_list := (scanUpTo st0 a []).1.action_name_list }, [])).2
    simpa [scanUpTo] using this
  refine ⟨⟨hidxAfter, ?_⟩, ?_, ?_, ?_, ?_, ?_⟩
  · -- where the slot is recorded
    obtain ⟨hp, hl, _⟩ := scanFrom_lists _ fin post hsplit
    have hlen0 : st0.action_prepare_index_list.length = pre.length := by
      have := (scanFrom_lists ScanState.init st0 pre hpre).2.1
      simpa [ScanState.init] using this
    refine ⟨(scanUpTo st0 a a.children).2, ?_, ?_⟩
    · apply getElem?_of_initial hp
      simp only [(scanUpTo_names st0 a a.children).1]
      rw [← hlen0]
      simp
    · rw [hall]
      apply getElem?_of_initial (foldl_scanChild_idxs a.name cs2 after).1
      rw [hidxAfter, ← hlenBefore]
      simp
  · -- an entry with the same rendering
    intro j m hj hm
    have hfs := findSlot_of_nodup c pool j m hnd hj hm
    refine ⟨by simp [slot, slotOf, hfs], ?_⟩
    show (scanChild a.name before c).1.prepare_function_list = pool
    rw [scanChild_pool]
    simp only [pool] at hfs
    rw [hfs]
  · -- a novel expression
    intro hnone
    have hfs := (findSlot_eq_none_iff c pool).mpr hnone
    refine ⟨by simp [slot, slotOf, hfs], ?_⟩
    show (scanChild a.name before c).1.prepare_function_list = pool ++ [c]
    rw [scanChild_pool]
    simp only [pool] at hfs
    rw [hfs]
  · exact scanChild_pool_grows a.name before c
  · have h1 := foldl_scanChild_pool_grows a.name cs2 after
    rw [← hall] at h1
    have h2 := scanFrom_pool_grows _ fin post hsplit
    exact h1.trans h2
  · have := (ScanInv.init.scanFrom (pre ++ a :: post) hfin).pool_eq
    simpa using this

/-- C1 at a concrete plan: `action_sum(b)` followed by `action_groupby(a, b)`,
at the child `b` of the group-by. -/
theorem intern_slot_witness :
    let before := scanUpTo
      { ScanState.init with
        action_name_list := [("action_sum", ⟨.INT32⟩)],
        action_prepare_index_list := [[0]],
        prepare_function_list := [fieldB] } groupByAB [fieldA]
    let after := scanChild groupByAB.name before fieldB
    let pool := before.1.prepare_function_list
    let slot := slotOf fieldB pool
    (after.2 = before.2 ++ [slot] ∧
      ∃ idxs, ([[0], [1, 0]] : List (List Nat))[[sumB].length]? = some idxs ∧
        idxs[[fieldA].length]? = some slot) ∧
    (∀ j m, pool[j]? = some m → m.ToString = fieldB.ToString →
      slot = j ∧ after.1.prepare_function_list = pool) ∧
    ((∀ m ∈ pool, m.ToString ≠ fieldB.ToString) →
      slot = pool.length ∧ after.1.prepare_function_list = pool ++ [fieldB]) ∧
    pool <+: after.1.prepare_function_list ∧
    after.1.prepare_function_list <+: [fieldB, fieldA] ∧
    [fieldB, fieldA].map Node.ToString =
      firstOccurrences ((scannedChildren ([sumB] ++ groupByAB :: [])).map Node.ToString) :=
  intern_slot [sumB] [] groupByAB [fieldA] [] fieldB
    { ScanState.init with
      action_name_list := [("action_sum", ⟨.INT32⟩)],
      action_prepare_index_list := [[0]],
      prepare_function_list := [fieldB] }
    { action_name_list := [("action_sum", ⟨.INT32⟩), ("action_groupby", ⟨.INT32⟩)],
      action_prepare_index_list := [[0], [1, 0]],
      key_index_list := [1, 0],
      prepare_function_list := [fieldB, fieldA],
      key_node_list := [fieldA, fieldB] }
    (by rfl) (by decide) (by decide) (by decide) (by rfl)

/-! ## `DoCodeGen` returns a bundle exactly when the scan and the evaluation succeed -/

theorem DoCodeGen_ok {σ : Type} (H : Helpers) (visit : Evaluator σ) (impl : Impl)
    (level : Int) (s s1 : σ) (ctx : CodeGenContext)
    (h : DoCodeGen H visit impl level s = .ok (ctx, s1)) :
    ∃ sc header_codes project_output_list,
      scanActions impl.action_list_ = .ok sc ∧
      evalPool visit level sc.prepare_function_list
        (baseHeaders ++ (selectHashTable H level sc.key_node_list).1, [], s) =
          .ok (header_codes, project_output_list, s1) ∧
      ctx = assemble H impl level sc header_codes project_output_list := by
  unfold DoCodeGen at h
  cases hsc : scanActions impl.action_list_ with
  | error e => simp [hsc] at h
  | ok sc =>
    simp only [hsc, generate] at h
    cases hev : evalPool visit level sc.prepare_function_list
        (baseHeaders ++ (selectHashTable H level sc.key_node_list).1, [], s) with
    | error e => simp [hev] at h
    | ok r =>
      obtain ⟨hc, pol, s2⟩ := r
      simp only [hev, Except.ok.injEq, Prod.mk.injEq] at h
      exact ⟨sc, hc, pol, rfl, by rw [← h.2, hev], h.1.symm⟩

theorem DoCodeGen_eq_ok {σ : Type} (H : Helpers) (visit : Evaluator σ) (impl : Impl)
    (level : Int) (s s1 : σ) (sc : ScanState) (header_codes : List String)
    (project_output_list : List (String × String))
    (hsc : scanActions impl.action_list_ = .ok sc)
    (hev : evalPool visit level sc.prepare_function_list
        (baseHeaders ++ (selectHashTable H level sc.key_node_list).1, [], s) =
          .ok (header_codes, project_output_list, s1)) :
    DoCodeGen H visit impl level s =
      .ok (assemble H impl level sc header_codes project_output_list, s1) := by
  simp [DoCodeGen, generate, hsc, hev]

/-! ## Identity-projection elision -/

theorem no_result_project_iff (fields exprs : List Node) :
    (fields.length = exprs.length ∧ no_result_project fields exprs = true) ↔
      identicalLists fields exprs := by
  unfold identicalLists
  induction fields generalizing exprs with
  | nil => cases exprs <;> simp [no_result_project]
  | cons f fs ih =>
    cases exprs with
    | nil => simp [no_result_project]
    | cons e es =>
      by_cases hfe : f.ToString = e.ToString
      · simpa [no_result_project, hfe] using ih es
      · simp [no_result_project, hfe]

theorem Impl.new_result (input_field_list : List Node) (action_list : List FunctionNode)
    (fields exprs : List Node) :
    (Impl.new input_field_list action_list fields exprs).result_field_list_ =
        (if identicalLists fields exprs then [] else fields) ∧
      (Impl.new input_field_list action_list fields exprs).result_expr_list_ =
        (if identicalLists fields exprs then [] else exprs) := by
  unfold Impl.new
  by_cases hid : identicalLists fields exprs
  · rw [if_pos ((no_result_project_iff fields exprs).mpr hid)]
    simp [hid]
  · rw [if_neg (fun hh => hid ((no_result_project_iff fields exprs).mp hh))]
    simp [hid]

theorem headChar_finishCodes (level : Int) (n : Nat) :
    ∀ f ∈ finishCodes level n, headChar f ≠ some 'R' := by
  intro f hf
  simp only [finishCodes, finishCalls, List.mem_append, List.mem_cons, List.mem_map,
    List.mem_range, List.mem_singleton, List.not_mem_nil, or_false] at hf
  rcases hf with (((h | h | h | h) | ⟨i, _, h⟩) | h | h | h | h | h | h | h | h | h) <;>
    subst h <;> simp [headChar, String.data_append]

theorem headChar_projectorCall (level : Int) : headChar (projectorCall level) = some 'R' := by
  simp [headChar, projectorCall, String.data_append]

theorem projectorCall_not_mem_finishCodes (level : Int) (n : Nat) :
    projectorCall level ∉ finishCodes level n := by
  intro h
  exact headChar_finishCodes level n _ h (headChar_projectorCall level)

/-- C2, the claim as stated fails: an output field list `[a]` with an empty
output expression list is not identical field for field (the lengths differ),
yet `DoCodeGen` emits nothing of the projector. -/
theorem projector_elision_counterexample :
    ¬ identicalLists [fieldA] [] ∧
    ∃ ctx, DoCodeGen sampleHelpers sampleEvaluator
        (Impl.new [fieldA] [countA] [fieldA] []) 0 () = .ok (ctx, ()) ∧
      ctx.gandiva_projector = none ∧
      projectorHeader ∉ ctx.header_codes ∧
      projectorCall 0 ∉ ctx.aggregate_finish_codes :=
  ⟨by decide, _, rfl, by decide, by decide, by decide⟩

/-- C2, amended. `DoCodeGen` emits the projector exactly when the output field
list and the output expression list are not identical field for field and the
output expression list is not empty. Then `gandiva_projector` is set over the
two lists, and the bundle is the bundle `ctx0` of the same plan without result
lists, with the `gandiva_projector.h` header pushed last and the projector
`Evaluate` call appended to the finish block. Otherwise the bundle is `ctx0`,
which has no projector and no projector call. -/
theorem projector_emitted_iff {σ : Type} (H : Helpers) (visit : Evaluator σ)
    (input_field_list : List Node) (action_list : List FunctionNode)
    (fields exprs : List Node) (level : Int) (s s1 : σ) (ctx : CodeGenContext)
    (h : DoCodeGen H visit (Impl.new input_field_list action_list fields exprs) level s =
      .ok (ctx, s1)) :
    (projectorCall level ∈ ctx.aggregate_finish_codes ↔
      (¬ identicalLists fields exprs ∧ exprs ≠ [])) ∧
    (ctx.gandiva_projector.isSome ↔ (¬ identicalLists fields exprs ∧ exprs ≠ [])) ∧
    ∃ ctx0, DoCodeGen H visit (Impl.new input_field_list action_list [] []) level s =
        .ok (ctx0, s1) ∧
      ctx0.gandiva_projector = none ∧
      projectorCall level ∉ ctx0.aggregate_finish_codes ∧
      ctx = if ¬ identicalLists fields exprs ∧ exprs ≠ [] then
          { ctx0 with
            gandiva_projector := some { schema := fields, exprs := exprs },
            header_codes := ctx0.header_codes ++ [projectorHeader],
            aggregate_finish_codes := ctx0.aggregate_finish_codes ++ [projectorCall level] }
        else ctx0 := by
  obtain ⟨sc, hc, pol, hsc, hev, hctx⟩ := DoCodeGen_ok H visit _ level s s1 ctx h
  have hal : ∀ f e, (Impl.new input_field_list action_list f e).action_list_ = action_list := by
    intro f e; unfold Impl.new; split <;> rfl
  rw [hal] at hsc
  have h0 := DoCodeGen_eq_ok H visit (Impl.new input_field_list action_list [] []) level s s1
    sc hc pol (by rw [hal]; exact hsc) hev
  have hpj0 : projectorCodes (Impl.new input_field_list action_list [] []) level =
      (none, [], []) := by
    simp [projectorCodes, Impl.new]
  have hpj : projectorCodes (Impl.new input_field_list action_list fields exprs) level =
      if ¬ identicalLists fields exprs ∧ exprs ≠ [] then
        (some { schema := fields, exprs := exprs }, [projectorHeader], [projectorCall level])
      else (none, [], []) := by
    obtain ⟨hf, he⟩ := Impl.new_result input_field_list action_list fields exprs
    unfold projectorCodes
    rw [he, hf]
    by_cases hid : identicalLists fields exprs
    · simp [hid]
    · by_cases hemp : exprs = []
      · simp [hid, hemp]
      · simp [hid, hemp]
  have hnot := projectorCall_not_mem_finishCodes level
    (actionCodes H level sc.action_prepare_index_list 0
      (keyCodes level sc.key_index_list pol).project_output_list).2.2
  have hctx0 : ctx = if ¬ identicalLists fields exprs ∧ exprs ≠ [] then
      { assemble H (Impl.new input_field_list action_list [] []) level sc hc pol with
        gandiva_projector := some { schema := fields, exprs := exprs },
        header_codes :=
          (assemble H (Impl.new input_field_list action_list [] []) level sc hc pol).header_codes
            ++ [projectorHeader],
        aggregate_finish_codes :=
          (assemble H (Impl.new input_field_list action_list [] []) level sc hc
            pol).aggregate_finish_codes ++ [projectorCall level] }
      else assemble H (Impl.new input_field_list action_list [] []) level sc hc pol := by
    rw [hctx]
    unfold assemble
    simp only [hpj, hpj0]
    split <;> simp
  refine ⟨?_, ?_, assemble H (Impl.new input_field_list action_list [] []) level sc hc pol,
    h0, ?_, ?_, hctx0⟩
  · by_cases hc' : ¬ identicalLists fields exprs ∧ exprs ≠ []
    · rw [hctx0, if_pos hc']
      exact ⟨fun _ => hc', fun _ => by simp⟩
    · rw [hctx0, if_neg hc']
      refine ⟨fun hin => absurd hin ?_, fun hh => absurd hh hc'⟩
      simpa [assemble, hpj0] using hnot
  · by_cases hc' : ¬ identicalLists fields exprs ∧ exprs ≠ []
    · rw [hctx0, if_pos hc']
      exact ⟨fun _ => hc', fun _ => by simp⟩
    · rw [hctx0, if_neg hc']
      refine ⟨fun hin => absurd hin ?_, fun hh => absurd hh hc'⟩
      simp [assemble, hpj0]
  · simp [assemble, hpj0]
  · simpa [assemble, hpj0] using hnot

/-- C2, amended, at a concrete plan: `action_count(a)` with output field `a`
and output expression `b`. -/
theorem projector_emitted_iff_witness :
    (projectorCall 0 ∈
        (assemble sampleHelpers (Impl.new [fieldA] [countA] [fieldA] [fieldB]) 0
          { ScanState.init with
            action_name_list := [("action_count", ⟨.INT32⟩)],
            action_prepare_index_list := [[0]],
            prepare_function_list := [fieldA] }
          baseHeaders [("v(int32) a", "prepare(int32) a")]).aggregate_finish_codes ↔
      (¬ identicalLists [fieldA] [fieldB] ∧ [fieldB] ≠ [])) ∧
    ((assemble sampleHelpers (Impl.new [fieldA] [countA] [fieldA] [fieldB]) 0
          { ScanState.init with
            action_name_list := [("action_count", ⟨.INT32⟩)],
            action_prepare_index_list := [[0]],
            prepare_function_list := [fieldA] }
          baseHeaders [("v(int32) a", "prepare(int32) a")]).gandiva_projector.isSome ↔
      (¬ identicalLists [fieldA] [fieldB] ∧ [fieldB] ≠ [])) ∧
    ∃ ctx0, DoCodeGen sampleHelpers sampleEvaluator (Impl.new [fieldA] [countA] [] []) 0 () =
        .ok (ctx0, ()) ∧
      ctx0.gandiva_projector = none ∧
      projectorCall 0 ∉ ctx0.aggregate_finish_codes ∧
      assemble sampleHelpers (Impl.new [fieldA] [countA] [fieldA] [fieldB]) 0
          { ScanState.init with
            action_name_list := [("action_count", ⟨.INT32⟩)],
            action_prepare_index_list := [[0]],
            prepare_function_list := [fieldA] }
          baseHeaders [("v(int32) a", "prepare(int32) a")] =
        if ¬ identicalLists [fieldA] [fieldB] ∧ [fieldB] ≠ [] then
          { ctx0 with
            gandiva_projector := some { schema := [fieldA], exprs := [fieldB] },
            header_codes := ctx0.header_codes ++ [projectorHeader],
            aggregate_finish_codes := ctx0.aggregate_finish_codes ++ [projectorCall 0] }
        else ctx0 :=
  projector_emitted_iff sampleHelpers sampleEvaluator [fieldA] [countA] [fieldA] [fieldB] 0 () ()
    _ (by rfl)

/-! ## Key-order stability -/

/-- C3. Key-order stability. For every action list the scan accepts,
`key_node_list` is the sequence of the children of the `action_groupby`
actions, in the order in which they occur in the action list (so its first
occurrences are theirs, in the same order); `key_index_list` holds, position by
position, a pool slot whose entry renders like that key; and any other accepted
action list with the same `action_groupby` actions in the same order, however
many other actions it has before, between or after them, gives the same
`key_node_list`. -/
theorem key_order_stable (actions : List FunctionNode) (sc : ScanState)
    (h : scanActions actions = .ok sc) :
    sc.key_node_list = groupByChildren actions ∧
    firstOccurrences (sc.key_node_list.map Node.ToString) =
      firstOccurrences ((groupByChildren actions).map Node.ToString) ∧
    sc.key_index_list.map (fun i => (sc.prepare_function_list[i]?).map Node.ToString) =
      sc.key_node_list.map (fun n => some n.ToString) ∧
    ∀ (actions' : List FunctionNode) (sc' : ScanState), scanActions actions' = .ok sc' →
      actions'.filter (fun a => decide (a.name = "action_groupby")) =
        actions.filter (fun a => decide (a.name = "action_groupby")) →
      sc'.key_node_list = sc.key_node_list := by
  have hinv := ScanInv.init.scanFrom actions h
  have hk : sc.key_node_list = groupByChildren actions := by simpa using hinv.key_nodes
  refine ⟨hk, by rw [hk], hinv.key_slots, ?_⟩
  intro actions' sc' h' hfilter
  have hinv' := ScanInv.init.scanFrom actions' h'
  have hk' : sc'.key_node_list = groupByChildren actions' := by simpa using hinv'.key_nodes
  rw [hk, hk']
  unfold groupByChildren
  rw [hfilter]

/-- C3 at a concrete plan: `action_sum(b)` followed by `action_groupby(a, b)`. -/
theorem key_order_stable_witness :
    [fieldA, fieldB] = groupByChildren [sumB, groupByAB] ∧
    firstOccurrences ([fieldA, fieldB].map Node.ToString) =
      firstOccurrences ((groupByChildren [sumB, groupByAB]).map Node.ToString) ∧
    [1, 0].map (fun i => (([fieldB, fieldA] : List Node)[i]?).map Node.ToString) =
      [fieldA, fieldB].map (fun n => some n.ToString) ∧
    ∀ (actions' : List FunctionNode) (sc' : ScanState), scanActions actions' = .ok sc' →
      actions'.filter (fun a => decide (a.name = "action_groupby")) =
        [sumB, groupByAB].filter (fun a => decide (a.name = "action_groupby")) →
      sc'.key_node_list = [fieldA, fieldB] :=
  key_order_stable [sumB, groupByAB]
    { action_name_list := [("action_sum", ⟨.INT32⟩), ("action_groupby", ⟨.INT32⟩)],
      action_prepare_index_list := [[0], [1, 0]],
      key_index_list := [1, 0],
      prepare_function_list := [fieldB, fieldA],
      key_node_list := [fieldA, fieldB] }
    (by rfl)

/-! ## Hash-index selection -/

theorem ScanInv.key_lengths {seen keys : List Node} {st : ScanState} {cur : List Nat}
    (h : ScanInv seen keys st cur) : st.key_index_list.length = st.key_node_list.length := by
  have := congrArg List.length h.key_slots
  simpa using this

theorem addHeaders_initial (header_codes headers : List String) :
    header_codes <+: addHeaders header_codes headers := by
  unfold addHeaders
  induction headers generalizing header_codes with
  | nil => exact List.prefix_refl _
  | cons x xs ih =>
    rw [List.foldl_cons]
    by_cases hx : x ∈ header_codes
    · simpa [hx] using ih header_codes
    · simp only [hx, if_false]
      exact (List.prefix_append _ _).trans (ih _)

theorem evalPool_headers {σ : Type} (visit : Evaluator σ) (level : Int) (pool : List Node)
    (hc hc1 : List String) (pol pol1 : List (String × String)) (s s1 : σ)
    (h : evalPool visit level pool (hc, pol, s) = .ok (hc1, pol1, s1)) : hc <+: hc1 := by
  induction pool generalizing hc pol s with
  | nil =>
    simp only [evalPool, Except.ok.injEq, Prod.mk.injEq] at h
    rw [h.1]
  | cons n rest ih =>
    unfold evalPool at h
    cases hv : visit n level s with
    | error e => simp [hv] at h
    | ok r =>
      obtain ⟨v, s2⟩ := r
      simp only [hv] at h
      exact (addHeaders_initial hc v.GetHeaders).trans (ih _ _ _ h)

theorem writeSnippets_frags (is : List Nat) (pol : List (String × String)) :
    ∀ f ∈ (writeSnippets is pol).1, ∃ i t, f = Frag.snippet i t := by
  induction is generalizing pol with
  | nil => simp [writeSnippets]
  | cons i rest ih =>
    intro f hf
    simp only [writeSnippets, List.mem_cons] at hf
    rcases hf with hf | hf
    · exact ⟨_, _, hf⟩
    · exact ih _ f hf

theorem headChar_actionCode (H : Helpers) (level : Int) (k : Nat) (idx_v : List Nat)
    (pol : List (String × String)) :
    ∀ f ∈ (actionCode H level k idx_v pol).1, headChar f ≠ some ' ' := by
  intro f hf
  simp only [actionCode, List.mem_append] at hf
  rcases hf with ((hf | hf) | hf) | hf
  · obtain ⟨i, t, rfl⟩ := writeSnippets_frags idx_v pol f hf
    simp [headChar]
  · split at hf
    · simp only [List.mem_singleton] at hf
      subst hf
      simp [headChar, String.data_append]
    · simp at hf
  · simp only [List.mem_singleton] at hf
    subst hf
    simp [headChar, String.data_append]
  · split at hf
    · simp only [List.mem_cons, List.mem_singleton, List.not_mem_nil, or_false] at hf
      rcases hf with hf | hf | hf <;> subst hf <;> simp [headChar, String.data_append]
    · simp at hf

theorem headChar_actionCodes (H : Helpers) (level : Int) (apil : List (List Nat)) (k : Nat)
    (pol : List (String × String)) :
    ∀ f ∈ (actionCodes H level apil k pol).1, headChar f ≠ some ' ' := by
  induction apil generalizing k pol with
  | nil => simp [actionCodes]
  | cons idx_v rest ih =>
    intro f hf
    simp only [actionCodes, List.mem_append] at hf
    rcases hf with hf | hf
    · exact headChar_actionCode H level k idx_v pol f hf
    · exact ih _ _ f hf

theorem headChar_lookup (level : Int) :
    headChar (getOrInsertCall level) = some ' ' ∧
      headChar (getOrInsertNullCall level) = some ' ' := by
  simp [headChar, getOrInsertCall, getOrInsertNullCall, String.data_append]

/-- C4. Hash-index selection. Let `k` be the number of keys of an accepted plan
on which `DoCodeGen` succeeds. If `k = 0`, the declarations and the
construction code are those of the action list alone (no hash index), no
`GetOrInsert` or `GetOrInsertNull` call is in the process block, and the
process block is the declaration `int memo_index = 0;` followed by the action
dispatches. If `k = 1` and the key is not of string type, a
`SparseHashMap` over the C type of the key is declared and constructed. If
`k >= 2`, or `k = 1` with a string key, the string-keyed `HashMap` is declared
and constructed. With a key, both lookups are in the process block. Exactly
one of the three cases applies. -/
theorem hash_index_selection {σ : Type} (H : Helpers) (visit : Evaluator σ) (impl : Impl)
    (level : Int) (s s1 : σ) (ctx : CodeGenContext) (sc : ScanState)
    (hsc : scanActions impl.action_list_ = .ok sc)
    (h : DoCodeGen H visit impl level s = .ok (ctx, s1)) :
    let k := sc.key_node_list.length
    let isString := sc.key_node_list.head?.map (·.return_type.id) = some TypeId.STRING
    let al := actionListCodes H level sc.action_name_list
    (k = 0 →
      ctx.definition_codes = al.1 ∧ ctx.aggregate_prepare_codes = al.2 ∧
      getOrInsertCall level ∉ ctx.process_codes ∧
      getOrInsertNullCall level ∉ ctx.process_codes ∧
      ∃ pol, ctx.process_codes =
        Frag.line "int memo_index = 0;" ::
          ((actionCodes H level sc.action_prepare_index_list 0 pol).1 ++ [Frag.line ""])) ∧
    (k = 1 ∧ ¬ isString →
      ∃ key0, sc.key_node_list = [key0] ∧
        "#include \"precompile/sparse_hash_map.h\"" ∈ ctx.header_codes ∧
        ctx.definition_codes =
          Frag.line ("std::shared_ptr<SparseHashMap<" ++ H.GetCTypeString key0.return_type
            ++ ">> aggr_hash_table_" ++ toString level ++ ";") :: al.1 ∧
        ctx.aggregate_prepare_codes =
          Frag.line ("aggr_hash_table_" ++ toString level ++ " = std::make_shared<"
            ++ "SparseHashMap<" ++ H.GetCTypeString key0.return_type
            ++ ">>(ctx_->memory_pool());") :: al.2) ∧
    ((k ≥ 2 ∨ (k = 1 ∧ isString)) →
      "#include \"precompile/hash_map.h\"" ∈ ctx.header_codes ∧
      ctx.definition_codes =
        Frag.line ("std::shared_ptr<" ++ H.GetTypeString ⟨.STRING⟩ ""
          ++ "HashMap> aggr_hash_table_" ++ toString level ++ ";") :: al.1 ∧
      ctx.aggregate_prepare_codes =
        Frag.line ("aggr_hash_table_" ++ toString level ++ " = std::make_shared<"
          ++ H.GetTypeString ⟨.STRING⟩ "" ++ "HashMap>(ctx_->memory_pool());") :: al.2) ∧
    (k > 0 →
      getOrInsertCall level ∈ ctx.process_codes ∧
      getOrInsertNullCall level ∈ ctx.process_codes) ∧
    ((k = 0 ∧ ¬ (k = 1 ∧ ¬ isString) ∧ ¬ (k ≥ 2 ∨ (k = 1 ∧ isString))) ∨
      (¬ k = 0 ∧ (k = 1 ∧ ¬ isString) ∧ ¬ (k ≥ 2 ∨ (k = 1 ∧ isString))) ∨
      (¬ k = 0 ∧ ¬ (k = 1 ∧ ¬ isString) ∧ (k ≥ 2 ∨ (k = 1 ∧ isString)))) := by
  intro k isString al
  obtain ⟨sc', hc, pol, hsc', hev, hctx⟩ := DoCodeGen_ok H visit impl level s s1 ctx h
  rw [hsc] at hsc'
  injection hsc' with hsc'
  subst hsc'
  have hlen : sc.key_index_list.length = sc.key_node_list.length :=
    (ScanInv.init.scanFrom _ hsc).key_lengths
  have hhdr := evalPool_headers visit level _ _ _ _ _ _ _ hev
  have hmemhdr : ∀ x ∈ (selectHashTable H level sc.key_node_list).1, x ∈ ctx.header_codes := by
    intro x hx
    rw [hctx]
    simp only [assemble, List.mem_append]
    left; left
    exact hhdr.subset (by simp [hx])
  refine ⟨?_, ?_, ?_, ?_, ?_⟩
  · -- no key
    intro hk
    have hnil : sc.key_node_list = [] := List.length_eq_zero.mp hk
    have hnil' : sc.key_index_list = [] := List.length_eq_zero.mp (by rw [hlen]; exact hk)
    have hproc : ctx.process_codes =
        Frag.line "int memo_index = 0;" ::
          ((actionCodes H level sc.action_prepare_index_list 0 pol).1 ++ [Frag.line ""]) := by
      rw [hctx]
      simp [assemble, processCodes, hnil', keyCodes]
    refine ⟨?_, ?_, ?_, ?_, ⟨pol, hproc⟩⟩
    · rw [hctx]; simp [assemble, selectHashTable, useStringHashMap, hnil, al]
    · rw [hctx]; simp [assemble, selectHashTable, useStringHashMap, hnil, al]
    · rw [hproc]
      intro hin
      simp only [List.mem_cons, List.mem_append, List.mem_singleton, List.not_mem_nil,
        or_false] at hin
      rcases hin with hin | hin | hin
      · have := congrArg headChar hin
        rw [(headChar_lookup level).1] at this
        simp [headChar] at this
      · exact headChar_actionCodes H level _ 0 pol _ hin (headChar_lookup level).1
      · have := congrArg headChar hin
        rw [(headChar_lookup level).1] at this
        simp [headChar] at this
    · rw [hproc]
      intro hin
      simp only [List.mem_cons, List.mem_append, List.mem_singleton, List.not_mem_nil,
        or_false] at hin
      rcases hin with hin | hin | hin
      · have := congrArg headChar hin
        rw [(headChar_lookup level).2] at this
        simp [headChar] at this
      · exact headChar_actionCodes H level _ 0 pol _ hin (headChar_lookup level).2
      · have := congrArg headChar hin
        rw [(headChar_lookup level).2] at this
        simp [headChar] at this
  · -- one key, not a string
    rintro ⟨hk, hns⟩
    obtain ⟨key0, hkey⟩ := List.length_eq_one.mp hk
    have hns' : ¬ key0.return_type.id = TypeId.STRING := by
      simpa [isString, hkey] using hns
    have hsel : selectHashTable H level sc.key_node_list =
        (["#include \"precompile/sparse_hash_map.h\""],
         [.line ("aggr_hash_table_" ++ toString level ++ " = std::make_shared<"
            ++ "SparseHashMap<" ++ H.GetCTypeString key0.return_type
            ++ ">>(ctx_->memory_pool());")],
         [.line ("std::shared_ptr<SparseHashMap<" ++ H.GetCTypeString key0.return_type
            ++ ">> aggr_hash_table_" ++ toString level ++ ";")]) := by
      simp [selectHashTable, useStringHashMap, hkey, hns']
    refine ⟨key0, hkey, hmemhdr _ (by rw [hsel]; simp), ?_, ?_⟩
    · rw [hctx]; simp [assemble, hsel, al]
    · rw [hctx]; simp [assemble, hsel, al]
  · -- the string-keyed map
    intro hcase
    have huse : useStringHashMap sc.key_node_list = true := by
      rcases hcase with hk | ⟨hk, hs⟩
      · have : 1 < sc.key_node_list.length := hk
        simp [useStringHashMap, this]
      · have hs' : sc.key_node_list.head?.map (·.return_type.id) = some TypeId.STRING := hs
        have h1 : sc.key_node_list.length = 1 := hk
        simp [useStringHashMap, h1, hs']
    have hsel : selectHashTable H level sc.key_node_list =
        (["#include \"precompile/hash_map.h\""],
         [.line ("aggr_hash_table_" ++ toString level ++ " = std::make_shared<"
            ++ H.GetTypeString ⟨.STRING⟩ "" ++ "HashMap>(ctx_->memory_pool());")],
         [.line ("std::shared_ptr<" ++ H.GetTypeString ⟨.STRING⟩ ""
            ++ "HashMap> aggr_hash_table_" ++ toString level ++ ";")]) := by
      simp [selectHashTable, huse]
    refine ⟨hmemhdr _ (by rw [hsel]; simp), ?_, ?_⟩
    · rw [hctx]; simp [assemble, hsel, al]
    · rw [hctx]; simp [assemble, hsel, al]
  · -- the lookups
    intro hk
    have hk' : sc.key_index_list.length > 0 := by rw [hlen]; exact hk
    rw [hctx]
    simp [assemble, processCodes, hk', hashLookup]
  · -- exactly one case
    have hk0 : k = 0 → ¬ (k = 1 ∧ ¬ isString) ∧ ¬ (k ≥ 2 ∨ (k = 1 ∧ isString)) := by
      intro h0
      refine ⟨fun hh => ?_, fun hh => ?_⟩
      · have := hh.1; omega
      · rcases hh with hh | hh
        · omega
        · have := hh.1; omega
    have hk2 : k ≥ 2 → ¬ k = 0 ∧ ¬ (k = 1 ∧ ¬ isString) := by
      intro h2
      refine ⟨by omega, fun hh => ?_⟩
      have := hh.1; omega
    by_cases hs : isString
    · rcases Nat.lt_trichotomy k 1 with hk | hk | hk
      · left; exact ⟨by omega, hk0 (by omega)⟩
      · right; right
        exact ⟨by omega, fun hh => hh.2 hs, Or.inr ⟨hk, hs⟩⟩
      · right; right
        exact ⟨(hk2 hk).1, (hk2 hk).2, Or.inl hk⟩
    · rcases Nat.lt_trichotomy k 1 with hk | hk | hk
      · left; exact ⟨by omega, hk0 (by omega)⟩
      · right; left
        refine ⟨by omega, ⟨hk, hs⟩, fun hh => ?_⟩
        rcases hh with hh | hh
        · omega
        · exact hs hh.2
      · right; right
        exact ⟨(hk2 hk).1, (hk2 hk).2, Or.inl hk⟩

/-- C4 at the sample kernel, which has one integer key: a `SparseHashMap` over
the C type of the key is declared and constructed. -/
theorem hash_index_selection_witness :
    ∃ key0, sampleScan.key_node_list = [key0] ∧
      "#include \"precompile/sparse_hash_map.h\"" ∈ sampleBundle.header_codes ∧
      sampleBundle.definition_codes =
        Frag.line ("std::shared_ptr<SparseHashMap<"
          ++ sampleHelpers.GetCTypeString key0.return_type
          ++ ">> aggr_hash_table_" ++ toString (0 : Int) ++ ";") ::
          (actionListCodes sampleHelpers 0 sampleScan.action_name_list).1 ∧
      sampleBundle.aggregate_prepare_codes =
        Frag.line ("aggr_hash_table_" ++ toString (0 : Int) ++ " = std::make_shared<"
          ++ "SparseHashMap<" ++ sampleHelpers.GetCTypeString key0.return_type
          ++ ">>(ctx_->memory_pool());") ::
          (actionListCodes sampleHelpers 0 sampleScan.action_name_list).2 :=
  (hash_index_selection sampleHelpers sampleEvaluator sampleImpl 0 () () sampleBundle
    sampleScan (by rfl) (by rfl)).2.1 ⟨by decide, by decide⟩

/-! ## A single string key -/

theorem entry_blank_fst (pol : List (String × String)) (i j : Nat) :
    (entry (blank pol i) j).1 = (entry pol j).1 := by
  unfold blank entry
  rw [List.getD_eq_getElem?_getD, List.getD_eq_getElem?_getD, List.getElem?_set]
  by_cases hij : i = j
  · subst hij
    by_cases hlt : i < pol.length
    · simp [hlt]
    · simp [hlt, List.getElem?_eq_none (Nat.le_of_not_lt hlt)]
  · simp [hij]

/-- C5, the claim as stated fails: for the plan `action_groupby(s)` with the
string key `s`, the string-keyed hash map is selected, but no row buffer is
declared and the prepare block takes the key as the bare value of the key
expression, which is not what the row encoder writes for the key slots `[0]`. -/
theorem single_string_key_counterexample :
    useStringHashMap [fieldS] = true ∧
    ∃ ctx, DoCodeGen sampleHelpers sampleEvaluator stringKeyImpl 0 () = .ok (ctx, ()) ∧
      ctx.unsafe_row_prepare_codes = [] ∧
      rowBufferDecl 0 1 ∉ ctx.unsafe_row_prepare_codes ∧
      ctx.prepare_codes =
        [.snippet 0 "prepare(string) s",
         .line "auto aggr_key_0 = v(string) s;",
         .line "auto aggr_key_0_validity = v(string) s_validity;"] ∧
      ctx.prepare_codes ≠
        (rowEncoderCodes 0 [0] [("v(string) s", "prepare(string) s")]).1 :=
  ⟨by decide, _, rfl, by decide, by decide, by decide, by decide⟩

/-- C5, amended. For every plan with exactly one group-by key, of string type,
on which `DoCodeGen` succeeds: the string-keyed `HashMap` is declared, as for
plans with two or more keys, but the prepare block takes the key as the bare
value of the key expression (`auto aggr_key_<level> = <value>;` with the
validity flag `<value>_validity`), after the snippet of the key slot; no row
buffer is declared and the header of the row encoder is not pushed by step 4. -/
theorem single_string_key_bare {σ : Type} (H : Helpers) (visit : Evaluator σ) (impl : Impl)
    (level : Int) (s s1 : σ) (ctx : CodeGenContext) (sc : ScanState) (key : Node)
    (hsc : scanActions impl.action_list_ = .ok sc)
    (h : DoCodeGen H visit impl level s = .ok (ctx, s1))
    (hkey : sc.key_node_list = [key]) (hstr : key.return_type.id = TypeId.STRING) :
    ∃ i header_codes project_output_list,
      sc.key_index_list = [i] ∧
      evalPool visit level sc.prepare_function_list
        (baseHeaders ++ ["#include \"precompile/hash_map.h\""], [], s) =
          .ok (header_codes, project_output_list, s1) ∧
      ctx.definition_codes.head? =
        some (Frag.line ("std::shared_ptr<" ++ H.GetTypeString ⟨.STRING⟩ ""
          ++ "HashMap> aggr_hash_table_" ++ toString level ++ ";")) ∧
      ctx.prepare_codes =
        [.snippet i (entry project_output_list i).2,
         .line ("auto " ++ ("aggr_key_" ++ toString level) ++ " = "
           ++ (entry project_output_list i).1 ++ ";"),
         .line ("auto " ++ ("aggr_key_" ++ toString level ++ "_validity") ++ " = "
           ++ (entry project_output_list i).1 ++ "_validity;")] ∧
      ctx.unsafe_row_prepare_codes = [] ∧
      ctx.header_codes = header_codes ++ (projectorCodes impl level).2.1 := by
  obtain ⟨sc', hc, pol, hsc', hev, hctx⟩ := DoCodeGen_ok H visit impl level s s1 ctx h
  rw [hsc] at hsc'
  injection hsc' with hsc'
  subst hsc'
  have hlen : sc.key_index_list.length = 1 := by
    rw [(ScanInv.init.scanFrom _ hsc).key_lengths, hkey]; rfl
  obtain ⟨i, hi⟩ := List.length_eq_one.mp hlen
  have hsel : selectHashTable H level sc.key_node_list =
      (["#include \"precompile/hash_map.h\""],
       [.line ("aggr_hash_table_" ++ toString level ++ " = std::make_shared<"
          ++ H.GetTypeString ⟨.STRING⟩ "" ++ "HashMap>(ctx_->memory_pool());")],
       [.line ("std::shared_ptr<" ++ H.GetTypeString ⟨.STRING⟩ ""
          ++ "HashMap> aggr_hash_table_" ++ toString level ++ ";")]) := by
    simp [selectHashTable, useStringHashMap, hkey, hstr]
  rw [hsel] at hev
  refine ⟨i, hc, pol, hi, hev, ?_, ?_, ?_, ?_⟩
  · rw [hctx]; simp [assemble, hsel]
  · rw [hctx]
    simp [assemble, keyCodes, hi, entry_blank_fst]
  · rw [hctx]; simp [assemble, keyCodes, hi]
  · rw [hctx]; simp [assemble, keyCodes, hi]

/-- C5, amended, at the plan `action_groupby(s)`. -/
theorem single_string_key_bare_witness :
    ∃ i header_codes project_output_list,
      ({ action_name_list := [("action_groupby", ⟨.STRING⟩)],
         action_prepare_index_list := [[0]], key_index_list := [0],
         prepare_function_list := [fieldS], key_node_list := [fieldS] } :
        ScanState).key_index_list = [i] ∧
      evalPool sampleEvaluator 0 [fieldS]
        (baseHeaders ++ ["#include \"precompile/hash_map.h\""], [], ()) =
          .ok (header_codes, project_output_list, ()) ∧
      (assemble sampleHelpers stringKeyImpl 0
        { action_name_list := [("action_groupby", ⟨.STRING⟩)],
          action_prepare_index_list := [[0]], key_index_list := [0],
          prepare_function_list := [fieldS], key_node_list := [fieldS] }
        (baseHeaders ++ ["#include \"precompile/hash_map.h\""])
        [("v(string) s", "prepare(string) s")]).definition_codes.head? =
        some (Frag.line ("std::shared_ptr<" ++ sampleHelpers.GetTypeString ⟨.STRING⟩ ""
          ++ "HashMap> aggr_hash_table_" ++ toString (0 : Int) ++ ";")) ∧
      (assemble sampleHelpers stringKeyImpl 0
        { action_name_list := [("action_groupby", ⟨.STRING⟩)],
          action_prepare_index_list := [[0]], key_index_list := [0],
          prepare_function_list := [fieldS], key_node_list := [fieldS] }
        (baseHeaders ++ ["#include \"precompile/hash_map.h\""])
        [("v(string) s", "prepare(string) s")]).prepare_codes =
        [.snippet i (entry project_output_list i).2,
         .line ("auto " ++ ("aggr_key_" ++ toString (0 : Int)) ++ " = "
           ++ (entry project_output_list i).1 ++ ";"),
         .line ("auto " ++ ("aggr_key_" ++ toString (0 : Int) ++ "_validity") ++ " = "
           ++ (entry project_output_list i).1 ++ "_validity;")] ∧
      (assemble sampleHelpers stringKeyImpl 0
        { action_name_list := [("action_groupby", ⟨.STRING⟩)],
          action_prepare_index_list := [[0]], key_index_list := [0],
          prepare_function_list := [fieldS], key_node_list := [fieldS] }
        (baseHeaders ++ ["#include \"precompile/hash_map.h\""])
        [("v(string) s", "prepare(string) s")]).unsafe_row_prepare_codes = [] ∧
      (assemble sampleHelpers stringKeyImpl 0
        { action_name_list := [("action_groupby", ⟨.STRING⟩)],
          action_prepare_index_list := [[0]], key_index_list := [0],
          prepare_function_list := [fieldS], key_node_list := [fieldS] }
        (baseHeaders ++ ["#include \"precompile/hash_map.h\""])
        [("v(string) s", "prepare(string) s")]).header_codes =
        header_codes ++ (projectorCodes stringKeyImpl 0).2.1 :=
  single_string_key_bare sampleHelpers sampleEvaluator stringKeyImpl 0 () () _ _ fieldS
    (by rfl) (by rfl) (by rfl) (by decide)

/-! ## The snippets of the pool in the emitted code -/

theorem snippetWrites_append (fs gs : List Frag) :
    snippetWrites (fs ++ gs) = snippetWrites fs ++ snippetWrites gs := by
  simp [snippetWrites, List.filterMap_append]

theorem snippetWrites_line (t : String) (fs : List Frag) :
    snippetWrites (Frag.line t :: fs) = snippetWrites fs := by
  simp [snippetWrites, List.filterMap_cons]

theorem snippetWrites_snippet (i : Nat) (t : String) (fs : List Frag) :
    snippetWrites (Frag.snippet i t :: fs) = (i, t) :: snippetWrites fs := by
  simp [snippetWrites, List.filterMap_cons]

theorem snippetWrites_nil : snippetWrites [] = [] := rfl

theorem writeSnippets_append (xs ys : List Nat) (pol : List (String × String)) :
    (writeSnippets (xs ++ ys) pol).1 =
        (writeSnippets xs pol).1 ++ (writeSnippets ys (writeSnippets xs pol).2).1 ∧
      (writeSnippets (xs ++ ys) pol).2 = (writeSnippets ys (writeSnippets xs pol).2).2 := by
  induction xs generalizing pol with
  | nil => simp [writeSnippets]
  | cons x xs ih =>
    obtain ⟨h1, h2⟩ := ih (blank pol x)
    simp [writeSnippets, h1, h2]

theorem encodeKeys_writes (name : String) (keys : List Nat) (idx : Nat)
    (pol : List (String × String)) :
    snippetWrites (encodeKeys name keys idx pol).1 = snippetWrites (writeSnippets keys pol).1 ∧
      (encodeKeys name keys idx pol).2 = (writeSnippets keys pol).2 := by
  induction keys generalizing idx pol with
  | nil => simp [encodeKeys, writeSnippets]
  | cons i rest ih =>
    obtain ⟨h1, h2⟩ := ih (idx + 1) (blank pol i)
    refine ⟨?_, ?_⟩
    · simp only [encodeKeys, writeSnippets, List.cons_append, snippetWrites_snippet,
        snippetWrites_line, List.nil_append, h1]
    · simp only [encodeKeys, writeSnippets, h2]

theorem keyCodes_writes (level : Int) (keys : List Nat) (pol : List (String × String)) :
    snippetWrites (keyCodes level keys pol).prepare_ss =
        snippetWrites (writeSnippets keys pol).1 ∧
      (keyCodes level keys pol).project_output_list = (writeSnippets keys pol).2 := by
  match keys with
  | [] => simp [keyCodes, writeSnippets]
  | [i] =>
    simp [keyCodes, writeSnippets, snippetWrites_snippet, snippetWrites_line, snippetWrites_nil]
  | i :: j :: rest =>
    obtain ⟨h1, h2⟩ := encodeKeys_writes ("aggr_key_" ++ toString level) (i :: j :: rest) 0 pol
    refine ⟨?_, ?_⟩
    · simp only [keyCodes, rowEncoderCodes, List.cons_append, List.nil_append,
        snippetWrites_line, snippetWrites_append, h1, snippetWrites_nil, List.append_nil]
    · simp only [keyCodes, rowEncoderCodes, h2]

theorem actionCode_writes (H : Helpers) (level : Int) (k : Nat) (idx_v : List Nat)
    (pol : List (String × String)) :
    snippetWrites (actionCode H level k idx_v pol).1 =
        snippetWrites (writeSnippets idx_v pol).1 ∧
      (actionCode H level k idx_v pol).2 = (writeSnippets idx_v pol).2 := by
  refine ⟨?_, rfl⟩
  simp only [actionCode, snippetWrites_append]
  by_cases h : idx_v.length > 0
  · simp [h, snippetWrites_line, snippetWrites_nil]
  · simp [h, snippetWrites_line, snippetWrites_nil]

theorem actionCodes_writes (H : Helpers) (level : Int) (apil : List (List Nat)) (k : Nat)
    (pol : List (String × String)) :
    snippetWrites (actionCodes H level apil k pol).1 =
        snippetWrites (writeSnippets apil.flatten pol).1 ∧
      (actionCodes H level apil k pol).2.1 = (writeSnippets apil.flatten pol).2 := by
  induction apil generalizing k pol with
  | nil => simp [actionCodes, writeSnippets]
  | cons idx_v rest ih =>
    obtain ⟨a1, a2⟩ := actionCode_writes H level k idx_v pol
    obtain ⟨h1, h2⟩ := ih (k + 1) (actionCode H level k idx_v pol).2
    obtain ⟨w1, w2⟩ := writeSnippets_append idx_v rest.flatten pol
    rw [a2] at h1 h2
    refine ⟨?_, ?_⟩
    · simp only [actionCodes, List.flatten_cons, snippetWrites_append, a1, a2, h1, w1]
    · simp only [actionCodes, List.flatten_cons, a2, h2, w2]

theorem processCodes_writes (level : Int) (keys : List Nat) (ac : List Frag) :
    snippetWrites (processCodes level keys ac) = snippetWrites ac := by
  unfold processCodes
  by_cases h : keys.length > 0
  · simp [h, snippetWrites_append, snippetWrites_line, snippetWrites_nil, numGroupsUpdate,
      hashLookup, getOrInsertCall, getOrInsertNullCall]
  · simp [h, snippetWrites_append, snippetWrites_line, snippetWrites_nil]

/-- The snippet writes of the prepare block followed by the process block are
those of one pass of write-and-blank over the key slots followed by the
argument slots of the actions. -/
theorem assemble_writes (H : Helpers) (impl : Impl) (level : Int) (sc : ScanState)
    (hc : List String) (pol : List (String × String)) :
    snippetWrites ((assemble H impl level sc hc pol).prepare_codes ++
        (assemble H impl level sc hc pol).process_codes) =
      snippetWrites
        (writeSnippets (sc.key_index_list ++ sc.action_prepare_index_list.flatten) pol).1 := by
  obtain ⟨k1, k2⟩ := keyCodes_writes level sc.key_index_list pol
  obtain ⟨a1, _⟩ := actionCodes_writes H level sc.action_prepare_index_list 0
    (keyCodes level sc.key_index_list pol).project_output_list
  obtain ⟨w1, _⟩ := writeSnippets_append sc.key_index_list
    sc.action_prepare_index_list.flatten pol
  rw [k2] at a1
  simp only [assemble, snippetWrites_append, processCodes_writes, k1, k2, a1, w1]

theorem blank_length (pol : List (String × String)) (j : Nat) :
    (blank pol j).length = pol.length := by
  simp [blank]

theorem entry_blank_snd_of_ne (pol : List (String × String)) (i j : Nat) (h : j ≠ i) :
    entry (blank pol j) i = entry pol i := by
  unfold blank entry
  rw [List.getD_eq_getElem?_getD, List.getD_eq_getElem?_getD, List.getElem?_set]
  simp [h]

theorem entry_blank_snd_self (pol : List (String × String)) (i : Nat) (h : i < pol.length) :
    (entry (blank pol i) i).2 = "" := by
  unfold blank entry
  rw [List.getD_eq_getElem?_getD, List.getElem?_set]
  simp [h]

theorem entry_blank_snd_empty (pol : List (String × String)) (i j : Nat)
    (h : (entry pol i).2 = "") : (entry (blank pol j) i).2 = "" := by
  by_cases hji : j = i
  · subst hji
    by_cases hlt : j < pol.length
    · exact entry_blank_snd_self pol j hlt
    · unfold blank
      rw [List.set_eq_of_length_le (Nat.le_of_not_lt hlt)]
      exact h
  · rw [entry_blank_snd_of_ne pol i j hji]
    exact h

theorem writesOf_cons_snippet (i j : Nat) (t : String) (fs : List Frag) :
    writesOf i (Frag.snippet j t :: fs) =
      if j = i then t :: writesOf i fs else writesOf i fs := by
  unfold writesOf
  rw [snippetWrites_snippet]
  by_cases h : j = i <;> simp [List.filter_cons, h]

/-- Once the entry of slot `i` is empty, every later write of the slot is an
empty line. -/
theorem writesOf_writeSnippets_empty (i : Nat) (seq : List Nat)
    (pol : List (String × String)) (h : (entry pol i).2 = "") :
    writesOf i (writeSnippets seq pol).1 = List.replicate (seq.count i) "" := by
  induction seq generalizing pol with
  | nil => simp [writeSnippets, writesOf, snippetWrites]
  | cons j rest ih =>
    have hrest := ih (blank pol j) (entry_blank_snd_empty pol i j h)
    simp only [writeSnippets, writesOf_cons_snippet, hrest]
    by_cases hji : j = i
    · subst hji
      simp [h, List.replicate_succ]
    · simp [hji, List.count_cons]

/-- The first write of a slot carries the entry the evaluation loop left, and
every later write of the slot is an empty line. -/
theorem writesOf_writeSnippets (i : Nat) (seq : List Nat) (pol : List (String × String))
    (hlt : i < pol.length) (hmem : i ∈ seq) :
    writesOf i (writeSnippets seq pol).1 =
      (entry pol i).2 :: List.replicate (seq.count i - 1) "" := by
  induction seq generalizing pol with
  | nil => simp at hmem
  | cons j rest ih =>
    simp only [writeSnippets, writesOf_cons_snippet]
    by_cases hji : j = i
    · subst hji
      rw [if_pos rfl, writesOf_writeSnippets_empty j rest (blank pol j)
        (entry_blank_snd_self pol j hlt)]
      simp
    · rw [if_neg hji]
      have hmem' : i ∈ rest := by
        rcases List.mem_cons.mp hmem with h | h
        · exact absurd h.symm hji
        · exact h
      rw [ih (blank pol j) (by rw [blank_length]; exact hlt) hmem',
        entry_blank_snd_of_ne pol i j hji]
      simp [List.count_cons, hji]

theorem writeSnippets_slots (seq : List Nat) (pol : List (String × String)) :
    (snippetWrites (writeSnippets seq pol).1).map (·.1) = seq := by
  induction seq generalizing pol with
  | nil => simp [writeSnippets, snippetWrites]
  | cons j rest ih =>
    simp only [writeSnippets, snippetWrites_snippet, List.map_cons, ih]

theorem evalPool_outputs {σ : Type} (visit : Evaluator σ) (level : Int) (pool : List Node)
    (hc hc1 : List String) (pol pol1 : List (String × String)) (s s1 : σ)
    (h : evalPool visit level pool (hc, pol, s) = .ok (hc1, pol1, s1)) :
    ∃ outs, pol1 = pol ++ outs ∧
      List.Forall₂ (fun node e => ∃ t t' v, visit node level t = .ok (v, t') ∧
        e = (v.GetResult, v.GetPrepare)) pool outs := by
  induction pool generalizing hc pol s with
  | nil =>
    simp only [evalPool, Except.ok.injEq, Prod.mk.injEq] at h
    exact ⟨[], by simp [h.2.1], List.Forall₂.nil⟩
  | cons n rest ih =>
    unfold evalPool at h
    cases hv : visit n level s with
    | error e => simp [hv] at h
    | ok r =>
      obtain ⟨v, s2⟩ := r
      simp only [hv] at h
      obtain ⟨outs, hout, hall⟩ := ih _ _ _ h
      refine ⟨(v.GetResult, v.GetPrepare) :: outs, by simp [hout], ?_⟩
      exact List.Forall₂.cons ⟨s, s2, v, hv, rfl⟩ hall

/-! ## Deduplication -/

/-- C6. Deduplication. For every plan on which `DoCodeGen` succeeds, with
`project_output_list` what the evaluation loop left (for each pool slot, the
result name and the prepare snippet of a successful evaluator call on the pool
expression of that slot): in the prepare block followed by the process block,
the writes made for each pool slot are the snippet the evaluator returned for
it, once, followed only by empty lines; and no write is made for an index that
is not a pool slot. -/
theorem snippet_written_once {σ : Type} (H : Helpers) (visit : Evaluator σ) (impl : Impl)
    (level : Int) (s s1 : σ) (ctx : CodeGenContext) (sc : ScanState)
    (hsc : scanActions impl.action_list_ = .ok sc)
    (h : DoCodeGen H visit impl level s = .ok (ctx, s1)) :
    ∃ header_codes project_output_list,
      evalPool visit level sc.prepare_function_list
        (baseHeaders ++ (selectHashTable H level sc.key_node_list).1, [], s) =
          .ok (header_codes, project_output_list, s1) ∧
      List.Forall₂ (fun node e => ∃ t t' v, visit node level t = .ok (v, t') ∧
        e = (v.GetResult, v.GetPrepare)) sc.prepare_function_list project_output_list ∧
      (∀ i, i < sc.prepare_function_list.length →
        ∃ n, writesOf i (ctx.prepare_codes ++ ctx.process_codes) =
          (entry project_output_list i).2 :: List.replicate n "") ∧
      ∀ w ∈ snippetWrites (ctx.prepare_codes ++ ctx.process_codes),
        w.1 < sc.prepare_function_list.length := by
  obtain ⟨sc', hc, pol, hsc', hev, hctx⟩ := DoCodeGen_ok H visit impl level s s1 ctx h
  rw [hsc] at hsc'
  injection hsc' with hsc'
  subst hsc'
  obtain ⟨outs, hout, hall⟩ := evalPool_outputs visit level _ _ _ _ _ _ _ hev
  simp only [List.nil_append] at hout
  subst hout
  have hinv := ScanInv.init.scanFrom _ hsc
  have hslots := hinv.slots
  simp only [List.append_nil] at hslots
  have hw := assemble_writes H impl level sc hc pol
  rw [← hctx] at hw
  refine ⟨hc, pol, hev, hall, ?_, ?_⟩
  · intro i hi
    have hmem : i ∈ sc.key_index_list ++ sc.action_prepare_index_list.flatten := by
      apply List.mem_append_right
      rw [← mem_firstOccurrences, hslots]
      simpa using hi
    refine ⟨(sc.key_index_list ++ sc.action_prepare_index_list.flatten).count i - 1, ?_⟩
    have := writesOf_writeSnippets i _ pol (by rw [← hall.length_eq]; exact hi) hmem
    unfold writesOf at this ⊢
    rw [hw]
    exact this
  · intro w hwmem
    rw [hw] at hwmem
    have hin : w.1 ∈ sc.key_index_list ++ sc.action_prepare_index_list.flatten := by
      rw [← writeSnippets_slots (sc.key_index_list ++ sc.action_prepare_index_list.flatten) pol]
      exact List.mem_map_of_mem _ hwmem
    rcases List.mem_append.mp hin with hk | ha
    · -- a key slot renders like a key node, so it is a slot of the pool
      have hks := hinv.key_slots
      by_contra hge
      have hm : (sc.prepare_function_list[w.1]?).map Node.ToString ∈
          sc.key_index_list.map (fun i => (sc.prepare_function_list[i]?).map Node.ToString) :=
        List.mem_map_of_mem _ hk
      rw [hks, List.getElem?_eq_none (by omega)] at hm
      simp at hm
    · have : w.1 ∈ List.range sc.prepare_function_list.length := by
        rw [← hslots, mem_firstOccurrences]; exact ha
      simpa using this

/-- C6 at the sample kernel `action_sum(b)`, `action_groupby(a)`: slot 1 is
referenced by the key and by the group-by action and its snippet is written
once. -/
theorem snippet_written_once_witness :
    ∃ header_codes project_output_list,
      evalPool sampleEvaluator 0 sampleScan.prepare_function_list
        (baseHeaders ++ (selectHashTable sampleHelpers 0 sampleScan.key_node_list).1, [], ()) =
          .ok (header_codes, project_output_list, ()) ∧
      List.Forall₂ (fun node e => ∃ t t' v, sampleEvaluator node 0 t = .ok (v, t') ∧
        e = (v.GetResult, v.GetPrepare)) sampleScan.prepare_function_list
        project_output_list ∧
      (∀ i, i < sampleScan.prepare_function_list.length →
        ∃ n, writesOf i (sampleBundle.prepare_codes ++ sampleBundle.process_codes) =
          (entry project_output_list i).2 :: List.replicate n "") ∧
      ∀ w ∈ snippetWrites (sampleBundle.prepare_codes ++ sampleBundle.process_codes),
        w.1 < sampleScan.prepare_function_list.length :=
  snippet_written_once sampleHelpers sampleEvaluator sampleImpl 0 () () sampleBundle sampleScan
    (by rfl) (by rfl)

/-! ## Evaluation order -/

/-- C7, the claim as stated fails: for the plan `action_sum(b)`,
`action_groupby(a)` the pool is `[b, a]`, and the snippet of slot 1 (the key
`a`) is written, in the prepare block, before the snippet of slot 0. -/
theorem pool_order_counterexample :
    scanActions sampleImpl.action_list_ = .ok sampleScan ∧
    sampleScan.prepare_function_list = [fieldB, fieldA] ∧
    DoCodeGen sampleHelpers sampleEvaluator sampleImpl 0 () = .ok (sampleBundle, ()) ∧
    snippetWrites sampleBundle.prepare_codes = [(1, "prepare(int32) a")] ∧
    snippetWrites (sampleBundle.prepare_codes ++ sampleBundle.process_codes) =
      [(1, "prepare(int32) a"), (0, "prepare(int32) b"), (1, "")] :=
  ⟨rfl, rfl, rfl, by decide, by decide⟩

/-- C7, amended. For every plan on which `DoCodeGen` succeeds, the prepare
block writes the snippets of the key slots, in key order, and the process
block those of the argument slots of the actions, in action order; so the
order in which the slots are first written is: the key slots in the order of
their first occurrence in the key list, then the remaining pool slots in pool
order. Without keys it is the pool order. -/
theorem snippet_order {σ : Type} (H : Helpers) (visit : Evaluator σ) (impl : Impl)
    (level : Int) (s s1 : σ) (ctx : CodeGenContext) (sc : ScanState)
    (hsc : scanActions impl.action_list_ = .ok sc)
    (h : DoCodeGen H visit impl level s = .ok (ctx, s1)) :
    (snippetWrites ctx.prepare_codes).map (·.1) = sc.key_index_list ∧
    (snippetWrites ctx.process_codes).map (·.1) = sc.action_prepare_index_list.flatten ∧
    firstOccurrences ((snippetWrites (ctx.prepare_codes ++ ctx.process_codes)).map (·.1)) =
      firstOccurrences sc.key_index_list ++
        (List.range sc.prepare_function_list.length).filter
          (fun i => decide (i ∉ sc.key_index_list)) ∧
    (sc.key_index_list = [] →
      firstOccurrences ((snippetWrites (ctx.prepare_codes ++ ctx.process_codes)).map (·.1)) =
        List.range sc.prepare_function_list.length) := by
  obtain ⟨sc', hc, pol, hsc', hev, hctx⟩ := DoCodeGen_ok H visit impl level s s1 ctx h
  rw [hsc] at hsc'
  injection hsc' with hsc'
  subst hsc'
  have hslots := (ScanInv.init.scanFrom _ hsc).slots
  simp only [List.append_nil] at hslots
  have hprep : (snippetWrites ctx.prepare_codes).map (·.1) = sc.key_index_list := by
    rw [hctx]
    simp only [assemble]
    rw [(keyCodes_writes level sc.key_index_list pol).1, writeSnippets_slots]
  have hproc : (snippetWrites ctx.process_codes).map (·.1) =
      sc.action_prepare_index_list.flatten := by
    rw [hctx]
    simp only [assemble, processCodes_writes]
    rw [(actionCodes_writes H level _ 0 _).1, writeSnippets_slots]
  have hall : firstOccurrences
      ((snippetWrites (ctx.prepare_codes ++ ctx.process_codes)).map (·.1)) =
      firstOccurrences sc.key_index_list ++
        (List.range sc.prepare_function_list.length).filter
          (fun i => decide (i ∉ sc.key_index_list)) := by
    rw [snippetWrites_append, List.map_append, hprep, hproc, firstOccurrences_append, hslots]
  refine ⟨hprep, hproc, hall, ?_⟩
  intro hnil
  rw [hall, hnil]
  simp [firstOccurrences_nil]

/-- C7, amended, at the sample kernel: the key slot 1 comes first, then slot 0. -/
theorem snippet_order_witness :
    (snippetWrites sampleBundle.prepare_codes).map (·.1) = sampleScan.key_index_list ∧
    (snippetWrites sampleBundle.process_codes).map (·.1) =
      sampleScan.action_prepare_index_list.flatten ∧
    firstOccurrences
        ((snippetWrites (sampleBundle.prepare_codes ++ sampleBundle.process_codes)).map
          (·.1)) =
      firstOccurrences sampleScan.key_index_list ++
        (List.range sampleScan.prepare_function_list.length).filter
          (fun i => decide (i ∉ sampleScan.key_index_list)) ∧
    (sampleScan.key_index_list = [] →
      firstOccurrences
          ((snippetWrites (sampleBundle.prepare_codes ++ sampleBundle.process_codes)).map
            (·.1)) =
        List.range sampleScan.prepare_function_list.length) :=
  snippet_order sampleHelpers sampleEvaluator sampleImpl 0 () () sampleBundle sampleScan
    (by rfl) (by rfl)

/-! ## Per-action dispatch -/

theorem withoutSnippets_append (fs gs : List Frag) :
    withoutSnippets (fs ++ gs) = withoutSnippets fs ++ withoutSnippets gs := by
  simp [withoutSnippets, List.filter_append]

theorem withoutSnippets_writeSnippets (seq : List Nat) (pol : List (String × String)) :
    withoutSnippets (writeSnippets seq pol).1 = [] := by
  induction seq generalizing pol with
  | nil => simp [writeSnippets, withoutSnippets]
  | cons j rest ih =>
    have := ih (blank pol j)
    simp only [withoutSnippets] at this ⊢
    simp [writeSnippets, List.filter_cons, this]

theorem blank_names (pol : List (String × String)) (j : Nat) :
    (blank pol j).map (·.1) = pol.map (·.1) := by
  apply List.ext_getElem?
  intro n
  unfold blank entry
  rw [List.getElem?_map, List.getElem?_map, List.getElem?_set, List.getD_eq_getElem?_getD]
  by_cases hjn : j = n
  · subst hjn
    by_cases hlt : j < pol.length
    · simp [hlt]
    · simp [hlt, List.getElem?_eq_none (Nat.le_of_not_lt hlt)]
  · simp [hjn]

theorem writeSnippets_names (seq : List Nat) (pol : List (String × String)) :
    (writeSnippets seq pol).2.map (·.1) = pol.map (·.1) := by
  induction seq generalizing pol with
  | nil => simp [writeSnippets]
  | cons j rest ih => simp only [writeSnippets, ih, blank_names]

theorem entry_fst_of_names (pol pol' : List (String × String))
    (h : pol'.map (·.1) = pol.map (·.1)) (i : Nat) : (entry pol' i).1 = (entry pol i).1 := by
  have h' := congrArg (fun l => l[i]?) h
  simp only [List.getElem?_map] at h'
  unfold entry
  rw [List.getD_eq_getElem?_getD, List.getD_eq_getElem?_getD]
  cases h1 : pol'[i]? <;> cases h2 : pol[i]? <;> simp [h1, h2] at h' ⊢
  exact h'

theorem actionCode_dispatch (H : Helpers) (level : Int) (k : Nat) (idx_v : List Nat)
    (pol pol' : List (String × String)) (hn : pol'.map (·.1) = pol.map (·.1)) :
    withoutSnippets (actionCode H level k idx_v pol').1 =
      dispatch H level k (idx_v.map fun i => (entry pol i).1) := by
  have hnames : ∀ i, (entry (writeSnippets idx_v pol').2 i).1 = (entry pol i).1 := fun i =>
    entry_fst_of_names pol _ (by rw [writeSnippets_names, hn]) i
  cases idx_v with
  | nil => simp [actionCode, dispatch, writeSnippets, withoutSnippets]
  | cons i rest =>
    simp only [actionCode, withoutSnippets_append, withoutSnippets_writeSnippets,
      List.nil_append, hnames, List.length_cons, gt_iff_lt, Nat.zero_lt_succ, if_true,
      List.headD_cons, dispatch, List.map_cons]
    simp [withoutSnippets, List.map_map, Function.comp_def]

theorem actionCodes_dispatch (H : Helpers) (level : Int) (apil : List (List Nat)) (k : Nat)
    (pol pol' : List (String × String)) (hn : pol'.map (·.1) = pol.map (·.1)) :
    withoutSnippets (actionCodes H level apil k pol').1 =
        (apil.enumFrom k).flatMap
          (fun p => dispatch H level p.1 (p.2.map fun i => (entry pol i).1)) ∧
      (actionCodes H level apil k pol').2.2 = k + apil.length := by
  induction apil generalizing k pol' with
  | nil => simp [actionCodes, withoutSnippets]
  | cons idx_v rest ih =>
    have h1 := actionCode_dispatch H level k idx_v pol pol' hn
    have hn' : (actionCode H level k idx_v pol').2.map (·.1) = pol.map (·.1) := by
      rw [(actionCode_writes H level k idx_v pol').2, writeSnippets_names, hn]
    obtain ⟨h2, h3⟩ := ih (k + 1) _ hn'
    refine ⟨?_, ?_⟩
    · simp only [actionCodes, withoutSnippets_append, h1, h2, List.enumFrom_cons,
        List.flatMap_cons]
    · simp only [actionCodes, h3, List.length_cons]
      omega

theorem keyCodes_names (level : Int) (keys : List Nat) (pol : List (String × String)) :
    (keyCodes level keys pol).project_output_list.map (·.1) = pol.map (·.1) := by
  rw [(keyCodes_writes level keys pol).2, writeSnippets_names]

/-- C8. Per-action dispatch. For every plan on which `DoCodeGen` succeeds, the
scan records one argument-slot list and one name per action of the plan, in
plan order, and the process block, apart from the writes of pool snippets, is:
the declaration of `memo_index`, the hash lookup when there is a key, then for
each action, in plan order, the dispatch for accumulator index `k` = the
position of the action, on the names of the values of its argument slots in
argument order (guarded by the validity flag of the first argument only, with
`EvaluateNull` on the other branch, or a bare `Evaluate(memo_index)` when the
action has no argument slot), then an empty line and, when there is a key, the
update of the group count. -/
theorem action_dispatch {σ : Type} (H : Helpers) (visit : Evaluator σ) (impl : Impl)
    (level : Int) (s s1 : σ) (ctx : CodeGenContext) (sc : ScanState)
    (hsc : scanActions impl.action_list_ = .ok sc)
    (h : DoCodeGen H visit impl level s = .ok (ctx, s1)) :
    ∃ header_codes project_output_list,
      evalPool visit level sc.prepare_function_list
        (baseHeaders ++ (selectHashTable H level sc.key_node_list).1, [], s) =
          .ok (header_codes, project_output_list, s1) ∧
      sc.action_prepare_index_list.length = impl.action_list_.length ∧
      sc.action_name_list.map (·.1) = impl.action_list_.map (·.name) ∧
      withoutSnippets ctx.process_codes =
        [Frag.line "int memo_index = 0;"] ++
        (if sc.key_index_list.length > 0 then hashLookup level else []) ++
        (sc.action_prepare_index_list.enumFrom 0).flatMap
          (fun p => dispatch H level p.1 (p.2.map fun i => (entry project_output_list i).1)) ++
        [Frag.line ""] ++
        (if sc.key_index_list.length > 0 then numGroupsUpdate level else []) := by
  obtain ⟨sc', hc, pol, hsc', hev, hctx⟩ := DoCodeGen_ok H visit impl level s s1 ctx h
  rw [hsc] at hsc'
  injection hsc' with hsc'
  subst hsc'
  obtain ⟨_, hlen, hnames⟩ := scanFrom_lists ScanState.init sc impl.action_list_ hsc
  have hd := (actionCodes_dispatch H level sc.action_prepare_index_list 0 pol
    (keyCodes level sc.key_index_list pol).project_output_list
    (keyCodes_names level sc.key_index_list pol)).1
  refine ⟨hc, pol, hev, by simpa [ScanState.init] using hlen,
    by simpa [ScanState.init] using hnames, ?_⟩
  rw [hctx]
  simp only [assemble, processCodes]
  by_cases hk : sc.key_index_list.length > 0
  · simp only [hk, if_true, withoutSnippets_append, hd]
    simp [withoutSnippets, hashLookup, getOrInsertCall, getOrInsertNullCall, numGroupsUpdate]
  · simp only [hk, if_false, withoutSnippets_append, hd]
    simp [withoutSnippets]

/-- C8 at the sample kernel `action_sum(b)`, `action_groupby(a)`. -/
theorem action_dispatch_witness :
    ∃ header_codes project_output_list,
      evalPool sampleEvaluator 0 sampleScan.prepare_function_list
        (baseHeaders ++ (selectHashTable sampleHelpers 0 sampleScan.key_node_list).1, [], ()) =
          .ok (header_codes, project_output_list, ()) ∧
      sampleScan.action_prepare_index_list.length = sampleImpl.action_list_.length ∧
      sampleScan.action_name_list.map (·.1) = sampleImpl.action_list_.map (·.name) ∧
      withoutSnippets sampleBundle.process_codes =
        [Frag.line "int memo_index = 0;"] ++
        (if sampleScan.key_index_list.length > 0 then hashLookup 0 else []) ++
        (sampleScan.action_prepare_index_list.enumFrom 0).flatMap
          (fun p => dispatch sampleHelpers 0 p.1
            (p.2.map fun i => (entry project_output_list i).1)) ++
        [Frag.line ""] ++
        (if sampleScan.key_index_list.length > 0 then numGroupsUpdate 0 else []) :=
  action_dispatch sampleHelpers sampleEvaluator sampleImpl 0 () () sampleBundle sampleScan
    (by rfl) (by rfl)

/-! ## Pagination -/

theorem processRow_fields (keyed : Bool) (st : FinishState) (m : Int) :
    (processRow keyed st m).offset = st.offset ∧
      (processRow keyed st m).do_hash_aggr_finish = st.do_hash_aggr_finish ∧
      (processRow keyed st m).should_stop = st.should_stop := by
  unfold processRow
  split
  · split <;> simp
  · simp

theorem processRows_fields (keyed : Bool) (st : FinishState) (ms : List Int) :
    (processRows keyed st ms).offset = st.offset ∧
      (processRows keyed st ms).do_hash_aggr_finish = st.do_hash_aggr_finish ∧
      (processRows keyed st ms).should_stop = st.should_stop := by
  unfold processRows
  induction ms generalizing st with
  | nil => simp
  | cons m ms ih =>
    obtain ⟨h1, h2, h3⟩ := ih (processRow keyed st m)
    obtain ⟨g1, g2, g3⟩ := processRow_fields keyed st m
    simp only [List.foldl_cons]
    exact ⟨h1.trans g1, h2.trans g2, h3.trans g3⟩

/-- After the keyed process block has run on the rows, `num_groups` is the
maximum of its initial value and the group ids seen. -/
theorem processRows_keyed_max (st : FinishState) (ms : List Int) :
    st.num_groups ≤ (processRows true st ms).num_groups ∧
      (∀ m ∈ ms, m ≤ (processRows true st ms).num_groups) ∧
      ((processRows true st ms).num_groups = st.num_groups ∨
        (processRows true st ms).num_groups ∈ ms) := by
  unfold processRows
  induction ms generalizing st with
  | nil => simp
  | cons m ms ih =>
    obtain ⟨h1, h2, h3⟩ := ih (processRow true st m)
    simp only [List.foldl_cons, List.mem_cons, forall_eq_or_imp]
    have hstep : (processRow true st m).num_groups = max st.num_groups m := by
      unfold processRow
      by_cases hm : m > st.num_groups
      · simp [hm]; omega
      · simp [hm]; omega
    rw [hstep] at h1 h3
    refine ⟨by omega, ⟨by omega, h2⟩, ?_⟩
    rcases h3 with h3 | h3
    · rcases le_total st.num_groups m with hle | hle
      · right; left; rw [h3]; omega
      · left; rw [h3]; omega
    · right; right; exact h3

theorem processRows_unkeyed (st : FinishState) (ms : List Int) :
    processRows false st ms = st := by
  unfold processRows
  induction ms generalizing st with
  | nil => rfl
  | cons m ms ih => simpa [processRow] using ih st

theorem finishBlock_num_groups (out : Option Nat) (out_length : Nat) (st : FinishState) :
    (finishBlock out out_length st).1.num_groups = st.num_groups := by
  unfold finishBlock
  simp only [if_true]
  split <;> rfl

/-- The offset and the stop flag after one more page of a keyed plan whose
group count is `G - 1`. -/
theorem finishBlock_page (G : Nat) (st : FinishState) (hG : 1 ≤ G) (hfit : G ≤ 2 ^ 31)
    (hng : st.num_groups = (G : Int) - 1) (hoff : st.offset ≤ G) :
    (finishBlock (some (pageRows G st.offset)) 0 st).1.offset = min (st.offset + 10000) G ∧
      ((finishBlock (some (pageRows G st.offset)) 0 st).1.should_stop = true ↔
        G ≤ st.offset + 10000) := by
  have hrows : pageRows G st.offset = min 10000 (G - st.offset) := rfl
  have hmod : (st.offset + pageRows G st.offset) % 2 ^ 64 = min (st.offset + 10000) G := by
    rw [hrows]; omega
  have hconv : toUInt64 ((G : Int) - 1) = G - 1 := by
    unfold toUInt64; omega
  unfold finishBlock
  simp only [if_true, hmod, hng, hconv, Nat.zero_add]
  by_cases hstop : pageRows G st.offset = 0 ∨ G - 1 < min (st.offset + 10000) G
  · rw [if_pos hstop]
    refine ⟨rfl, ?_⟩
    simp only [true_iff]
    rw [hrows] at hstop
    omega
  · rw [if_neg hstop]
    refine ⟨rfl, ?_⟩
    simp only [Bool.false_eq_true, false_iff]
    rw [hrows] at hstop
    omega

theorem finishPages_state (G : Nat) (st : FinishState) (hG : 1 ≤ G) (hfit : G ≤ 2 ^ 31)
    (hng : st.num_groups = (G : Int) - 1) (hoff : st.offset = 0) (n : Nat) :
    (finishPages G n st).offset = min (n * 10000) G ∧
      (finishPages G n st).num_groups = (G : Int) - 1 := by
  induction n with
  | zero => simp [finishPages, hoff, hng]
  | succ n ih =>
    obtain ⟨ho, hn⟩ := ih
    have hp := (finishBlock_page G (finishPages G n st) hG hfit hn (by rw [ho]; omega)).1
    refine ⟨?_, ?_⟩
    · simp only [finishPages]
      rw [hp, ho]; omega
    · simp only [finishPages]
      rw [finishBlock_num_groups, hn]

/-- The state machine of a keyed plan. Let the hash index hand out the
group ids `0 .. G-1` (`G >= 1`, the ids fitting the `int` `memo_index`) to the
rows, and let every finish invocation be entered with `out_length = 0` and get
`min(10000, G - offset)` rows from the accumulators. After the process block
has run on the rows, `num_groups` is the maximum group id seen, `G - 1`. The
stop flag is false after each of the first `ceil(G/10000) - 1` finish
invocations and true after invocation number `ceil(G/10000)`, at which point
`offset = G`. -/
theorem finishPages_keyed (G : Nat) (ids : List Nat) (hG : 1 ≤ G) (hfit : G ≤ 2 ^ 31)
    (hids : ∀ id ∈ ids, id < G) (hall : ∀ g, g < G → g ∈ ids) :
    ((processRows true FinishState.init (ids.map Int.ofNat)).num_groups = (G : Int) - 1 ∧
      (∀ id ∈ ids, (id : Int) ≤
        (processRows true FinishState.init (ids.map Int.ofNat)).num_groups) ∧
      ∃ id ∈ ids, (id : Int) =
        (processRows true FinishState.init (ids.map Int.ofNat)).num_groups) ∧
    (∀ n, 1 ≤ n → n < (G + 9999) / 10000 →
      (finishPages G n
        (processRows true FinishState.init (ids.map Int.ofNat))).should_stop = false) ∧
    (finishPages G ((G + 9999) / 10000)
      (processRows true FinishState.init (ids.map Int.ofNat))).should_stop = true ∧
    (finishPages G ((G + 9999) / 10000)
      (processRows true FinishState.init (ids.map Int.ofNat))).offset = G := by
  obtain ⟨hlow, hub, hmem⟩ := processRows_keyed_max FinishState.init (ids.map Int.ofNat)
  have hoff : (processRows true FinishState.init (ids.map Int.ofNat)).offset = 0 :=
    (processRows_fields true FinishState.init _).1
  have hlast : ((G - 1 : Nat) : Int) ≤
      (processRows true FinishState.init (ids.map Int.ofNat)).num_groups :=
    hub _ (List.mem_map_of_mem _ (hall (G - 1) (by omega)))
  have hng : (processRows true FinishState.init (ids.map Int.ofNat)).num_groups =
      (G : Int) - 1 := by
    rcases hmem with h | h
    · rw [h] at hlast
      simp only [FinishState.init] at hlast
      omega
    · obtain ⟨id, hid, hEq⟩ := List.mem_map.mp h
      have := hids id hid
      have hEq' : ((id : Nat) : Int) =
          (processRows true FinishState.init (ids.map Int.ofNat)).num_groups := hEq
      omega
  have hstate := finishPages_state G _ hG hfit hng hoff
  have hstop : ∀ n, (finishPages G (n + 1)
      (processRows true FinishState.init (ids.map Int.ofNat))).should_stop = true ↔
      G ≤ n * 10000 + 10000 := by
    intro n
    obtain ⟨ho, hn⟩ := hstate n
    have hp := (finishBlock_page G _ hG hfit hn (by rw [ho]; omega)).2
    simp only [finishPages]
    rw [hp, ho]
    omega
  refine ⟨⟨hng, ?_, ?_⟩, ?_, ?_, ?_⟩
  · intro id hid
    exact hub _ (List.mem_map_of_mem _ hid)
  · refine ⟨G - 1, hall (G - 1) (by omega), ?_⟩
    rw [hng]; omega
  · intro n hn1 hn
    obtain ⟨m, rfl⟩ : ∃ m, n = m + 1 := ⟨n - 1, by omega⟩
    have := hstop m
    cases hs : (finishPages G (m + 1)
      (processRows true FinishState.init (ids.map Int.ofNat))).should_stop with
    | false => rfl
    | true =>
      have := this.mp hs
      omega
  · obtain ⟨m, hm⟩ : ∃ m, (G + 9999) / 10000 = m + 1 := ⟨(G + 9999) / 10000 - 1, by omega⟩
    rw [hm]
    exact (hstop m).mpr (by omega)
  · rw [(hstate _).1]
    omega

/-- C9. Pagination termination for keyed plans. Take a plan with at least one
group-by key on which `DoCodeGen` succeeds. Its bundle declares
`uint64_t ..._offset = 0` and `int ..._num_groups = -1`, its process block ends
with the statement that raises `num_groups` to `memo_index`, and its finish
block is the text of lines 368-391 with one `Finish(offset, 10000, &out)` call
per action and the stop test `out_length == 0 || num_groups < offset`. Run as
a state machine over `(offset, num_groups, should_stop)`, with the hash index
handing out the group ids `0 .. G-1` (`G >= 1`, the ids fitting the `int`
`memo_index`), every finish invocation entered with `out_length = 0` and
getting `min(10000, G - offset)` rows: after processing, `num_groups` is the
maximum group id seen, `G - 1`; the stop flag is false after each of the first
`ceil(G/10000) - 1` finish invocations and true after invocation number
`ceil(G/10000)`, at which point `offset = G`. -/
theorem pagination_keyed {σ : Type} (H : Helpers) (visit : Evaluator σ) (impl : Impl)
    (level : Int) (s s1 : σ) (ctx : CodeGenContext) (sc : ScanState) (G : Nat)
    (ids : List Nat)
    (hsc : scanActions impl.action_list_ = .ok sc)
    (h : DoCodeGen H visit impl level s = .ok (ctx, s1))
    (hkey : sc.key_index_list ≠ [])
    (hG : 1 ≤ G) (hfit : G ≤ 2 ^ 31)
    (hids : ∀ id ∈ ids, id < G) (hall : ∀ g, g < G → g ∈ ids) :
    (∃ hash, ctx.definition_codes = hash ++
      [Frag.line ("std::vector<std::shared_ptr<ActionBase>> aggr_action_list_" ++ toString level
         ++ ";"),
       Frag.line ("bool do_hash_aggr_finish_" ++ toString level ++ " = false;"),
       Frag.line ("uint64_t do_hash_aggr_finish_" ++ toString level ++ "_offset = 0;"),
       Frag.line ("int do_hash_aggr_finish_" ++ toString level ++ "_num_groups = -1;")]) ∧
    (∃ before, ctx.process_codes = before ++
      [Frag.line ("if (memo_index > do_hash_aggr_finish_" ++ toString level ++ "_num_groups) \x7b"),
       Frag.line ("do_hash_aggr_finish_" ++ toString level ++ "_num_groups = memo_index;"),
       Frag.line "\x7d"]) ∧
    (∃ projector, ctx.aggregate_finish_codes =
      [Frag.line ("do_hash_aggr_finish_" ++ toString level ++ " = true;"),
       Frag.line "should_stop_ = false;",
       Frag.line ("std::vector<std::shared_ptr<arrow::Array>> do_hash_aggr_finish_"
         ++ toString level ++ "_out;"),
       Frag.text ("if(do_hash_aggr_finish_" ++ toString level ++ ") \x7b")]
      ++ (List.range impl.action_list_.length).map (fun i =>
        Frag.line ("aggr_action_list_" ++ toString level ++ "[" ++ toString i
          ++ "]->Finish(do_hash_aggr_finish_" ++ toString level
          ++ "_offset, 10000, &do_hash_aggr_finish_" ++ toString level ++ "_out);"))
      ++ [Frag.line ("if (do_hash_aggr_finish_" ++ toString level ++ "_out.size() > 0) \x7b"),
       Frag.line ("auto tmp_arr = std::make_shared<Array>(do_hash_aggr_finish_" ++ toString level
         ++ "_out[0]);"),
       Frag.line "out_length += tmp_arr->length();",
       Frag.line ("do_hash_aggr_finish_" ++ toString level ++ "_offset += tmp_arr->length();"),
       Frag.line "\x7d",
       Frag.line ("if (out_length == 0 || do_hash_aggr_finish_" ++ toString level
         ++ "_num_groups < do_hash_aggr_finish_" ++ toString level ++ "_offset) \x7b"),
       Frag.line "should_stop_ = true;",
       Frag.line "\x7d",
       Frag.line "\x7d"]
      ++ projector ∧
      (projector = [] ∨
        projector = [Frag.line
          ("RETURN_NOT_OK(gandiva_projector_list_[gp_idx++]->Evaluate(&do_hash_"
            ++ "aggr_finish_" ++ toString level ++ "_out));")])) ∧
    updatesNumGroups level ctx.process_codes = true ∧
    ((processRows (updatesNumGroups level ctx.process_codes) FinishState.init
        ((ids).map Int.ofNat)).num_groups = ((G : Nat) : Int) - 1 ∧
      (∀ id ∈ ids, (id : Int) ≤
        (processRows (updatesNumGroups level ctx.process_codes) FinishState.init
          ((ids).map Int.ofNat)).num_groups) ∧
      ∃ id ∈ ids, (id : Int) =
        (processRows (updatesNumGroups level ctx.process_codes) FinishState.init
          ((ids).map Int.ofNat)).num_groups) ∧
    (∀ n, 1 ≤ n → n < (G + 9999) / 10000 →
      (finishPages G n
        (processRows (updatesNumGroups level ctx.process_codes) FinishState.init
          ((ids).map Int.ofNat))).should_stop = false) ∧
    (finishPages G ((G + 9999) / 10000)
      (processRows (updatesNumGroups level ctx.process_codes) FinishState.init
        ((ids).map Int.ofNat))).should_stop = true ∧
    (finishPages G ((G + 9999) / 10000)
      (processRows (updatesNumGroups level ctx.process_codes) FinishState.init
        ((ids).map Int.ofNat))).offset = G := by
  obtain ⟨sc', hc, pol, hsc', hev, hctx⟩ := DoCodeGen_ok H visit impl level s s1 ctx h
  rw [hsc] at hsc'
  injection hsc' with hsc'
  subst hsc'
  have hk : sc.key_index_list.length > 0 := List.length_pos.mpr hkey
  have hidx : (actionCodes H level sc.action_prepare_index_list 0
      (keyCodes level sc.key_index_list pol).project_output_list).2.2 =
      impl.action_list_.length := by
    rw [(actionCodes_dispatch H level sc.action_prepare_index_list 0 pol _
      (keyCodes_names level sc.key_index_list pol)).2]
    have := (scanFrom_lists ScanState.init sc impl.action_list_ hsc).2.1
    simp only [ScanState.init, List.length_nil, Nat.zero_add] at this
    omega
  have hproc : ctx.process_codes =
      ([Frag.line "int memo_index = 0;"] ++ hashLookup level ++
        (actionCodes H level sc.action_prepare_index_list 0
          (keyCodes level sc.key_index_list pol).project_output_list).1 ++ [Frag.line ""]) ++
      [Frag.line ("if (memo_index > do_hash_aggr_finish_" ++ toString level
         ++ "_num_groups) \x7b"),
       Frag.line ("do_hash_aggr_finish_" ++ toString level ++ "_num_groups = memo_index;"),
       Frag.line "\x7d"] := by
    rw [hctx]
    simp [assemble, processCodes, hk, numGroupsUpdate]
  have hupd : updatesNumGroups level ctx.process_codes = true := by
    unfold updatesNumGroups
    rw [decide_eq_true_iff, hproc]
    exact ⟨[Frag.line "int memo_index = 0;"] ++ hashLookup level ++
        (actionCodes H level sc.action_prepare_index_list 0
          (keyCodes level sc.key_index_list pol).project_output_list).1 ++ [Frag.line ""],
      [], by simp⟩
  refine ⟨⟨(selectHashTable H level sc.key_node_list).2.2, ?_⟩, ⟨_, hproc⟩,
    ⟨(projectorCodes impl level).2.2, ?_, ?_⟩, hupd, ?_⟩
  · rw [hctx]
    simp [assemble, actionListCodes]
  · rw [hctx]
    simp only [assemble, hidx, finishCodes, finishCalls]
  · unfold projectorCodes projectorCall
    by_cases he : impl.result_expr_list_.isEmpty = true <;> simp [he]
  · rw [hupd]
    exact finishPages_keyed G ids hG hfit hids hall

/-- C9 at the sample kernel with 20001 groups, the rows meeting the groups
`0 .. 20000` and then group 5 again: the stop flag is false after the first and
the second finish invocation and true after the third. -/
theorem pagination_keyed_witness :
    (∃ hash, sampleBundle.definition_codes = hash ++
      [Frag.line ("std::vector<std::shared_ptr<ActionBase>> aggr_action_list_" ++ toString (0 : Int)
         ++ ";"),
       Frag.line ("bool do_hash_aggr_finish_" ++ toString (0 : Int) ++ " = false;"),
       Frag.line ("uint64_t do_hash_aggr_finish_" ++ toString (0 : Int) ++ "_offset = 0;"),
       Frag.line ("int do_hash_aggr_finish_" ++ toString (0 : Int) ++ "_num_groups = -1;")]) ∧
    (∃ before, sampleBundle.process_codes = before ++
      [Frag.line ("if (memo_index > do_hash_aggr_finish_" ++ toString (0 : Int) ++ "_num_groups) \x7b"),
       Frag.line ("do_hash_aggr_finish_" ++ toString (0 : Int) ++ "_num_groups = memo_index;"),
       Frag.line "\x7d"]) ∧
    (∃ projector, sampleBundle.aggregate_finish_codes =
      [Frag.line ("do_hash_aggr_finish_" ++ toString (0 : Int) ++ " = true;"),
       Frag.line "should_stop_ = false;",
       Frag.line ("std::vector<std::shared_ptr<arrow::Array>> do_hash_aggr_finish_"
         ++ toString (0 : Int) ++ "_out;"),
       Frag.text ("if(do_hash_aggr_finish_" ++ toString (0 : Int) ++ ") \x7b")]
      ++ (List.range sampleImpl.action_list_.length).map (fun i =>
        Frag.line ("aggr_action_list_" ++ toString (0 : Int) ++ "[" ++ toString i
          ++ "]->Finish(do_hash_aggr_finish_" ++ toString (0 : Int)
          ++ "_offset, 10000, &do_hash_aggr_finish_" ++ toString (0 : Int) ++ "_out);"))
      ++ [Frag.line ("if (do_hash_aggr_finish_" ++ toString (0 : Int) ++ "_out.size() > 0) \x7b"),
       Frag.line ("auto tmp_arr = std::make_shared<Array>(do_hash_aggr_finish_" ++ toString (0 : Int)
         ++ "_out[0]);"),
       Frag.line "out_length += tmp_arr->length();",
       Frag.line ("do_hash_aggr_finish_" ++ toString (0 : Int) ++ "_offset += tmp_arr->length();"),
       Frag.line "\x7d",
       Frag.line ("if (out_length == 0 || do_hash_aggr_finish_" ++ toString (0 : Int)
         ++ "_num_groups < do_hash_aggr_finish_" ++ toString (0 : Int) ++ "_offset) \x7b"),
       Frag.line "should_stop_ = true;",
       Frag.line "\x7d",
       Frag.line "\x7d"]
      ++ projector ∧
      (projector = [] ∨
        projector = [Frag.line
          ("RETURN_NOT_OK(gandiva_projector_list_[gp_idx++]->Evaluate(&do_hash_"
            ++ "aggr_finish_" ++ toString (0 : Int) ++ "_out));")])) ∧
    updatesNumGroups (0 : Int) sampleBundle.process_codes = true ∧
    ((processRows (updatesNumGroups (0 : Int) sampleBundle.process_codes) FinishState.init
        (((List.range 20001 ++ [5] : List Nat)).map Int.ofNat)).num_groups = ((20001 : Nat) : Int) - 1 ∧
      (∀ id ∈ (List.range 20001 ++ [5] : List Nat), (id : Int) ≤
        (processRows (updatesNumGroups (0 : Int) sampleBundle.process_codes) FinishState.init
          (((List.range 20001 ++ [5] : List Nat)).map Int.ofNat)).num_groups) ∧
      ∃ id ∈ (List.range 20001 ++ [5] : List Nat), (id : Int) =
        (processRows (updatesNumGroups (0 : Int) sampleBundle.process_codes) FinishState.init
          (((List.range 20001 ++ [5] : List Nat)).map Int.ofNat)).num_groups) ∧
    (∀ n, 1 ≤ n → n < (20001 + 9999) / 10000 →
      (finishPages 20001 n
        (processRows (updatesNumGroups (0 : Int) sampleBundle.process_codes) FinishState.init
          (((List.range 20001 ++ [5] : List Nat)).map Int.ofNat))).should_stop = false) ∧
    (finishPages 20001 ((20001 + 9999) / 10000)
      (processRows (updatesNumGroups (0 : Int) sampleBundle.process_codes) FinishState.init
        (((List.range 20001 ++ [5] : List Nat)).map Int.ofNat))).should_stop = true ∧
    (finishPages 20001 ((20001 + 9999) / 10000)
      (processRows (updatesNumGroups (0 : Int) sampleBundle.process_codes) FinishState.init
        (((List.range 20001 ++ [5] : List Nat)).map Int.ofNat))).offset = 20001 :=
  pagination_keyed sampleHelpers sampleEvaluator sampleImpl 0 () () sampleBundle sampleScan
    20001 (List.range 20001 ++ [5] : List Nat) (by rfl) (by rfl) (by decide) (by decide) (by decide)
    (fun id hid => (List.mem_append.mp hid).elim (fun hr => List.mem_range.mp hr)
      (fun h5 => by simp at h5; omega))
    (fun _ hg => List.mem_append_left _ (List.mem_range.mpr hg))

/-- C10, what the emitted code does for a plan without group-by key
(`action_count(a)`, one implicit group). The bundle declares
`uint64_t ..._offset = 0` and `int ..._num_groups = -1` and its process block
never assigns `num_groups`. On the first finish invocation, entered with
`out_length = 0` and given one row by the accumulators, `offset` becomes 1, but
`num_groups < offset` compares `(uint64_t)(-1) = 2^64 - 1` with 1, so the stop
flag stays false; it is raised only by the second invocation, which gets no
row. -/
theorem ungrouped_stop_not_raised :
    (∃ ctx, DoCodeGen sampleHelpers sampleEvaluator ungroupedImpl 0 () = .ok (ctx, ()) ∧
      Frag.line "uint64_t do_hash_aggr_finish_0_offset = 0;" ∈ ctx.definition_codes ∧
      Frag.line "int do_hash_aggr_finish_0_num_groups = -1;" ∈ ctx.definition_codes ∧
      ctx.process_codes =
        [.line "int memo_index = 0;",
         .snippet 0 "prepare(int32) a",
         .line "if (v(int32) a_validity) \x7b",
         .line "RETURN_NOT_OK(aggr_action_list_0[0]->Evaluate(memo_index, (void*)&v(int32) a));",
         .line "\x7d else \x7b",
         .line "RETURN_NOT_OK(aggr_action_list_0[0]->EvaluateNull(memo_index));",
         .line "\x7d",
         .line ""]) ∧
    toUInt64 (-1) = 2 ^ 64 - 1 ∧
    ∀ rows : List Int,
      (processRows false FinishState.init rows).num_groups = -1 ∧
      (processRows false FinishState.init rows).offset = 0 ∧
      (finishBlock (some 1) 0 (processRows false FinishState.init rows)).1.should_stop = false ∧
      (finishBlock (some 1) 0 (processRows false FinishState.init rows)).1.offset = 1 ∧
      (finishBlock (some 0) 0
        (finishBlock (some 1) 0 (processRows false FinishState.init rows)).1).1.should_stop
          = true := by
  refine ⟨⟨_, rfl, by decide, by decide, by decide⟩, by decide, ?_⟩
  intro rows
  rw [processRows_unkeyed]
  decide

/-! ## The action tag -/

theorem compareStart_iff (name lit : String) :
    compareStart name lit.toList.length lit = true ↔ lit.toList <+: name.toList := by
  unfold compareStart
  rw [decide_eq_true_iff, List.prefix_iff_eq_take]
  exact eq_comm

theorem compareStart_tag_iff (name : String) :
    compareStart name 7 "action_" = true ↔ hasActionTag name :=
  compareStart_iff name "action_"

theorem compareStart_countLiteral_iff (name : String) :
    compareStart name 20 "action_countLiteral_" = true ↔ isCountLiteral name :=
  compareStart_iff name "action_countLiteral_"

theorem scanAction_tagged (st : ScanState) (a : FunctionNode)
    (h : compareStart a.name 7 "action_" = true) : ∃ st1, scanAction st a = .ok st1 := by
  unfold scanAction
  simp only [h, if_true]
  split <;> exact ⟨_, rfl⟩

theorem scanAction_untagged (st : ScanState) (a : FunctionNode)
    (h : ¬ compareStart a.name 7 "action_" = true) :
    scanAction st a = .error (.thrown (.Invalid "Expected some with action_ prefix.")) := by
  unfold scanAction
  simp [h]

theorem scanFrom_tagged (st : ScanState) (l : List FunctionNode)
    (h : ∀ a ∈ l, compareStart a.name 7 "action_" = true) : ∃ fin, scanFrom st l = .ok fin := by
  induction l generalizing st with
  | nil => exact ⟨st, rfl⟩
  | cons a l ih =>
    obtain ⟨st1, h1⟩ := scanAction_tagged st a (h a (List.mem_cons_self _ _))
    obtain ⟨fin, hfin⟩ := ih st1 (fun b hb => h b (List.mem_cons_of_mem _ hb))
    exact ⟨fin, by simp [scanFrom, h1, hfin]⟩

theorem scanFrom_untagged (st : ScanState) (l : List FunctionNode)
    (h : ∃ a ∈ l, ¬ compareStart a.name 7 "action_" = true) :
    scanFrom st l = .error (.thrown (.Invalid "Expected some with action_ prefix.")) := by
  induction l generalizing st with
  | nil => simp at h
  | cons a l ih =>
    by_cases ha : compareStart a.name 7 "action_" = true
    · obtain ⟨st1, h1⟩ := scanAction_tagged st a ha
      have hrest : ∃ b ∈ l, ¬ compareStart b.name 7 "action_" = true := by
        obtain ⟨b, hb, hnb⟩ := h
        rcases List.mem_cons.mp hb with rfl | hb'
        · exact absurd ha hnb
        · exact ⟨b, hb', hnb⟩
      simp [scanFrom, h1, ih st1 hrest]
    · simp [scanFrom, scanAction_untagged st a ha]

theorem DoCodeGen_untagged {σ : Type} (H : Helpers) (visit : Evaluator σ) (impl : Impl)
    (level : Int) (s : σ) (h : ∃ a ∈ impl.action_list_, ¬ hasActionTag a.name) :
    DoCodeGen H visit impl level s =
      .error (.thrown (.Invalid "Expected some with action_ prefix.")) := by
  obtain ⟨a, ha, hna⟩ := h
  have := scanFrom_untagged ScanState.init impl.action_list_
    ⟨a, ha, fun hh => hna ((compareStart_tag_iff _).mp hh)⟩
  simp [DoCodeGen, scanActions, this]

/-- C11. A missing action tag is rejected. If an action of the plan has a name
that does not begin with `action_`, and the actions before it all do, the scan
accepts the actions before it and raises `Invalid` when it scans that action,
and `DoCodeGen` fails with that error, whatever the evaluator does; so does
`DoCodeGen` on any plan with some untagged action. If the name of every action
begins with `action_`, the action scan raises no error. -/
theorem missing_tag_rejected {σ : Type} (H : Helpers) (visit : Evaluator σ) (impl : Impl)
    (level : Int) (s : σ) :
    (∀ pre a post, impl.action_list_ = pre ++ a :: post →
      (∀ b ∈ pre, hasActionTag b.name) → ¬ hasActionTag a.name →
      (∃ st0, scanActions pre = .ok st0 ∧
        scanAction st0 a =
          .error (.thrown (.Invalid "Expected some with action_ prefix."))) ∧
      DoCodeGen H visit impl level s =
        .error (.thrown (.Invalid "Expected some with action_ prefix."))) ∧
    ((∃ a ∈ impl.action_list_, ¬ hasActionTag a.name) →
      DoCodeGen H visit impl level s =
        .error (.thrown (.Invalid "Expected some with action_ prefix."))) ∧
    ((∀ a ∈ impl.action_list_, hasActionTag a.name) →
      ∃ sc, scanActions impl.action_list_ = .ok sc) := by
  have hfail : (∃ a ∈ impl.action_list_, ¬ hasActionTag a.name) →
      DoCodeGen H visit impl level s =
        .error (.thrown (.Invalid "Expected some with action_ prefix.")) := by
    rintro ⟨a, ha, hna⟩
    have := scanFrom_untagged ScanState.init impl.action_list_
      ⟨a, ha, fun hh => hna ((compareStart_tag_iff _).mp hh)⟩
    simp [DoCodeGen, scanActions, this]
  refine ⟨?_, hfail, ?_⟩
  · intro pre a post hl hpre hna
    refine ⟨?_, hfail ⟨a, by rw [hl]; simp, hna⟩⟩
    obtain ⟨st0, h0⟩ := scanFrom_tagged ScanState.init pre
      (fun b hb => (compareStart_tag_iff _).mpr (hpre b hb))
    exact ⟨st0, h0, scanAction_untagged st0 a (fun hh => hna ((compareStart_tag_iff _).mp hh))⟩
  · intro hall
    exact scanFrom_tagged ScanState.init _ (fun a ha => (compareStart_tag_iff _).mpr (hall a ha))

/-! ## Unknown action names -/

theorem evalPool_error {σ : Type} (visit : Evaluator σ) (level : Int) (pool : List Node)
    (acc : List String × List (String × String) × σ) (f : Failure)
    (h : evalPool visit level pool acc = .error f) :
    ∃ node ∈ pool, ∃ t e, visit node level t = .error e ∧ f = .returned e := by
  induction pool generalizing acc with
  | nil => simp [evalPool] at h
  | cons n rest ih =>
    obtain ⟨hc, pol, s⟩ := acc
    unfold evalPool at h
    cases hv : visit n level s with
    | error e =>
      simp only [hv, Except.error.injEq] at h
      exact ⟨n, List.mem_cons_self _ _, s, e, hv, h.symm⟩
    | ok r =>
      obtain ⟨v, s2⟩ := r
      simp only [hv] at h
      obtain ⟨node, hmem, t, e, hve, hf⟩ := ih _ h
      exact ⟨node, List.mem_cons_of_mem _ hmem, t, e, hve, hf⟩

/-- C13. No partial bundle on failure. Whatever the plan and the evaluator, a
call of `DoCodeGen` that does not return OK leaves the slot `*codegen_ctx_out`
as it was. This is so when an action lacks the tag (the call throws `Invalid`)
and when the evaluator returns an error for a pool expression (the call
returns that error), and these are the only ways the call fails. The slot is
assigned, with the bundle, exactly on the path that returns OK. -/
theorem no_partial_bundle {σ : Type} (H : Helpers) (visit : Evaluator σ) (impl : Impl)
    (level : Int) (s : σ) (codegen_ctx_out : Option CodeGenContext) :
    ((DoCodeGenCall H visit impl level s codegen_ctx_out).1 ≠ .ok () →
      (DoCodeGenCall H visit impl level s codegen_ctx_out).2 = codegen_ctx_out) ∧
    ((∃ a ∈ impl.action_list_, ¬ hasActionTag a.name) →
      DoCodeGenCall H visit impl level s codegen_ctx_out =
        (.error (.thrown (.Invalid "Expected some with action_ prefix.")), codegen_ctx_out)) ∧
    (∀ sc f, scanActions impl.action_list_ = .ok sc →
      evalPool visit level sc.prepare_function_list
        (baseHeaders ++ (selectHashTable H level sc.key_node_list).1, [], s) = .error f →
      (DoCodeGenCall H visit impl level s codegen_ctx_out = (.error f, codegen_ctx_out) ∧
        ∃ node ∈ sc.prepare_function_list, ∃ t e,
          visit node level t = .error e ∧ f = .returned e)) ∧
    (∀ ctx s1, DoCodeGen H visit impl level s = .ok (ctx, s1) →
      DoCodeGenCall H visit impl level s codegen_ctx_out = (.ok (), some ctx)) ∧
    ((DoCodeGenCall H visit impl level s codegen_ctx_out).1 ≠ .ok () →
      (∃ a ∈ impl.action_list_, ¬ hasActionTag a.name) ∨
      ∃ sc f, scanActions impl.action_list_ = .ok sc ∧
        evalPool visit level sc.prepare_function_list
          (baseHeaders ++ (selectHashTable H level sc.key_node_list).1, [], s) = .error f) := by
  refine ⟨?_, ?_, ?_, ?_, ?_⟩
  · intro hne
    unfold DoCodeGenCall at hne ⊢
    cases hd : DoCodeGen H visit impl level s with
    | error e => rfl
    | ok r => simp [hd] at hne
  · intro hex
    have := (DoCodeGen_untagged H visit impl level s) hex
    simp [DoCodeGenCall, this]
  · intro sc f hsc hev
    refine ⟨?_, evalPool_error visit level _ _ f hev⟩
    simp [DoCodeGenCall, DoCodeGen, generate, hsc, hev]
  · intro ctx s1 hd
    simp [DoCodeGenCall, hd]
  · intro hne
    by_cases htag : ∀ a ∈ impl.action_list_, hasActionTag a.name
    · right
      obtain ⟨sc, hsc⟩ := scanFrom_tagged ScanState.init impl.action_list_
        (fun a ha => (compareStart_tag_iff _).mpr (htag a ha))
      cases hev : evalPool visit level sc.prepare_function_list
          (baseHeaders ++ (selectHashTable H level sc.key_node_list).1, [], s) with
      | error f => exact ⟨sc, f, hsc, hev⟩
      | ok r =>
        obtain ⟨hc, pol, s1⟩ := r
        have := DoCodeGen_eq_ok H visit impl level s s1 sc hc pol hsc hev
        simp [DoCodeGenCall, this] at hne
    · left
      push_neg at htag
      exact htag

/-! ## The key block -/

theorem withoutSnippets_snippet (i : Nat) (t : String) (fs : List Frag) :
    withoutSnippets (Frag.snippet i t :: fs) = withoutSnippets fs := by
  simp [withoutSnippets, List.filter_cons]

theorem withoutSnippets_line (t : String) (fs : List Frag) :
    withoutSnippets (Frag.line t :: fs) = Frag.line t :: withoutSnippets fs := by
  simp [withoutSnippets, List.filter_cons]

theorem withoutSnippets_nil : withoutSnippets [] = [] := rfl

theorem encodeKeys_branches (level : Int) (keys : List Nat) (idx : Nat)
    (pol pol' : List (String × String)) (hn : pol'.map (·.1) = pol.map (·.1)) :
    withoutSnippets (encodeKeys ("aggr_key_" ++ toString level) keys idx pol').1 =
      (keys.enumFrom idx).flatMap (fun p => fieldBranch level p.1 (entry pol p.2).1) := by
  induction keys generalizing idx pol' with
  | nil => simp [encodeKeys, withoutSnippets]
  | cons i rest ih =>
    have hn' : (blank pol' i).map (·.1) = pol.map (·.1) := by rw [blank_names, hn]
    have hname : (entry (blank pol' i) i).1 = (entry pol i).1 :=
      entry_fst_of_names pol _ hn' i
    simp only [encodeKeys, List.cons_append, withoutSnippets_snippet, withoutSnippets_line,
      List.nil_append, ih (idx + 1) (blank pol' i) hn', hname, List.enumFrom_cons,
      List.flatMap_cons, fieldBranch]

theorem enumFrom_fst_range {α : Type} (l : List α) :
    (l.enumFrom 0).map (·.1) = List.range l.length := by
  rw [List.enumFrom_map_fst, List.range_eq_range']

/-- The text of the key block for two or more keys, apart from the snippets. -/
theorem keyCodes_rows (level : Int) (keys : List Nat) (pol : List (String × String))
    (hk : 2 ≤ keys.length) :
    (keyCodes level keys pol).unsafe_row_prepare_codes = [rowBufferDecl level keys.length] ∧
    (keyCodes level keys pol).headers = [unsafeRowHeader] ∧
    withoutSnippets (keyCodes level keys pol).prepare_ss =
      [Frag.line ("auto " ++ ("aggr_key_" ++ toString level ++ "_validity") ++ " = "
         ++ "true;"),
       Frag.line (("aggr_key_" ++ toString level) ++ "_unsafe_row->reset();")]
      ++ (keys.enumFrom 0).flatMap (fun p => fieldBranch level p.1 (entry pol p.2).1)
      ++ [Frag.line ("auto " ++ ("aggr_key_" ++ toString level) ++ " = std::string("
         ++ ("aggr_key_" ++ toString level) ++ "_unsafe_row->data, "
         ++ ("aggr_key_" ++ toString level) ++ "_unsafe_row->cursor);")] := by
  match keys, hk with
  | i :: j :: rest, _ =>
    have hb := encodeKeys_branches level (i :: j :: rest) 0 pol pol rfl
    refine ⟨rfl, rfl, ?_⟩
    simp only [keyCodes, rowEncoderCodes, List.cons_append, List.nil_append,
      withoutSnippets_line, withoutSnippets_append, hb, withoutSnippets_nil]

theorem addHeaders_nodup (header_codes headers : List String) (h : header_codes.Nodup) :
    (addHeaders header_codes headers).Nodup := by
  unfold addHeaders
  induction headers generalizing header_codes with
  | nil => exact h
  | cons x xs ih =>
    rw [List.foldl_cons]
    by_cases hx : x ∈ header_codes
    · simpa [hx] using ih header_codes h
    · simp only [hx, if_false]
      apply ih
      rw [List.nodup_append]
      exact ⟨h, List.nodup_singleton x, by simpa [List.disjoint_singleton] using hx⟩

theorem evalPool_nodup {σ : Type} (visit : Evaluator σ) (level : Int) (pool : List Node)
    (hc hc1 : List String) (pol pol1 : List (String × String)) (s s1 : σ)
    (h : evalPool visit level pool (hc, pol, s) = .ok (hc1, pol1, s1)) (hnd : hc.Nodup) :
    hc1.Nodup := by
  induction pool generalizing hc pol s with
  | nil =>
    simp only [evalPool, Except.ok.injEq, Prod.mk.injEq] at h
    rw [← h.1]; exact hnd
  | cons n rest ih =>
    unfold evalPool at h
    cases hv : visit n level s with
    | error e => simp [hv] at h
    | ok r =>
      obtain ⟨v, s2⟩ := r
      simp only [hv] at h
      exact ih _ _ _ h (addHeaders_nodup hc v.GetHeaders hnd)

theorem initial_headers_nodup (H : Helpers) (level : Int) (key_node_list : List Node) :
    (baseHeaders ++ (selectHashTable H level key_node_list).1).Nodup := by
  unfold selectHashTable
  split
  · show (baseHeaders ++ ["#include \"precompile/hash_map.h\""]).Nodup
    decide
  · split
    · show (baseHeaders ++ ["#include \"precompile/sparse_hash_map.h\""]).Nodup
      decide
    · show (baseHeaders ++ []).Nodup
      decide

theorem keyCodes_headers (level : Int) (keys : List Nat) (pol : List (String × String)) :
    (keyCodes level keys pol).headers = if 2 ≤ keys.length then [unsafeRowHeader] else [] := by
  match keys with
  | [] => rfl
  | [i] => rfl
  | i :: j :: rest => simp [keyCodes]

theorem projectorCodes_headers (impl : Impl) (level : Int) :
    (projectorCodes impl level).2.1 =
      if impl.result_expr_list_ ≠ [] then [projectorHeader] else [] := by
  unfold projectorCodes
  by_cases h : impl.result_expr_list_ = [] <;> simp [h]

/-- C15, what the code does. The headers the evaluation loop adds are pushed
only when `std::find` does not find them, but the header of the row encoder
(line 223) and the header of the projector (line 397) are pushed without that
test. With an evaluator whose visitor asks for the header of the row encoder
and the two-key plan `action_groupby(a, b)`, the bundle lists that header
twice. In general the header list of a bundle has no duplicate exactly when
neither of the two unconditional pushes repeats a header the evaluation loop
left. -/
theorem headers_duplicate :
    (∃ ctx, DoCodeGen sampleHelpers rowHeaderEvaluator twoKeyImpl 0 () = .ok (ctx, ()) ∧
      ctx.header_codes =
        ["#include \"codegen/arrow_compute/ext/array_item_index.h\"",
         "#include \"codegen/arrow_compute/ext/actions_impl.h\"",
         "#include \"precompile/hash_map.h\"",
         "#include \"third_party/row_wise_memory/unsafe_row.h\"",
         "#include \"third_party/row_wise_memory/unsafe_row.h\""] ∧
      ¬ ctx.header_codes.Nodup) ∧
    ∀ (σ : Type) (H : Helpers) (visit : Evaluator σ) (impl : Impl) (level : Int) (s s1 : σ)
      (ctx : CodeGenContext) (sc : ScanState) (header_codes : List String)
      (project_output_list : List (String × String)),
      scanActions impl.action_list_ = .ok sc →
      evalPool visit level sc.prepare_function_list
        (baseHeaders ++ (selectHashTable H level sc.key_node_list).1, [], s) =
          .ok (header_codes, project_output_list, s1) →
      DoCodeGen H visit impl level s = .ok (ctx, s1) →
      (ctx.header_codes.Nodup ↔
        ¬ (2 ≤ sc.key_index_list.length ∧ unsafeRowHeader ∈ header_codes) ∧
        ¬ (impl.result_expr_list_ ≠ [] ∧ projectorHeader ∈ header_codes)) := by
  refine ⟨⟨_, rfl, rfl, by decide⟩, ?_⟩
  intro σ H visit impl level s s1 ctx sc hc pol hsc hev hd
  have hd' := DoCodeGen_eq_ok H visit impl level s s1 sc hc pol hsc hev
  rw [hd] at hd'
  injection hd' with hd'
  injection hd' with hctx _
  have hnd := evalPool_nodup visit level _ _ _ _ _ _ _ hev
    (initial_headers_nodup H level sc.key_node_list)
  have hne : unsafeRowHeader ≠ projectorHeader := by decide
  rw [hctx]
  simp only [assemble, keyCodes_headers, projectorCodes_headers]
  by_cases hk : 2 ≤ sc.key_index_list.length <;>
    by_cases he : impl.result_expr_list_ = [] <;>
    simp [hk, he, List.nodup_append, hnd, hne, List.disjoint_singleton]

/-! ## Names and result types of the actions -/

theorem resultType_eq (a : FunctionNode) :
    (match a.children with
      | c :: _ => c.return_type
      | [] => a.return_type) = resultType a := by
  unfold resultType
  cases a.children <;> rfl

theorem scanUpTo_name_list (st : ScanState) (a : FunctionNode) (cs : List Node) :
    (scanUpTo st a cs).1.action_name_list =
      st.action_name_list ++ [(a.name, resultType a)] := by
  induction cs using List.reverseRecOn with
  | nil => simp [scanUpTo, resultType_eq]
  | append_singleton cs c ih => rw [scanUpTo_snoc, (scanChild_names _ _ _).1, ih]

theorem scanAction_name_list (st st1 : ScanState) (a : FunctionNode)
    (h : scanAction st a = .ok st1) :
    st1.action_name_list = st.action_name_list ++ [(a.name, resultType a)] := by
  obtain ⟨_, hst1⟩ := scanAction_ok st st1 a h
  by_cases h20 : compareStart a.name 20 "action_countLiteral_" = true
  · rw [if_pos h20] at hst1
    subst hst1
    exact scanUpTo_name_list st a []
  · rw [if_neg h20] at hst1
    subst hst1
    exact scanUpTo_name_list st a a.children

theorem scanFrom_name_list (st fin : ScanState) (l : List FunctionNode)
    (h : scanFrom st l = .ok fin) :
    fin.action_name_list =
      st.action_name_list ++ l.map (fun a => (a.name, resultType a)) := by
  induction l generalizing st with
  | nil =>
    simp only [scanFrom, Except.ok.injEq] at h
    subst h
    simp
  | cons a l ih =>
    unfold scanFrom at h
    cases ha : scanAction st a with
    | error e => simp [ha] at h
    | ok st1 =>
      simp only [ha] at h
      rw [ih st1 h, scanAction_name_list st st1 a ha]
      simp

theorem countLiteral_tagged (name : String) (h : isCountLiteral name) : hasActionTag name := by
  unfold isCountLiteral at h
  unfold hasActionTag
  have h7 : "action_".toList <+: "action_countLiteral_".toList := by decide
  exact h7.trans h

/-- C16. `count_literal` takes no arguments. For every action whose name begins
with `action_countLiteral_`, whatever children it carries and whatever the
vectors `st0` the actions before it left: the scan accepts it, appends its name
(with its result type) to the action-name list and an empty argument-slot list
to the per-action slot lists, and leaves the pool, the key-slot list and the
key-node list as they were. In an accepted plan `pre ++ a :: post` the action
therefore has the empty slot list and its own name at its position
`pre.length`. -/
theorem count_literal_no_arguments (pre post : List FunctionNode) (a : FunctionNode)
    (st0 fin : ScanState) (h : isCountLiteral a.name)
    (hpre : scanActions pre = .ok st0)
    (hfin : scanActions (pre ++ a :: post) = .ok fin) :
    (∀ st : ScanState, ∃ st1, scanAction st a = .ok st1 ∧
      st1.action_prepare_index_list = st.action_prepare_index_list ++ [[]] ∧
      st1.action_name_list = st.action_name_list ++ [(a.name, resultType a)] ∧
      st1.prepare_function_list = st.prepare_function_list ∧
      st1.key_index_list = st.key_index_list ∧
      st1.key_node_list = st.key_node_list) ∧
    fin.action_prepare_index_list[pre.length]? = some [] ∧
    fin.action_name_list[pre.length]? = some (a.name, resultType a) := by
  have h20 := (compareStart_countLiteral_iff a.name).mpr h
  have h7 := (compareStart_tag_iff a.name).mpr (countLiteral_tagged a.name h)
  have hstep : ∀ st : ScanState, scanAction st a = .ok
      { st with
        action_name_list := st.action_name_list ++ [(a.name, resultType a)],
        action_prepare_index_list := st.action_prepare_index_list ++ [[]] } := by
    intro st
    simp [scanAction, h7, h20, resultType_eq]
  refine ⟨fun st => ⟨_, hstep st, rfl, rfl, rfl, rfl, rfl⟩, ?_, ?_⟩
  · have hsplit : scanFrom st0 (a :: post) = .ok fin := by
      have := scanFrom_append ScanState.init pre (a :: post)
      unfold scanActions at hpre hfin
      rw [hfin, hpre] at this
      exact this.symm
    unfold scanFrom at hsplit
    rw [hstep st0] at hsplit
    simp only at hsplit
    obtain ⟨hp, _, _⟩ := scanFrom_lists _ fin post hsplit
    have hlen0 : st0.action_prepare_index_list.length = pre.length := by
      have := (scanFrom_lists ScanState.init st0 pre hpre).2.1
      simpa [ScanState.init] using this
    apply getElem?_of_initial hp
    rw [← hlen0]
    simp
  · have := scanFrom_name_list ScanState.init fin _ hfin
    rw [this]
    simp only [ScanState.init, List.nil_append, List.map_append, List.map_cons]
    rw [List.getElem?_append_right (by simp)]
    simp

/-- C16 at the plan `action_sum(b)`, `action_countLiteral_1(a)`: the child `a`
of the count-literal action is not interned. -/
theorem count_literal_no_arguments_witness :
    (∀ st : ScanState, ∃ st1, scanAction st countLiteral1 = .ok st1 ∧
      st1.action_prepare_index_list = st.action_prepare_index_list ++ [[]] ∧
      st1.action_name_list =
        st.action_name_list ++ [(countLiteral1.name, resultType countLiteral1)] ∧
      st1.prepare_function_list = st.prepare_function_list ∧
      st1.key_index_list = st.key_index_list ∧
      st1.key_node_list = st.key_node_list) ∧
    ([[0], []] : List (List Nat))[[sumB].length]? = some [] ∧
    ([("action_sum", ⟨.INT32⟩), ("action_countLiteral_1", ⟨.INT32⟩)] :
        List (String × DataType))[[sumB].length]? =
      some (countLiteral1.name, resultType countLiteral1) :=
  count_literal_no_arguments [sumB] [] countLiteral1
    { ScanState.init with
      action_name_list := [("action_sum", ⟨.INT32⟩)],
      action_prepare_index_list := [[0]],
      prepare_function_list := [fieldB] }
    { ScanState.init with
      action_name_list := [("action_sum", ⟨.INT32⟩), ("action_countLiteral_1", ⟨.INT32⟩)],
      action_prepare_index_list := [[0], []],
      prepare_function_list := [fieldB] }
    (by unfold isCountLiteral; decide) (by rfl) (by rfl)

/-- C17. Action result type. For every plan the action scan accepts, the
action-name list has exactly one entry per action of the plan, in plan order:
the name of the action with the return type of its first child when it has a
child, of the action node itself when it has none. The name list and the type
list the bundle emits (the arguments of `GetParameterList` in the two
declarations before the `PrepareActionList` call) are the quoted names and the
`arrow::` type strings of these entries, one per action, in plan order. -/
theorem action_result_type (actions : List FunctionNode) (sc : ScanState)
    (hsc : scanActions actions = .ok sc) :
    sc.action_name_list = actions.map (fun a => (a.name, resultType a)) ∧
    sc.action_name_list.length = actions.length ∧
    ∀ (H : Helpers) (impl : Impl) (level : Int) (header_codes : List String)
      (project_output_list : List (String × String)),
      (assemble H impl level sc header_codes project_output_list).aggregate_prepare_codes =
        (selectHashTable H level sc.key_node_list).2.1 ++
        [Frag.line ("std::vector<std::string> action_name_list_" ++ toString level ++ " = \x7b"
           ++ H.GetParameterList (actions.map fun a => "\"" ++ a.name ++ "\"") (some false)
           ++ "\x7d;"),
         Frag.line ("auto action_type_list_" ++ toString level ++ " = \x7b"
           ++ H.GetParameterList
             (actions.map fun a => "arrow::" ++ H.GetArrowTypeDefString (resultType a))
             (some false)
           ++ "\x7d;"),
         Frag.line ("PrepareActionList(action_name_list_" ++ toString level
           ++ ", action_type_list_" ++ toString level ++ ", &aggr_action_list_"
           ++ toString level ++ ");")] := by
  have hn : sc.action_name_list = actions.map (fun a => (a.name, resultType a)) := by
    have := scanFrom_name_list ScanState.init sc actions hsc
    simpa [ScanState.init] using this
  refine ⟨hn, by rw [hn, List.length_map], ?_⟩
  intro H impl level hc pol
  simp only [assemble, actionListCodes, hn, List.map_map, Function.comp_def]

/-- C17 at the plan `action_sum(b)`, `action_countLiteral_1(a)`. -/
theorem action_result_type_witness :
    ([("action_sum", ⟨.INT32⟩), ("action_countLiteral_1", ⟨.INT32⟩)] :
        List (String × DataType)) =
      [sumB, countLiteral1].map (fun a => (a.name, resultType a)) ∧
    ([("action_sum", ⟨.INT32⟩), ("action_countLiteral_1", ⟨.INT32⟩)] :
        List (String × DataType)).length = [sumB, countLiteral1].length ∧
    ∀ (H : Helpers) (impl : Impl) (level : Int) (header_codes : List String)
      (project_output_list : List (String × String)),
      (assemble H impl level
        { ScanState.init with
          action_name_list := [("action_sum", ⟨.INT32⟩), ("action_countLiteral_1", ⟨.INT32⟩)],
          action_prepare_index_list := [[0], []],
          prepare_function_list := [fieldB] }
        header_codes project_output_list).aggregate_prepare_codes =
        (selectHashTable H level []).2.1 ++
        [Frag.line ("std::vector<std::string> action_name_list_" ++ toString level ++ " = \x7b"
           ++ H.GetParameterList ([sumB, countLiteral1].map fun a => "\"" ++ a.name ++ "\"")
             (some false)
           ++ "\x7d;"),
         Frag.line ("auto action_type_list_" ++ toString level ++ " = \x7b"
           ++ H.GetParameterList
             ([sumB, countLiteral1].map fun a =>
               "arrow::" ++ H.GetArrowTypeDefString (resultType a))
             (some false)
           ++ "\x7d;"),
         Frag.line ("PrepareActionList(action_name_list_" ++ toString level
           ++ ", action_type_list_" ++ toString level ++ ", &aggr_action_list_"
           ++ toString level ++ ");")] :=
  action_result_type [sumB, countLiteral1]
    { ScanState.init with
      action_name_list := [("action_sum", ⟨.INT32⟩), ("action_countLiteral_1", ⟨.INT32⟩)],
      action_prepare_index_list := [[0], []],
      prepare_function_list := [fieldB] }
    (by rfl)

/-! ## Composite-row emission -/

/-- C18. Composite-row emission. For every plan with `k >= 2` key slots on
which `DoCodeGen` succeeds: the bundle declares one row buffer, by the line
`std::shared_ptr<UnsafeRow> aggr_key_<level>_unsafe_row =
std::make_shared<UnsafeRow>(k);`, and holds the header
`third_party/row_wise_memory/unsafe_row.h`; the prepare block, snippets apart,
is the declaration of the validity flag, the reset of the row buffer, then for
the `j`-th key slot in key order the branch on the validity flag of that key
that appends its value at field index `j` when valid and marks field index `j`
null when not, then the key as the string of the data of the row buffer up to
its cursor; the field indices are `0, 1, .., k-1`, each once; and the snippets
the block writes are those of the key slots, in key order. -/
theorem composite_row_emission {σ : Type} (H : Helpers) (visit : Evaluator σ) (impl : Impl)
    (level : Int) (s s1 : σ) (ctx : CodeGenContext) (sc : ScanState)
    (hsc : scanActions impl.action_list_ = .ok sc)
    (h : DoCodeGen H visit impl level s = .ok (ctx, s1))
    (hk : 2 ≤ sc.key_index_list.length) :
    ∃ header_codes project_output_list,
      evalPool visit level sc.prepare_function_list
        (baseHeaders ++ (selectHashTable H level sc.key_node_list).1, [], s) =
          .ok (header_codes, project_output_list, s1) ∧
      ctx.unsafe_row_prepare_codes =
        [Frag.line ("std::shared_ptr<UnsafeRow> " ++ ("aggr_key_" ++ toString level)
          ++ "_unsafe_row = std::make_shared<UnsafeRow>("
          ++ toString sc.key_index_list.length ++ ");")] ∧
      "#include \"third_party/row_wise_memory/unsafe_row.h\"" ∈ ctx.header_codes ∧
      withoutSnippets ctx.prepare_codes =
        [Frag.line ("auto " ++ ("aggr_key_" ++ toString level ++ "_validity") ++ " = "
           ++ "true;"),
         Frag.line (("aggr_key_" ++ toString level) ++ "_unsafe_row->reset();")]
        ++ (sc.key_index_list.enumFrom 0).flatMap
          (fun p => fieldBranch level p.1 (entry project_output_list p.2).1)
        ++ [Frag.line ("auto " ++ ("aggr_key_" ++ toString level) ++ " = std::string("
           ++ ("aggr_key_" ++ toString level) ++ "_unsafe_row->data, "
           ++ ("aggr_key_" ++ toString level) ++ "_unsafe_row->cursor);")] ∧
      (sc.key_index_list.enumFrom 0).map (·.1) = List.range sc.key_index_list.length ∧
      (snippetWrites ctx.prepare_codes).map (·.1) = sc.key_index_list := by
  obtain ⟨sc', hc, pol, hsc', hev, hctx⟩ := DoCodeGen_ok H visit impl level s s1 ctx h
  rw [hsc] at hsc'
  injection hsc' with hsc'
  subst hsc'
  obtain ⟨hrow, hhdr, htext⟩ := keyCodes_rows level sc.key_index_list pol hk
  refine ⟨hc, pol, hev, ?_, ?_, ?_, enumFrom_fst_range _, ?_⟩
  · rw [hctx]; simp only [assemble]; rw [hrow]; rfl
  · rw [hctx]; simp [assemble, hhdr, unsafeRowHeader]
  · rw [hctx]; simp only [assemble]; exact htext
  · rw [hctx]
    simp only [assemble]
    rw [(keyCodes_writes level sc.key_index_list pol).1, writeSnippets_slots]

/-- C18 at the plan `action_groupby(a, b)`. -/
theorem composite_row_emission_witness :
    ∃ header_codes project_output_list,
      evalPool sampleEvaluator (0 : Int) twoKeyScan.prepare_function_list
        (baseHeaders ++ (selectHashTable sampleHelpers (0 : Int) twoKeyScan.key_node_list).1, [], ()) =
          .ok (header_codes, project_output_list, ()) ∧
      twoKeyBundle.unsafe_row_prepare_codes =
        [Frag.line ("std::shared_ptr<UnsafeRow> " ++ ("aggr_key_" ++ toString (0 : Int))
          ++ "_unsafe_row = std::make_shared<UnsafeRow>("
          ++ toString twoKeyScan.key_index_list.length ++ ");")] ∧
      "#include \"third_party/row_wise_memory/unsafe_row.h\"" ∈ twoKeyBundle.header_codes ∧
      withoutSnippets twoKeyBundle.prepare_codes =
        [Frag.line ("auto " ++ ("aggr_key_" ++ toString (0 : Int) ++ "_validity") ++ " = "
           ++ "true;"),
         Frag.line (("aggr_key_" ++ toString (0 : Int)) ++ "_unsafe_row->reset();")]
        ++ (twoKeyScan.key_index_list.enumFrom 0).flatMap
          (fun p => fieldBranch (0 : Int) p.1 (entry project_output_list p.2).1)
        ++ [Frag.line ("auto " ++ ("aggr_key_" ++ toString (0 : Int)) ++ " = std::string("
           ++ ("aggr_key_" ++ toString (0 : Int)) ++ "_unsafe_row->data, "
           ++ ("aggr_key_" ++ toString (0 : Int)) ++ "_unsafe_row->cursor);")] ∧
      (twoKeyScan.key_index_list.enumFrom 0).map (·.1) = List.range twoKeyScan.key_index_list.length ∧
      (snippetWrites twoKeyBundle.prepare_codes).map (·.1) = twoKeyScan.key_index_list :=
  composite_row_emission sampleHelpers sampleEvaluator twoKeyImpl 0 () () twoKeyBundle
    twoKeyScan (by rfl) (by rfl) (by decide)

/-! ## The key count -/

theorem slot_unique (pool : List Node) (i j : Nat) (m m' : Node)
    (hnd : (pool.map Node.ToString).Nodup) (hi : pool[i]? = some m) (hj : pool[j]? = some m')
    (h : m.ToString = m'.ToString) : i = j := by
  have h1 := findSlot_of_nodup m pool i m hnd hi rfl
  have h2 := findSlot_of_nodup m pool j m' hnd hj h.symm
  rw [h1] at h2
  injection h2

/-- C19. The key count counts repeats. After the action scan, `key_index_list`
and `key_node_list` have the same length: the number of children of the
`action_groupby` actions, every occurrence counted. In particular, when the
group-by children are two expressions with the same rendering, the key slots
are twice the one pool slot that holds that expression and the key count is 2;
and every bundle `DoCodeGen` returns for such a plan holds the header
`precompile/hash_map.h`, declares `std::shared_ptr<...HashMap>
aggr_hash_table_<level>;` over the string type and constructs it with
`std::make_shared<...HashMap>(ctx_->memory_pool())`, declares the row buffer
`std::make_shared<UnsafeRow>(2)`, and its prepare block fills the fields 0 and
1 of the row from the value of that one slot, whose snippet it writes at both
fields. -/
theorem key_count_counts_repeats (actions : List FunctionNode) (sc : ScanState)
    (hsc : scanActions actions = .ok sc) :
    sc.key_index_list.length = sc.key_node_list.length ∧
    sc.key_node_list.length = (groupByChildren actions).length ∧
    (groupByChildren actions).length =
      ((actions.filter fun a => decide (a.name = "action_groupby")).map
        (fun a => a.children.length)).sum ∧
    ∀ e1 e2, groupByChildren actions = [e1, e2] → e1.ToString = e2.ToString →
      ∃ i m, sc.key_index_list = [i, i] ∧
        sc.prepare_function_list[i]? = some m ∧ m.ToString = e1.ToString ∧
        (∀ j m', sc.prepare_function_list[j]? = some m' →
          m'.ToString = e1.ToString → j = i) ∧
        ∀ (σ : Type) (H : Helpers) (visit : Evaluator σ) (impl : Impl) (level : Int)
          (s s1 : σ) (ctx : CodeGenContext),
          impl.action_list_ = actions →
          DoCodeGen H visit impl level s = .ok (ctx, s1) →
          ∃ header_codes project_output_list,
            evalPool visit level sc.prepare_function_list
              (baseHeaders ++ ["#include \"precompile/hash_map.h\""], [], s) =
                .ok (header_codes, project_output_list, s1) ∧
            "#include \"precompile/hash_map.h\"" ∈ ctx.header_codes ∧
            "#include \"third_party/row_wise_memory/unsafe_row.h\"" ∈ ctx.header_codes ∧
            (∃ rest, ctx.definition_codes =
              Frag.line ("std::shared_ptr<" ++ H.GetTypeString ⟨.STRING⟩ ""
                ++ "HashMap> aggr_hash_table_" ++ toString level ++ ";") :: rest) ∧
            (∃ rest, ctx.aggregate_prepare_codes =
              Frag.line ("aggr_hash_table_" ++ toString level ++ " = std::make_shared<"
                ++ H.GetTypeString ⟨.STRING⟩ "" ++ "HashMap>(ctx_->memory_pool());")
                :: rest) ∧
            ctx.unsafe_row_prepare_codes =
              [Frag.line ("std::shared_ptr<UnsafeRow> " ++ ("aggr_key_" ++ toString level)
                ++ "_unsafe_row = std::make_shared<UnsafeRow>(" ++ "2" ++ ");")] ∧
            withoutSnippets ctx.prepare_codes =
              [Frag.line ("auto " ++ ("aggr_key_" ++ toString level ++ "_validity") ++ " = "
                 ++ "true;"),
               Frag.line (("aggr_key_" ++ toString level) ++ "_unsafe_row->reset();")]
              ++ fieldBranch level 0 (entry project_output_list i).1
              ++ fieldBranch level 1 (entry project_output_list i).1
              ++ [Frag.line ("auto " ++ ("aggr_key_" ++ toString level) ++ " = std::string("
                 ++ ("aggr_key_" ++ toString level) ++ "_unsafe_row->data, "
                 ++ ("aggr_key_" ++ toString level) ++ "_unsafe_row->cursor);")] ∧
            (snippetWrites ctx.prepare_codes).map (·.1) = [i, i] := by
  have hinv := ScanInv.init.scanFrom actions hsc
  have hkn : sc.key_node_list = groupByChildren actions := by simpa using hinv.key_nodes
  refine ⟨hinv.key_lengths, by rw [hkn], ?_, ?_⟩
  · simp [groupByChildren, List.length_flatMap, Function.comp_def]
  · intro e1 e2 he hsame
    have hks := hinv.key_slots
    rw [hkn, he] at hks
    have hlen : sc.key_index_list.length = 2 := by
      rw [hinv.key_lengths, hkn, he]; rfl
    match hkl : sc.key_index_list, hlen with
    | [i, j], _ =>
      rw [hkl] at hks
      simp only [List.map_cons, List.map_nil, List.cons.injEq, and_true] at hks
      obtain ⟨h1, h2⟩ := hks
      obtain ⟨m, hm, hmt⟩ := Option.map_eq_some'.mp h1
      obtain ⟨m', hm', hmt'⟩ := Option.map_eq_some'.mp h2
      have hij : i = j :=
        slot_unique _ i j m m' hinv.pool_nodup hm hm' (by rw [hmt, hmt', hsame])
      subst hij
      refine ⟨i, m, rfl, hm, hmt, ?_, ?_⟩
      · intro k m'' hk hk'
        exact slot_unique _ k i m'' m hinv.pool_nodup hk hm (by rw [hk', hmt])
      · intro σ H visit impl level s s1 ctx himpl h
        obtain ⟨sc', hc, pol, hsc', hev, hctx⟩ := DoCodeGen_ok H visit impl level s s1 ctx h
        rw [himpl, hsc] at hsc'
        injection hsc' with hsc'
        subst hsc'
        have hsel : selectHashTable H level sc.key_node_list =
            (["#include \"precompile/hash_map.h\""],
             [.line ("aggr_hash_table_" ++ toString level ++ " = std::make_shared<"
                ++ H.GetTypeString ⟨.STRING⟩ "" ++ "HashMap>(ctx_->memory_pool());")],
             [.line ("std::shared_ptr<" ++ H.GetTypeString ⟨.STRING⟩ ""
                ++ "HashMap> aggr_hash_table_" ++ toString level ++ ";")]) := by
          rw [hkn, he]
          simp [selectHashTable, useStringHashMap]
        rw [hsel] at hev
        have hhdr := evalPool_headers visit level _ _ _ _ _ _ _ hev
        obtain ⟨hrow, hkh, htext⟩ := keyCodes_rows level [i, i] pol (by simp)
        refine ⟨hc, pol, hev, ?_, ?_, ⟨(actionListCodes H level sc.action_name_list).1, ?_⟩,
          ⟨(actionListCodes H level sc.action_name_list).2, ?_⟩, ?_, ?_, ?_⟩
        · rw [hctx]
          simp only [assemble, List.mem_append]
          left; left
          exact hhdr.subset (by simp)
        · rw [hctx]; simp [assemble, hkl, hkh, unsafeRowHeader]
        · rw [hctx]; simp [assemble, hsel]
        · rw [hctx]; simp [assemble, hsel]
        · have h2 : toString (2 : Nat) = "2" := by decide
          rw [hctx]; simp only [assemble, hkl]; rw [hrow]
          show [rowBufferDecl level 2] = _
          unfold rowBufferDecl
          rw [h2]
        · rw [hctx]; simp only [assemble, hkl]; rw [htext]
          simp [List.enumFrom_cons, List.flatMap_cons]
        · rw [hctx]
          simp only [assemble, hkl]
          rw [(keyCodes_writes level [i, i] pol).1, writeSnippets_slots]

/-- C19 at the kernel `action_groupby(a)`, `action_groupby(a)`, whose group-by
children are twice `a` and for which `DoCodeGen` returns a bundle. -/
theorem key_count_counts_repeats_witness :
    (groupByChildren [groupByA, groupByA] = [fieldA, fieldA] ∧
      repeatedKeyImpl.action_list_ = [groupByA, groupByA] ∧
      DoCodeGen sampleHelpers sampleEvaluator repeatedKeyImpl 0 () =
        .ok (repeatedKeyBundle, ())) ∧
    repeatedKeyScan.key_index_list.length = repeatedKeyScan.key_node_list.length ∧
    repeatedKeyScan.key_node_list.length = (groupByChildren [groupByA, groupByA]).length ∧
    (groupByChildren [groupByA, groupByA]).length =
      (([groupByA, groupByA].filter fun a => decide (a.name = "action_groupby")).map
        (fun a => a.children.length)).sum ∧
    ∀ e1 e2, groupByChildren [groupByA, groupByA] = [e1, e2] → e1.ToString = e2.ToString →
      ∃ i m, repeatedKeyScan.key_index_list = [i, i] ∧
        repeatedKeyScan.prepare_function_list[i]? = some m ∧ m.ToString = e1.ToString ∧
        (∀ j m', repeatedKeyScan.prepare_function_list[j]? = some m' →
          m'.ToString = e1.ToString → j = i) ∧
        ∀ (σ : Type) (H : Helpers) (visit : Evaluator σ) (impl : Impl) (level : Int)
          (s s1 : σ) (ctx : CodeGenContext),
          impl.action_list_ = [groupByA, groupByA] →
          DoCodeGen H visit impl level s = .ok (ctx, s1) →
          ∃ header_codes project_output_list,
            evalPool visit level repeatedKeyScan.prepare_function_list
              (baseHeaders ++ ["#include \"precompile/hash_map.h\""], [], s) =
                .ok (header_codes, project_output_list, s1) ∧
            "#include \"precompile/hash_map.h\"" ∈ ctx.header_codes ∧
            "#include \"third_party/row_wise_memory/unsafe_row.h\"" ∈ ctx.header_codes ∧
            (∃ rest, ctx.definition_codes =
              Frag.line ("std::shared_ptr<" ++ H.GetTypeString ⟨.STRING⟩ ""
                ++ "HashMap> aggr_hash_table_" ++ toString level ++ ";") :: rest) ∧
            (∃ rest, ctx.aggregate_prepare_codes =
              Frag.line ("aggr_hash_table_" ++ toString level ++ " = std::make_shared<"
                ++ H.GetTypeString ⟨.STRING⟩ "" ++ "HashMap>(ctx_->memory_pool());")
                :: rest) ∧
            ctx.unsafe_row_prepare_codes =
              [Frag.line ("std::shared_ptr<UnsafeRow> " ++ ("aggr_key_" ++ toString level)
                ++ "_unsafe_row = std::make_shared<UnsafeRow>(" ++ "2" ++ ");")] ∧
            withoutSnippets ctx.prepare_codes =
              [Frag.line ("auto " ++ ("aggr_key_" ++ toString level ++ "_validity") ++ " = "
                 ++ "true;"),
               Frag.line (("aggr_key_" ++ toString level) ++ "_unsafe_row->reset();")]
              ++ fieldBranch level 0 (entry project_output_list i).1
              ++ fieldBranch level 1 (entry project_output_list i).1
              ++ [Frag.line ("auto " ++ ("aggr_key_" ++ toString level) ++ " = std::string("
                 ++ ("aggr_key_" ++ toString level) ++ "_unsafe_row->data, "
                 ++ ("aggr_key_" ++ toString level) ++ "_unsafe_row->cursor);")] ∧
            (snippetWrites ctx.prepare_codes).map (·.1) = [i, i] :=
  ⟨⟨by rfl, by rfl, by rfl⟩,
    key_count_counts_repeats [groupByA, groupByA] repeatedKeyScan (by rfl)⟩

/-! ## Slot indices are in bounds -/

theorem writeSnippets_length (seq : List Nat) (pol : List (String × String)) :
    (writeSnippets seq pol).2.length = pol.length := by
  have := congrArg List.length (writeSnippets_names seq pol)
  simpa using this

theorem ScanInv.key_slots_lt {seen keys : List Node} {st : ScanState} {cur : List Nat}
    (h : ScanInv seen keys st cur) :
    ∀ i ∈ st.key_index_list, i < st.prepare_function_list.length := by
  intro i hi
  by_contra hge
  have hm : (st.prepare_function_list[i]?).map Node.ToString ∈
      st.key_index_list.map (fun i => (st.prepare_function_list[i]?).map Node.ToString) :=
    List.mem_map_of_mem _ hi
  rw [h.key_slots, List.getElem?_eq_none (by omega)] at hm
  simp at hm

theorem ScanInv.arg_slots_lt {seen keys : List Node} {st : ScanState}
    (h : ScanInv seen keys st []) :
    ∀ idx_v ∈ st.action_prepare_index_list, ∀ i ∈ idx_v,
      i < st.prepare_function_list.length := by
  intro idx_v hv i hi
  have hs := h.slots
  simp only [List.append_nil] at hs
  have : i ∈ List.range st.prepare_function_list.length := by
    rw [← hs, mem_firstOccurrences]
    exact List.mem_flatten.mpr ⟨idx_v, hv, hi⟩
  simpa using this

/-- C20. Slot indices are always in bounds. For every plan the action scan
accepts, every index in `key_index_list` and in every entry of
`action_prepare_index_list` is smaller than the final pool size, and
`action_prepare_index_list` has as many entries as `action_name_list`. When
every evaluator call succeeds, `project_output_list` gets exactly one entry
per pool slot, and the key block and the action dispatch leave its length
unchanged; so every lookup `project_output_list[i]` they make, the lookup
`idx_v[0]` of the first argument included, is on an existing entry. -/
theorem slots_in_bounds {σ : Type} (H : Helpers) (visit : Evaluator σ) (impl : Impl)
    (level : Int) (s s1 : σ) (sc : ScanState) (header_codes : List String)
    (project_output_list : List (String × String))
    (hsc : scanActions impl.action_list_ = .ok sc)
    (hev : evalPool visit level sc.prepare_function_list
        (baseHeaders ++ (selectHashTable H level sc.key_node_list).1, [], s) =
          .ok (header_codes, project_output_list, s1)) :
    (∀ i ∈ sc.key_index_list, i < sc.prepare_function_list.length) ∧
    (∀ idx_v ∈ sc.action_prepare_index_list, ∀ i ∈ idx_v,
      i < sc.prepare_function_list.length) ∧
    sc.action_prepare_index_list.length = sc.action_name_list.length ∧
    project_output_list.length = sc.prepare_function_list.length ∧
    (keyCodes level sc.key_index_list project_output_list).project_output_list.length =
      project_output_list.length ∧
    (actionCodes H level sc.action_prepare_index_list 0
      (keyCodes level sc.key_index_list project_output_list).project_output_list).2.1.length =
      project_output_list.length ∧
    (∀ i ∈ sc.key_index_list, i < project_output_list.length) ∧
    (∀ idx_v ∈ sc.action_prepare_index_list,
      (∀ i ∈ idx_v, i < project_output_list.length) ∧
      (idx_v.length > 0 → idx_v.headD 0 < project_output_list.length)) := by
  have hinv := ScanInv.init.scanFrom _ hsc
  obtain ⟨outs, hout, hall⟩ := evalPool_outputs visit level _ _ _ _ _ _ _ hev
  simp only [List.nil_append] at hout
  subst hout
  have hlen : project_output_list.length = sc.prepare_function_list.length :=
    hall.length_eq.symm
  have hkeys := hinv.key_slots_lt
  have hargs := hinv.arg_slots_lt
  have hnames : sc.action_prepare_index_list.length = sc.action_name_list.length := by
    obtain ⟨_, h1, h2⟩ := scanFrom_lists ScanState.init sc impl.action_list_ hsc
    have h3 := congrArg List.length h2
    simp only [ScanState.init, List.length_nil, List.map_nil, List.nil_append, List.length_map,
      Nat.zero_add] at h1 h3
    rw [h1, h3]
  have hkc : (keyCodes level sc.key_index_list project_output_list).project_output_list.length
      = project_output_list.length := by
    rw [(keyCodes_writes level sc.key_index_list project_output_list).2, writeSnippets_length]
  refine ⟨hkeys, hargs, hnames, hlen, hkc, ?_, ?_, ?_⟩
  · rw [(actionCodes_writes H level _ 0 _).2, writeSnippets_length, hkc]
  · intro i hi
    rw [hlen]; exact hkeys i hi
  · intro idx_v hv
    refine ⟨fun i hi => by rw [hlen]; exact hargs idx_v hv i hi, ?_⟩
    intro hpos
    rw [hlen]
    cases idx_v with
    | nil => simp at hpos
    | cons i rest => exact hargs _ hv i (List.mem_cons_self _ _)

/-- C20 at the sample kernel `action_sum(b)`, `action_groupby(a)`. -/
theorem slots_in_bounds_witness :
    (∀ i ∈ sampleScan.key_index_list, i < sampleScan.prepare_function_list.length) ∧
    (∀ idx_v ∈ sampleScan.action_prepare_index_list, ∀ i ∈ idx_v,
      i < sampleScan.prepare_function_list.length) ∧
    sampleScan.action_prepare_index_list.length = sampleScan.action_name_list.length ∧
    sampleOutputs.length = sampleScan.prepare_function_list.length ∧
    (keyCodes 0 sampleScan.key_index_list sampleOutputs).project_output_list.length =
      sampleOutputs.length ∧
    (actionCodes sampleHelpers 0 sampleScan.action_prepare_index_list 0
      (keyCodes 0 sampleScan.key_index_list sampleOutputs).project_output_list).2.1.length =
      sampleOutputs.length ∧
    (∀ i ∈ sampleScan.key_index_list, i < sampleOutputs.length) ∧
    (∀ idx_v ∈ sampleScan.action_prepare_index_list,
      (∀ i ∈ idx_v, i < sampleOutputs.length) ∧
      (idx_v.length > 0 → idx_v.headD 0 < sampleOutputs.length)) :=
  slots_in_bounds sampleHelpers sampleEvaluator sampleImpl 0 () () sampleScan
    (baseHeaders ++ ["#include \"precompile/sparse_hash_map.h\""]) sampleOutputs
    (by rfl) (by rfl)

end HashAggregate
